import Mathlib

/-!
# abcdgui: geometry kernel, layout algebra and interaction session

A shallow embedding of `abcdgui.cpp` / `abcdgui.h` / `abcddraw.h`.

Conventions of the embedding:

* C++ `int` is `Int`.  Signed overflow is undefined behaviour in C++, so the
  embedding describes the executions in which it does not occur.
  `uint32_t` arithmetic is reduced modulo `2^32` explicitly.
* A conversion of a `float` or `double` to `int` truncates toward zero; where
  C++ leaves it undefined (a NaN, an infinity, a value outside the range of
  `int`) the embedding takes the result of the x86 conversion instructions,
  `-2^31` (see `Flt.toInt`).
* Functions that mutate an argument through a reference or pointer return the
  new value of that argument next to their result.
* Calls on the drawing backend (`Draw`) that only paint are not part of the
  embedding: they read the session and the rectangles but write neither.
* A widget identity (`widget *`) is modelled by `widget_ref`; the null pointer
  is `none`.
-/

namespace abcd

/-! ## abcddraw.h : point, size, rect -/

/-- The `point` struct of abcddraw.h. -/
structure point where
  x : Int
  y : Int
deriving DecidableEq, Repr

/-- The `rect` struct of abcddraw.h. -/
structure rect where
  x1 : Int
  y1 : Int
  x2 : Int
  y2 : Int
deriving DecidableEq, Repr

/-- Method `rect::width`. -/
def rect.width (r : rect) : Int := r.x2 - r.x1

/-- Method `rect::height`. -/
def rect.height (r : rect) : Int := r.y2 - r.y1

/-- Default constructor `rect()`: all four coordinates are zero. -/
def rect.zero : rect := ⟨0, 0, 0, 0⟩

/-! ## abcdgui.cpp : geometry kernel -/

/-- Function `contains(const rect &r, point pt)`. -/
def contains (r : rect) (pt : point) : Bool :=
  let b := decide (r.x1 ≤ pt.x) && decide (pt.x < r.x2)
  b && decide (r.y1 ≤ pt.y) && decide (pt.y < r.y2)

/-- Function `move(rect &r, int x, int y)`; returns the new value of `r`. -/
def move (r : rect) (x y : Int) : rect :=
  let w := r.width
  let h := r.height
  ⟨x, y, x + w, y + h⟩

/-- Function `inflate(rect &r, int dx, int dy)`; returns the new value of `r`. -/
def inflate (r : rect) (dx dy : Int) : rect :=
  ⟨r.x1 - dx, r.y1 - dy, r.x2 + dx, r.y2 + dy⟩

/-- Function `split(rect &r, int side, int size)`.  The first component is the
returned strip `r2`, the second the value left in `r` (the remainder).
A `side` outside `0..3` falls through the `switch`. -/
def split (r : rect) (side : Int) (size : Int) : rect × rect :=
  let r2 := r
  if side = 0 then
    if size ≥ r.width then (r2, { r with x1 := r.x2 })
    else
      let r2 := { r2 with x2 := r2.x1 + size }
      (r2, { r with x1 := r2.x2 })
  else if side = 2 then
    if size ≥ r.width then (r2, { r with x2 := r.x1 })
    else
      let r2 := { r2 with x1 := r2.x2 - size }
      (r2, { r with x2 := r2.x1 })
  else if side = 1 then
    if size ≥ r.height then (r2, { r with y1 := r.y2 })
    else
      let r2 := { r2 with y2 := r2.y1 + size }
      (r2, { r with y1 := r2.y2 })
  else if side = 3 then
    if size ≥ r.height then (r2, { r with y2 := r.y1 })
    else
      let r2 := { r2 with y1 := r2.y2 - size }
      (r2, { r with y2 := r2.y1 })
  else (r2, r)

/-- Function `adjust(rect &r, int w, int h, int xa, int ya)` (fixed-size
overload).  `/` on `int` truncates toward zero (`Int.tdiv`). -/
def adjust (r : rect) (w h : Int) (xa ya : Int) : rect :=
  let x1 :=
    if xa < 0 then r.x1
    else if xa > 0 then r.x2 - w
    else r.x1 + Int.tdiv r.width 2 - Int.tdiv w 2
  let y1 :=
    if ya < 0 then r.y1
    else if ya > 0 then r.y2 - h
    else r.y1 + Int.tdiv r.height 2 - Int.tdiv h 2
  ⟨x1, y1, x1 + w, y1 + h⟩

/-- The `span` struct of abcdgui.h. -/
structure span where
  padding1 : Int
  length : Int
  padding2 : Int
deriving DecidableEq, Repr

/-- Method `span::size`. -/
def span.size (s : span) : Int := s.padding1 + s.length + s.padding2

/-- Function `pad(rect r, span h, span v)`. -/
def pad (r : rect) (h v : span) : rect :=
  if h.padding1 + h.padding2 < r.width ∧ v.padding1 + v.padding2 < r.height then
    ⟨r.x1 + h.padding1, r.y1 + v.padding1, r.x2 - h.padding2, r.y2 - v.padding2⟩
  else rect.zero

/-! ## Vocabulary of the specification for rectangles -/

/-- Extent of a rectangle on the axis a `split` side cuts: the width for
left (0) and right (2), the height for top (1) and bottom (3). -/
def axis_extent (r : rect) (side : Int) : Int :=
  if side = 0 ∨ side = 2 then r.width else r.height

/-- Bounding box of two rectangles: the smallest coordinates of the leading
edges and the largest coordinates of the trailing edges. -/
def bounding_box (a b : rect) : rect :=
  ⟨min a.x1 b.x1, min a.y1 b.y1, max a.x2 b.x2, max a.y2 b.y2⟩

/-- Two rectangles have no coordinate in common on the axis of `side`, each
rectangle covering the half-open interval between its two edges. -/
def disjoint_on_axis (a b : rect) (side : Int) : Prop :=
  if side = 0 ∨ side = 2 then ∀ x : Int, ¬ ((a.x1 ≤ x ∧ x < a.x2) ∧ (b.x1 ≤ x ∧ x < b.x2))
  else ∀ y : Int, ¬ ((a.y1 ≤ y ∧ y < a.y2) ∧ (b.y1 ≤ y ∧ y < b.y2))

/-! ## Floating point

`float` and `double` values are modelled by `Flt`: a finite value is an integer
significand times a power of two, and every arithmetic operation computes the
exact result and rounds it once to the nearest value of the format, ties to
even, as IEEE 754 prescribes.  The sign of zero is not represented (no
operation of the program divides by a negative zero).
-/

/-- A binary floating-point format: `prec` bits of significand, `qmin` the
exponent of the least significant bit of the subnormal numbers, `emax` the
largest exponent of a finite number. -/
structure float_format where
  prec : Nat
  qmin : Int
  emax : Int
deriving DecidableEq, Repr

/-- The C++ type `float` (IEEE 754 binary32). -/
def binary32 : float_format := ⟨24, -149, 127⟩

/-- The C++ type `double` (IEEE 754 binary64). -/
def binary64 : float_format := ⟨53, -1074, 1023⟩

/-- A floating-point datum; `fin m e` is the number `m * 2^e`. -/
inductive Flt where
  | nan : Flt
  | inf (neg : Bool) : Flt
  | fin (m : Int) (e : Int) : Flt
deriving DecidableEq, Repr

/-- Two to the power `k` for `k ≥ 0`, and `1` for negative `k`. -/
def pow2 (k : Int) : Nat := 2 ^ k.toNat

/-- Worker of `ilog2`, by recursion on a bound of the number of bits. -/
def ilog2_aux : Nat → Nat → Nat
  | 0, _ => 0
  | fuel + 1, n => if n < 2 then 0 else ilog2_aux fuel (n / 2) + 1

/-- Position of the most significant bit: `floor (log2 n)` for `n > 0`. -/
def ilog2 (n : Nat) : Nat := ilog2_aux n n

/-- Round the rational number `n / d` (`d > 0`) to the nearest number of the
format `f`, ties to even; results beyond the largest finite number become an
infinity, results below the subnormal range become zero. -/
def Flt.round (f : float_format) (n : Int) (d : Nat) : Flt :=
  if n = 0 then .fin 0 0
  else
    let a := n.natAbs
    let e0 : Int := (ilog2 a : Int) - (ilog2 d : Int)
    let e : Int := if d * pow2 e0 ≤ a * pow2 (-e0) then e0 else e0 - 1
    let q : Int := max (e - (f.prec : Int) + 1) f.qmin
    let num := a * pow2 (-q)
    let den := d * pow2 q
    let m0 := num / den
    let r := num % den
    let m := if 2 * r < den then m0 else if den < 2 * r then m0 + 1
             else if m0 % 2 = 0 then m0 else m0 + 1
    let mq : Nat × Int := if m = 2 ^ f.prec then (2 ^ (f.prec - 1), q + 1) else (m, q)
    if mq.1 = 0 then .fin 0 0
    else if f.emax < mq.2 + (f.prec : Int) - 1 then .inf (decide (n < 0))
    else .fin (if n < 0 then -(mq.1 : Int) else (mq.1 : Int)) mq.2

/-- Conversion of an integer to the format `f`. -/
def Flt.ofInt (f : float_format) (n : Int) : Flt := Flt.round f n 1

/-- Conversion of a floating-point datum to the format `f`. -/
def Flt.cvt (f : float_format) : Flt → Flt
  | .fin m e => Flt.round f (m * pow2 e) (pow2 (-e))
  | x => x

/-- Unary minus. -/
def Flt.neg : Flt → Flt
  | .nan => .nan
  | .inf s => .inf (!s)
  | .fin m e => .fin (-m) e

/-- Addition in the format `f`. -/
def Flt.add (f : float_format) : Flt → Flt → Flt
  | .fin m1 e1, .fin m2 e2 =>
      let e := min e1 e2
      Flt.round f ((m1 * pow2 (e1 - e) + m2 * pow2 (e2 - e)) * pow2 e) (pow2 (-e))
  | .nan, _ => .nan
  | _, .nan => .nan
  | .inf s, .inf t => if s = t then .inf s else .nan
  | .inf s, .fin _ _ => .inf s
  | .fin _ _, .inf t => .inf t

/-- Subtraction in the format `f`. -/
def Flt.sub (f : float_format) (a b : Flt) : Flt := Flt.add f a (Flt.neg b)

/-- Multiplication in the format `f`. -/
def Flt.mul (f : float_format) : Flt → Flt → Flt
  | .fin m1 e1, .fin m2 e2 =>
      Flt.round f (m1 * m2 * pow2 (e1 + e2)) (pow2 (-(e1 + e2)))
  | .nan, _ => .nan
  | _, .nan => .nan
  | .inf s, .inf t => .inf (s != t)
  | .inf s, .fin m _ => if m = 0 then .nan else .inf (s != decide (m < 0))
  | .fin m _, .inf t => if m = 0 then .nan else .inf (decide (m < 0) != t)

/-- Division in the format `f`. -/
def Flt.div (f : float_format) : Flt → Flt → Flt
  | .fin m1 e1, .fin m2 e2 =>
      if m2 = 0 then (if m1 = 0 then .nan else .inf (decide (m1 < 0)))
      else
        let s : Int := if m2 < 0 then -1 else 1
        Flt.round f (s * m1 * pow2 (e1 - e2)) (m2.natAbs * pow2 (e2 - e1))
  | .nan, _ => .nan
  | _, .nan => .nan
  | .inf _, .inf _ => .nan
  | .inf s, .fin m _ => .inf (s != decide (m < 0))
  | .fin _ _, .inf _ => .fin 0 0

/-- The comparison `a < b`; false when an operand is a NaN. -/
def Flt.lt : Flt → Flt → Bool
  | .fin m1 e1, .fin m2 e2 =>
      let e := min e1 e2
      decide (m1 * pow2 (e1 - e) < m2 * pow2 (e2 - e))
  | .nan, _ => false
  | _, .nan => false
  | .inf s, .inf t => s && !t
  | .inf s, .fin _ _ => s
  | .fin _ _, .inf t => !t

/-- The comparison `a == b`; false when an operand is a NaN. -/
def Flt.eq : Flt → Flt → Bool
  | .fin m1 e1, .fin m2 e2 =>
      let e := min e1 e2
      decide (m1 * pow2 (e1 - e) = m2 * pow2 (e2 - e))
  | .nan, _ => false
  | _, .nan => false
  | .inf s, .inf t => s == t
  | .inf _, .fin _ _ => false
  | .fin _ _, .inf _ => false

/-- The comparison `a != b`. -/
def Flt.ne (a b : Flt) : Bool := !Flt.eq a b

/-- Template `std::max(a, b)`: `(a < b) ? b : a`. -/
def Flt.max (a b : Flt) : Flt := if Flt.lt a b then b else a

/-- Template `std::min(a, b)`: `(b < a) ? b : a`. -/
def Flt.min (a b : Flt) : Flt := if Flt.lt b a then b else a

/-- Conversion to `int`, which truncates toward zero.  C++ leaves the
conversion undefined for a NaN, for an infinity and for a number whose
truncation is outside the range of `int`; the embedding takes the value the
x86 conversion instructions deliver in these cases, `-2^31`. -/
def Flt.toInt : Flt → Int
  | .fin m e =>
      let z := Int.tdiv (m * pow2 e) (pow2 (-e))
      if -2147483648 ≤ z ∧ z ≤ 2147483647 then z else -2147483648
  | _ => -2147483648

/-- Function `ceil` of the C library, with the result in the format `f`. -/
def Flt.ceil (f : float_format) : Flt → Flt
  | .fin m e => Flt.round f (-(Int.fdiv (-(m * pow2 e)) (pow2 (-e)))) 1
  | x => x

/-- The real number a floating-point datum denotes, when it is finite. -/
def Flt.toRat : Flt → Option ℚ
  | .fin m e => some ((m : ℚ) * (pow2 e : ℚ) / (pow2 (-e) : ℚ))
  | _ => none

/-- The literal `0.f`. -/
def Flt.zero : Flt := .fin 0 0

/-- The literal `1.f`. -/
def Flt.one : Flt := Flt.ofInt binary32 1

/-! ## abcdgui.h : the interaction session -/

/-- A widget identity, the value of a non-null `widget *`: the address of the
window's own `background` member, or the address of a widget the caller owns. -/
inductive widget_ref where
  | background : widget_ref
  | addr (a : Nat) : widget_ref
deriving DecidableEq, Repr

/-- The `window` struct: the session state the widgets read and write.
The members `m_theme` and `draw` only serve painting. -/
structure window where
  mouse_down : Bool
  mouse_button : Nat
  mouse_x : Int
  mouse_y : Int
  mouse_widget : Option widget_ref
  focus_widget : Option widget_ref
  key_down : Bool
  key_utf8 : List Nat
deriving DecidableEq, Repr

/-- The state a `window` has after construction (the member initialisers). -/
def window.init : window :=
  { mouse_down := false, mouse_button := 0, mouse_x := -1, mouse_y := -1,
    mouse_widget := none, focus_widget := none, key_down := false, key_utf8 := [] }

/-- Method `window::end`. -/
def window.end_frame (w : window) : window :=
  let w := if w.mouse_down && w.mouse_widget == none then
             { w with mouse_widget := some widget_ref.background } else w
  let w := if !w.mouse_down then { w with mouse_widget := none } else w
  { w with key_down := false }

/-- Method `window::begin_widget(rect &r)`: the new value of `r`. -/
def begin_widget (r : rect) : rect := move r 0 0

/-- The `slider_widget` struct (state next to the identity). -/
structure slider_widget where
  delta : Int
deriving DecidableEq, Repr

/-- The `knob_widget` struct (state next to the identity). -/
structure knob_widget where
  x1 : Flt
  y1 : Flt
  angle : Flt
deriving DecidableEq, Repr

/-- The `list_widget` struct (state next to the identity). -/
structure list_widget where
  yref : Int
  yvalue : Flt
  scrolling : Bool
deriving DecidableEq, Repr

/-- The `panel_widget` struct (state next to the identity). -/
structure panel_widget where
  r : rect
deriving DecidableEq, Repr

/-! ## abcdgui.cpp : panel and label -/

/-- Function `begin_panel`: the session, the panel token and the returned
rectangle. -/
def begin_panel (win : window) (r : rect) : window × panel_widget × rect :=
  let id : panel_widget := { r := r }
  let r := begin_widget r
  let win := { win with mouse_x := win.mouse_x - id.r.x1 }
  let win := { win with mouse_y := win.mouse_y - id.r.y1 }
  (win, id, r)

/-- Function `end_panel`: the session and the returned rectangle. -/
def end_panel (win : window) (id : panel_widget) : window × rect :=
  let win := { win with mouse_x := win.mouse_x + id.r.x1 }
  let win := { win with mouse_y := win.mouse_y + id.r.y1 }
  (win, id.r)

/-- Function `label`: it only paints, the session is left as it is. -/
def label (win : window) (_id : widget_ref) (_r : rect) : window := win

/-! ## abcdgui.cpp : button, checkbutton, radiobutton -/

/-- Function `button`: the session on return and the result `clicked`.
The `text` argument is only painted. -/
def button (win : window) (id : widget_ref) (r : rect) : window × Bool :=
  let mouse : point := ⟨win.mouse_x - r.x1, win.mouse_y - r.y1⟩
  let r := begin_widget r
  if contains r mouse then
    if win.mouse_widget = none then
      if win.mouse_down then ({ win with mouse_widget := some id }, false)
      else (win, false)
    else
      if !win.mouse_down && win.mouse_widget == some id then
        ({ win with mouse_widget := none }, true)
      else (win, false)
  else (win, false)

/-- The local `held` of `button`, which selects the painted style. -/
def button_held (win : window) (id : widget_ref) (r : rect) : Bool :=
  let win := (button win id r).1
  win.mouse_down && win.mouse_widget == some id

/-- Function `checkbutton`: the session on return, the new `*value` and the
result `clicked`. -/
def checkbutton (win : window) (id : widget_ref) (r : rect) (value : Bool) :
    window × Bool × Bool :=
  let mouse : point := ⟨win.mouse_x - r.x1, win.mouse_y - r.y1⟩
  let r := begin_widget r
  if contains r mouse then
    if win.mouse_widget = none then
      if win.mouse_down then ({ win with mouse_widget := some id }, value, false)
      else (win, value, false)
    else
      if !win.mouse_down && win.mouse_widget == some id then
        ({ win with mouse_widget := none }, !value, true)
      else (win, value, false)
  else (win, value, false)

/-- Function `radiobutton`: the session on return, the new `*value` and the
result `changed`. -/
def radiobutton (win : window) (id : widget_ref) (r : rect) (index : Int) (value : Int) :
    window × Int × Bool :=
  let mouse : point := ⟨win.mouse_x - r.x1, win.mouse_y - r.y1⟩
  let r := begin_widget r
  let wc : window × Bool :=
    if contains r mouse then
      if win.mouse_widget = none then
        if win.mouse_down then ({ win with mouse_widget := some id }, false)
        else (win, false)
      else
        if !win.mouse_down && win.mouse_widget == some id then
          ({ win with mouse_widget := none }, true)
        else (win, false)
    else (win, false)
  if wc.2 then (wc.1, index, decide (value ≠ index))
  else (wc.1, value, false)

/-! ## abcdgui.cpp : slider -/

/-- What a call of `slider` leaves behind: the session, the widget state, the
value written to `*value`, the result `changed`, and the thumb rectangle it
hands to the drawing backend. -/
structure slider_result where
  win : window
  id : slider_widget
  value : Flt
  changed : Bool
  thumb : rect
deriving DecidableEq, Repr

/-- Function `slider`.  `idp` is the identity (the address `id`), `id` the
state stored at that address.

In the branch "BEFORE THUMB" the source tests `thumb_z1 < 0`, where `thumb_z1`
is the pointer `int *` to the thumb edge, not the edge: the address of a local
object is not below the null pointer, so the test is `false`. -/
def slider (win : window) (idp : widget_ref) (id : slider_widget) (r : rect)
    (thumbsize : Int) (value : Flt) (horz : Bool) : slider_result :=
  let mouse : point := ⟨win.mouse_x - r.x1, win.mouse_y - r.y1⟩
  let r := begin_widget r
  let wp : window × Bool :=
    if contains r mouse then
      if win.mouse_widget = none then
        if win.mouse_down then ({ win with mouse_widget := some idp }, true)
        else (win, false)
      else
        if !win.mouse_down && win.mouse_widget == some idp then
          ({ win with mouse_widget := none }, false)
        else (win, false)
    else (win, false)
  let win := wp.1
  let pressed := wp.2
  let v := value
  let v := Flt.max Flt.zero v
  let v := Flt.min Flt.one v
  let thumb := r
  let mouse_z := if horz then mouse.x else mouse.y
  let r_z1 := if horz then r.x1 else r.y1
  let r_z2 := if horz then r.x2 else r.y2
  let extent := if horz then r.width else r.height
  let thumbsize := min extent thumbsize
  let tracklen := extent - thumbsize
  let v := Flt.max Flt.zero v
  let v := Flt.min Flt.one v
  let z := Flt.toInt (Flt.mul binary32 v (Flt.ofInt binary32 tracklen))
  let thumb_z1 := z
  let thumb_z2 := z + thumbsize
  let thumb_z1_lt_null := false
  -- (delta, thumb_z1, thumb_z2, v)
  let st : Int × Int × Int × Flt :=
    if pressed then
      let delta := mouse_z - thumb_z1
      if delta < 0 then
        let delta := Int.tdiv thumbsize 2
        let thumb_z1 := mouse_z - delta
        let thumb_z2 := thumb_z1 + thumbsize
        let st3 : Int × Int × Int :=
          if thumb_z1_lt_null then
            let delta := mouse_z - r_z1
            let thumb_z1 := mouse_z - delta
            (delta, thumb_z1, thumb_z1 + thumbsize)
          else (delta, thumb_z1, thumb_z2)
        (st3.1, st3.2.1, st3.2.2,
          Flt.div binary32 (Flt.ofInt binary32 st3.2.1) (Flt.ofInt binary32 tracklen))
      else if delta ≥ thumbsize then
        let delta := Int.tdiv thumbsize 2
        let thumb_z1 := mouse_z - delta
        let thumb_z2 := thumb_z1 + thumbsize
        let st3 : Int × Int × Int :=
          if thumb_z2 > r_z2 then
            let delta := thumbsize - (r_z2 - mouse_z)
            let thumb_z1 := mouse_z - delta
            (delta, thumb_z1, thumb_z1 + thumbsize)
          else (delta, thumb_z1, thumb_z2)
        (st3.1, st3.2.1, st3.2.2,
          Flt.div binary32 (Flt.ofInt binary32 st3.2.1) (Flt.ofInt binary32 tracklen))
      else (delta, thumb_z1, thumb_z2, v)
    else
      if win.mouse_widget = some idp then
        let z := min tracklen (mouse_z - id.delta)
        let z := max 0 z
        (id.delta, z, z + thumbsize,
          Flt.div binary32 (Flt.ofInt binary32 z) (Flt.ofInt binary32 tracklen))
      else (id.delta, thumb_z1, thumb_z2, v)
  let v := st.2.2.2
  let thumb : rect :=
    if horz then { thumb with x1 := st.2.1, x2 := st.2.2.1 }
    else { thumb with y1 := st.2.1, y2 := st.2.2.1 }
  let changed := Flt.ne v value
  { win := win, id := { delta := st.1 }, value := v, changed := changed, thumb := thumb }

/-! ## abcdgui.cpp : knob -/

/-- The functions of the C mathematical library `knob` calls on `float`
arguments; they are not part of the repository. -/
structure libm where
  sqrt : Flt → Flt
  asin : Flt → Flt
  acos : Flt → Flt

/-- The constant `M_PI` of `<math.h>`, a `double`. -/
def M_PI : Flt := .fin 7074237752028440 (-51)

/-- The local rectangle `knob` of the function `knob`, computed from the
rectangle `r` as `begin_widget` left it: the centred square the knob is painted
in and hit-tested against. -/
def knob_area (r : rect) : rect :=
  let extent := if r.width < r.height then r.width else r.height
  let x1 := Int.tdiv r.width 2 - Int.tdiv extent 2
  let y1 := Int.tdiv r.height 2 - Int.tdiv extent 2
  ⟨x1, y1, x1 + extent, y1 + extent⟩

/-- What a call of `knob` leaves behind. -/
structure knob_result where
  win : window
  id : knob_widget
  value : Flt
  changed : Bool

/-- Function `knob`.  `idp` is the identity, `id` the state stored there.
`float` operands stay `float`; a quotient by `M_PI` is computed in `double`
and rounded to `float` by the assignment. -/
def knob (m : libm) (win : window) (idp : widget_ref) (id : knob_widget) (r : rect)
    (value : Flt) : knob_result :=
  let f32 := binary32
  let mouse : point := ⟨win.mouse_x - r.x1, win.mouse_y - r.y1⟩
  let r := begin_widget r
  let v := value
  let v := Flt.max Flt.zero v
  let v := Flt.min Flt.one v
  let v := Flt.mul f32 v (Flt.ofInt f32 270)
  let id := { id with angle := v }
  let knob_rect := knob_area r
  let wp : window × Bool :=
    if contains knob_rect mouse then
      if win.mouse_widget = none then
        if win.mouse_down then ({ win with mouse_widget := some idp }, true)
        else (win, false)
      else
        if !win.mouse_down && win.mouse_widget == some idp then
          ({ win with mouse_widget := none }, false)
        else (win, false)
    else (win, false)
  let win := wp.1
  let pressed := wp.2
  let xc := Int.tdiv r.width 2
  let yc := Int.tdiv r.height 2
  let iv : knob_widget × Flt :=
    if pressed then
      ({ id with x1 := Flt.ofInt f32 (mouse.x - xc), y1 := Flt.ofInt f32 (mouse.y - yc) }, v)
    else if win.mouse_widget = some idp then
      let x2 := Flt.ofInt f32 (mouse.x - xc)
      let y2 := Flt.ofInt f32 (mouse.y - yc)
      if Flt.ne x2 id.x1 || Flt.ne y2 id.y1 then
        let v1 := Flt.cvt f32 (m.sqrt (Flt.add f32 (Flt.mul f32 id.x1 id.x1) (Flt.mul f32 id.y1 id.y1)))
        let v2 := Flt.cvt f32 (m.sqrt (Flt.add f32 (Flt.mul f32 x2 x2) (Flt.mul f32 y2 y2)))
        let dir := Flt.cvt f32 (Flt.div binary64
          (Flt.mul f32
            (m.asin (Flt.div f32
              (Flt.sub f32 (Flt.mul f32 id.x1 y2) (Flt.mul f32 x2 id.y1)) (Flt.mul f32 v1 v2)))
            (Flt.ofInt f32 180))
          M_PI)
        let delta := Flt.cvt f32 (Flt.div binary64
          (Flt.mul f32
            (m.acos (Flt.div f32
              (Flt.add f32 (Flt.mul f32 id.x1 x2) (Flt.mul f32 id.y1 y2)) (Flt.mul f32 v1 v2)))
            (Flt.ofInt f32 180))
          M_PI)
        let id := { id with x1 := x2, y1 := y2 }
        let angle := Flt.add f32 id.angle (if Flt.lt Flt.zero dir then delta else Flt.neg delta)
        let angle := Flt.max Flt.zero angle
        let angle := Flt.min (Flt.ofInt f32 270) angle
        ({ id with angle := angle }, angle)
      else (id, v)
    else (id, v)
  let v := Flt.div f32 iv.2 (Flt.ofInt f32 270)
  { win := win, id := iv.1, value := v, changed := Flt.ne v value }

/-! ## abcdgui.cpp : input -/

/-- The value of a `char` holding the byte `b`: C++ leaves it to the platform
whether `char` is signed. -/
def char_value (char_signed : Bool) (b : Nat) : Int :=
  if char_signed && decide (128 ≤ b % 256) then (b % 256 : Int) - 256 else (b % 256 : Int)

/-- Expression `key_utf8[0]`: the first byte, the terminating zero when the
string is empty. -/
def first_char (char_signed : Bool) (s : List Nat) : Int :=
  match s with
  | [] => 0
  | b :: _ => char_value char_signed b

/-- Function `input`: the session on return, the new `value` and the result
`enter`.  Strings are lists of bytes.  `value.substr(0, value.length() - 1)`
drops the last byte; on the empty string the length wraps around and the
whole (empty) string is returned. -/
def input (char_signed : Bool) (win : window) (id : widget_ref) (r : rect)
    (value : List Nat) : window × List Nat × Bool :=
  let mouse : point := ⟨win.mouse_x - r.x1, win.mouse_y - r.y1⟩
  let r := begin_widget r
  let win : window :=
    if contains r mouse then
      if win.mouse_widget = none then
        if win.mouse_down then { win with mouse_widget := some id, focus_widget := some id }
        else win
      else
        if !win.mouse_down && win.mouse_widget == some id then
          { win with mouse_widget := none }
        else win
    else win
  if win.focus_widget == some id && win.key_down then
    if first_char char_signed win.key_utf8 > 31 then (win, value ++ win.key_utf8, false)
    else if first_char char_signed win.key_utf8 = 8 then (win, value.dropLast, false)
    else if first_char char_signed win.key_utf8 = 13 then (win, value, true)
    else (win, value, false)
  else (win, value, false)

/-! ## abcdgui.cpp : list -/

/-- The local enumeration `btn_action` of `list`. -/
inductive btn_action where
  | none : btn_action
  | pressed : btn_action
  | released : btn_action
deriving DecidableEq, Repr

/-- What a call of `list` leaves behind: the session, the widget state, the
new `value` and the result `index_changed`. -/
structure list_result where
  win : window
  id : list_widget
  value : Int
  index_changed : Bool
deriving DecidableEq, Repr

/-- The scrollbar geometry `list` computes when the bar is visible; without a
visible bar `nd`, `ns` and `ratio` are not initialised and not read. -/
structure list_bar where
  r : rect
  scr : rect
  thumb_rect : rect
  nd : Int
  ns : Int
  ratio : Flt

/-- Function `list`.  `idp` is the identity, `id` the state stored there;
`height` is the result of `Draw::get_font_height()`; of `items` only the
size takes part in the interaction. -/
def list (height : Flt) (win : window) (idp : widget_ref) (id : list_widget) (r : rect)
    (items : List String) (value : Int) : list_result :=
  let f32 := binary32
  let mouse : point := ⟨win.mouse_x - r.x1, win.mouse_y - r.y1⟩
  let r := begin_widget r
  let wb : window × btn_action :=
    if contains r mouse then
      if win.mouse_widget = none then
        if win.mouse_down then
          ({ win with mouse_widget := some idp, focus_widget := some idp }, btn_action.pressed)
        else (win, btn_action.none)
      else
        if !win.mouse_down && win.mouse_widget == some idp then
          ({ win with mouse_widget := none }, btn_action.released)
        else (win, btn_action.none)
    else
      if !win.mouse_down && win.mouse_widget == some idp then
        ({ win with mouse_widget := none }, btn_action.released)
      else (win, btn_action.none)
  let win := wb.1
  let btn := wb.2
  let view : Int := Flt.toInt (Flt.ceil f32 (Flt.div f32 (Flt.ofInt f32 r.height) height))
  let doc : Int := (items.length : Int) + 1
  let vbar : Int := r.height
  let vbar_visible : Bool := decide (doc > view)
  let bar : list_bar :=
    if vbar_visible then
      let sp := split r 2 16
      let scr := sp.1
      let r := sp.2
      let thumb : Int := Flt.toInt (Flt.div f32 (Flt.ofInt f32 (vbar * view)) (Flt.ofInt f32 doc))
      let tnr : Int × Int × Int × Flt :=
        if thumb ≥ 12 then
          (thumb, doc - view, vbar - thumb, Flt.div f32 (Flt.ofInt f32 doc) (Flt.ofInt f32 vbar))
        else
          (12, doc - view, vbar - 12,
            Flt.div f32 (Flt.ofInt f32 (doc - view)) (Flt.ofInt f32 (vbar - 12)))
      let thumb := tnr.1
      let ratio := tnr.2.2.2
      let y1 := Flt.toInt (Flt.div f32 id.yvalue ratio)
      { r := r, scr := scr, thumb_rect := { scr with y1 := y1, y2 := y1 + thumb },
        nd := tnr.2.1, ns := tnr.2.2.1, ratio := ratio }
    else
      { r := r, scr := rect.zero, thumb_rect := rect.zero, nd := 0, ns := 0, ratio := Flt.zero }
  let scr := bar.scr
  let ib : list_widget × rect :=
    if vbar_visible && id.scrolling then
      let new_y1 := mouse.y - id.yref
      let new_y1 := max 0 new_y1
      let new_y1 := min bar.ns new_y1
      let yvalue := Flt.min (Flt.ofInt f32 bar.nd) (Flt.mul f32 (Flt.ofInt f32 new_y1) bar.ratio)
      let new_y1 := Flt.toInt (Flt.div f32 yvalue bar.ratio)
      ({ id with yvalue := yvalue }, move bar.thumb_rect bar.thumb_rect.x1 new_y1)
    else (id, bar.thumb_rect)
  let id := ib.1
  let thumb_rect := ib.2
  let k : Int := Flt.toInt (Flt.neg (Flt.ceil f32 id.yvalue))
  let yoffset : Int := Flt.toInt (Flt.mul f32 (Flt.ofInt f32 k) height)
  -- (id, value, index_changed)
  let res : list_widget × Int × Bool :=
    if btn = btn_action.pressed then
      if vbar_visible && contains scr mouse then
        if contains thumb_rect mouse then
          ({ id with yref := mouse.y - thumb_rect.y1, scrolling := true }, value, false)
        else (id, value, false)
      else
        let new_value : Int :=
          Flt.toInt (Flt.div f32 (Flt.ofInt f32 (-yoffset + mouse.y)) height)
        if new_value < doc - 1 ∧ new_value ≠ value then (id, new_value, true)
        else (id, value, false)
    else if btn = btn_action.released then ({ id with scrolling := false }, value, false)
    else (id, value, false)
  { win := win, id := res.1, value := res.2.1, index_changed := res.2.2 }

/-! ## abcdgui.h : hbox, vbox, grid -/

/-- Conversion of an integer to `uint32_t`. -/
def to_uint32 (n : Int) : Int := n % 4294967296

/-- The `double` literal `0.5`. -/
def Flt.half : Flt := .fin 4503599627370496 (-53)

/-- The loop `for (w ...) sum += *w` of `create`, in `double`. -/
def weight_sum (weight : List Nat) : Flt :=
  weight.foldl (fun sum w => Flt.add binary64 sum (Flt.ofInt binary64 (to_uint32 w))) Flt.zero

/-- The second loop of `create`: `extent` is `bounds.width()` (`height()` for a
vbox), `x` the running position, `pos` the positions pushed so far.  The
product `extent * *w` has an `int` and a `uint32_t` operand and is therefore
computed in `uint32_t`; the quotient and the sum are computed in `double`. -/
def create_loop (extent : Int) (sum : Flt) : List Nat → Flt → List Int → List Int
  | [], _, pos => pos
  | w :: ws, x, pos =>
      let x := Flt.add binary64 x
        (Flt.div binary64 (Flt.ofInt binary64 (to_uint32 (extent * to_uint32 w))) sum)
      create_loop extent sum ws x (pos ++ [Flt.toInt (Flt.add binary64 Flt.half x)])

/-- The loop of `create_fixed`: the running sum is kept in a `double`. -/
def create_fixed_loop : List Int → Flt → List Int → List Int
  | [], _, pos => pos
  | e :: es, x, pos =>
      let x := Flt.add binary64 x (Flt.ofInt binary64 e)
      create_fixed_loop es x (pos ++ [Flt.toInt x])

/-- The `hbox` class. -/
structure hbox where
  next : rect
  xpos : List Int
  x1 : Int
deriving DecidableEq, Repr

/-- A freshly constructed `hbox`: `next` is `rect()`, `xpos` is empty, and the
member `x1` has no initialiser, its value `x1` is indeterminate. -/
def hbox.fresh (x1 : Int) : hbox := { next := rect.zero, xpos := [], x1 := x1 }

/-- Method `hbox::create(rect bounds, const std::vector<uint32_t> weight)`. -/
def hbox.create (b : hbox) (bounds : rect) (weight : List Nat) : hbox :=
  let sum := weight_sum weight
  let xpos := create_loop bounds.width sum weight Flt.zero [Flt.toInt Flt.zero]
  { next := { b.next with y1 := bounds.y1, y2 := bounds.y2 }, xpos := xpos, x1 := bounds.x1 }

/-- Method `hbox::create(rect bounds, uint32_t columns)`. -/
def hbox.create_n (b : hbox) (bounds : rect) (columns : Nat) : hbox :=
  hbox.create b bounds (List.replicate columns 1)

/-- Method `hbox::create_fixed`. -/
def hbox.create_fixed (b : hbox) (bounds : rect) (extent : List Int) : hbox :=
  let xpos := create_fixed_loop extent Flt.zero [Flt.toInt Flt.zero]
  { next := { b.next with y1 := bounds.y1, y2 := bounds.y2 }, xpos := xpos, x1 := bounds.x1 }

/-- Method `hbox::cell(uint32_t i)`: the box with its member `next` updated and
the returned rectangle; `none` when an index is outside `xpos` (the access is
undefined in C++).  `i + 1` is computed in `uint32_t`. -/
def hbox.cell (b : hbox) (i : Nat) : Option (hbox × rect) :=
  match b.xpos[i]?, b.xpos[(i + 1) % 4294967296]? with
  | some p, some q =>
      let next := { b.next with x1 := b.x1 + p, x2 := b.x1 + q }
      some ({ b with next := next }, next)
  | _, _ => none

/-- The `vbox` class. -/
structure vbox where
  next : rect
  ypos : List Int
  y1 : Int
deriving DecidableEq, Repr

/-- A freshly constructed `vbox`: `next` is `rect()`, `ypos` is empty, and the
member `y1` has no initialiser, its value `y1` is indeterminate. -/
def vbox.fresh (y1 : Int) : vbox := { next := rect.zero, ypos := [], y1 := y1 }

/-- Method `vbox::create(rect bounds, const std::vector<uint32_t> weight)`. -/
def vbox.create (b : vbox) (bounds : rect) (weight : List Nat) : vbox :=
  let sum := weight_sum weight
  let ypos := create_loop bounds.height sum weight Flt.zero [Flt.toInt Flt.zero]
  { next := { b.next with x1 := bounds.x1, x2 := bounds.x2 }, ypos := ypos, y1 := bounds.y1 }

/-- Method `vbox::create(rect bounds, uint32_t rows)`. -/
def vbox.create_n (b : vbox) (bounds : rect) (rows : Nat) : vbox :=
  vbox.create b bounds (List.replicate rows 1)

/-- Method `vbox::create_fixed`.  Its last two statements assign `next.y1` and
`next.y2`, as in the source. -/
def vbox.create_fixed (b : vbox) (bounds : rect) (extent : List Int) : vbox :=
  let ypos := create_fixed_loop extent Flt.zero [Flt.toInt Flt.zero]
  { next := { b.next with y1 := bounds.y1, y2 := bounds.y2 }, ypos := ypos, y1 := bounds.y1 }

/-- Method `vbox::cell(uint32_t i)`, see `hbox.cell`. -/
def vbox.cell (b : vbox) (i : Nat) : Option (vbox × rect) :=
  match b.ypos[i]?, b.ypos[(i + 1) % 4294967296]? with
  | some p, some q =>
      let next := { b.next with y1 := b.y1 + p, y2 := b.y1 + q }
      some ({ b with next := next }, next)
  | _, _ => none

/-- The `grid` class. -/
structure grid where
  hb : hbox
  vb : vbox
deriving DecidableEq, Repr

/-- Method `grid::create(rect bounds, int rows, int columns)`; the `int`
arguments are converted to `uint32_t`. -/
def grid.create_n (g : grid) (bounds : rect) (rows columns : Int) : grid :=
  { hb := g.hb.create_n bounds (to_uint32 columns).toNat,
    vb := g.vb.create_n bounds (to_uint32 rows).toNat }

/-- Method `grid::create(rect bounds, rweight, cweight)`. -/
def grid.create (g : grid) (bounds : rect) (rweight cweight : List Nat) : grid :=
  { hb := g.hb.create bounds cweight, vb := g.vb.create bounds rweight }

/-- Method `grid::create_fixed`. -/
def grid.create_fixed (g : grid) (bounds : rect) (rextent cextent : List Int) : grid :=
  { hb := g.hb.create_fixed bounds cextent, vb := g.vb.create_fixed bounds rextent }

/-- Method `grid::cell(uint32_t r, uint32_t c)`; `none` when an index is outside
the position vectors. -/
def grid.cell (g : grid) (r c : Nat) : Option rect :=
  match g.hb.xpos[c]?, g.hb.xpos[(c + 1) % 4294967296]?,
        g.vb.ypos[r]?, g.vb.ypos[(r + 1) % 4294967296]? with
  | some xa, some xb, some ya, some yb =>
      some ⟨g.hb.x1 + xa, g.vb.y1 + ya, g.hb.x1 + xb, g.vb.y1 + yb⟩
  | _, _, _, _ => none

/-! ## Vocabulary of the specification for the session -/

/-- The pointer of the session lies inside the rectangle `r`, `r` and the
pointer being in the same coordinates. -/
def pointer_inside (win : window) (r : rect) : Bool :=
  contains r ⟨win.mouse_x, win.mouse_y⟩

/-- The capture step as `button`, `checkbutton`, `radiobutton`, `slider` and
`knob` perform it, `inside` being the result of the widget's hit test: the
session after the step. -/
def capture_step (win : window) (id : widget_ref) (inside : Bool) : window :=
  if inside then
    if win.mouse_widget = none then
      if win.mouse_down then { win with mouse_widget := some id } else win
    else
      if !win.mouse_down && win.mouse_widget == some id then { win with mouse_widget := none }
      else win
  else win

/-- The hit test of `knob`: the pointer, rebased to the rectangle `r`, lies in
the centred square of `r`. -/
def knob_inside (win : window) (r : rect) : Bool :=
  contains (knob_area (begin_widget r)) ⟨win.mouse_x - r.x1, win.mouse_y - r.y1⟩

/-- A stand-in for the C mathematical library where its results do not
matter: every function returns its argument. -/
def libm.stub : libm := { sqrt := fun x => x, asin := fun x => x, acos := fun x => x }

/-- A sequence of calls of `checkbutton` for one widget, one call for each
session of the list (the session as it is when the call is made), the boolean
of the caller being handed from call to call: the final boolean. -/
def checkbutton_calls (id : widget_ref) (r : rect) : List window → Bool → Bool
  | [], value => value
  | win :: rest, value => checkbutton_calls id r rest (checkbutton win id r value).2.1

/-- The capture step as `input` performs it, `inside` being the result of the
hit test: a press acquires capture and focus at once. -/
def input_capture_step (win : window) (id : widget_ref) (inside : Bool) : window :=
  if inside then
    if win.mouse_widget = none then
      if win.mouse_down then { win with mouse_widget := some id, focus_widget := some id }
      else win
    else
      if !win.mouse_down && win.mouse_widget == some id then { win with mouse_widget := none }
      else win
  else win

/-- Properly nested `begin_panel` / `end_panel` pairs: nothing, or a pair on
a token of its own with the rectangle `r` that encloses the pairs `inner`,
followed by the pairs `rest`. -/
inductive panel_pairs where
  | done : panel_pairs
  | pair (r : rect) (inner : panel_pairs) (rest : panel_pairs) : panel_pairs

/-- The session after the calls of properly nested panel pairs, every
`end_panel` being called on the token its `begin_panel` filled. -/
def run_panel_pairs : panel_pairs → window → window
  | panel_pairs.done, win => win
  | panel_pairs.pair r inner rest, win =>
      let b := begin_panel win r
      let e := end_panel (run_panel_pairs inner b.1) b.2.1
      run_panel_pairs rest e.1

/-! ## Vocabulary of the specification for the slider -/

/-- The comparison `a <= b`; false when an operand is a NaN. -/
def Flt.le : Flt → Flt → Bool
  | .fin m1 e1, .fin m2 e2 =>
      let e := Min.min e1 e2
      decide (m1 * pow2 (e1 - e) ≤ m2 * pow2 (e2 - e))
  | .nan, _ => false
  | _, .nan => false
  | .inf s, .inf t => s || !t
  | .inf s, .fin _ _ => s
  | .fin _ _, .inf t => !t

/-- The value `v` is a number of the interval `[0,1]`. -/
def Flt.in_unit (v : Flt) : Prop := Flt.le Flt.zero v = true ∧ Flt.le v Flt.one = true

/-- The clamp `v = std::max(0.f, v); v = std::min(1.f, v);` of `slider` and
`knob`. -/
def unit_clamp (v : Flt) : Flt := Flt.min Flt.one (Flt.max Flt.zero v)

/-- The pointer coordinate on the axis of the slider, relative to the
rectangle. -/
def slider_pointer (win : window) (r : rect) (horz : Bool) : Int :=
  if horz then win.mouse_x - r.x1 else win.mouse_y - r.y1

/-- The travel of the slider: `extent - min(extent, thumbsize)`. -/
def slider_travel (r : rect) (thumbsize : Int) (horz : Bool) : Int :=
  (if horz then r.width else r.height) - min (if horz then r.width else r.height) thumbsize

/-- The leading edge `z` of the thumb the slider derives from the value
(`z = v * tracklen` on the clamped value, converted to `int`). -/
def slider_thumb_z (r : rect) (thumbsize : Int) (value : Flt) (horz : Bool) : Int :=
  Flt.toInt (Flt.mul binary32 (unit_clamp value) (Flt.ofInt binary32 (slider_travel r thumbsize horz)))

/-! ## Vocabulary of the specification for the list

The locals of `list`, as functions of its arguments; `r0` is the rectangle as
`begin_widget` left it and `mouse` the pointer rebased to the widget. -/

/-- The local `view` of `list`: the number of visible rows. -/
def list_view (height : Flt) (r0 : rect) : Int :=
  Flt.toInt (Flt.ceil binary32 (Flt.div binary32 (Flt.ofInt binary32 r0.height) height))

/-- The local `vbar_visible` of `list`: `doc > view`. -/
def list_vbar_visible (height : Flt) (r0 : rect) (items : List String) : Bool :=
  decide ((items.length : Int) + 1 > list_view height r0)

/-- The scrollbar geometry of `list`. -/
def list_geometry (height : Flt) (id : list_widget) (r0 : rect) (items : List String) :
    list_bar :=
  let f32 := binary32
  let view : Int := list_view height r0
  let doc : Int := (items.length : Int) + 1
  let vbar : Int := r0.height
  if list_vbar_visible height r0 items then
    let sp := split r0 2 16
    let scr := sp.1
    let r := sp.2
    let thumb : Int := Flt.toInt (Flt.div f32 (Flt.ofInt f32 (vbar * view)) (Flt.ofInt f32 doc))
    let tnr : Int × Int × Int × Flt :=
      if thumb ≥ 12 then
        (thumb, doc - view, vbar - thumb, Flt.div f32 (Flt.ofInt f32 doc) (Flt.ofInt f32 vbar))
      else
        (12, doc - view, vbar - 12,
          Flt.div f32 (Flt.ofInt f32 (doc - view)) (Flt.ofInt f32 (vbar - 12)))
    let thumb := tnr.1
    let ratio := tnr.2.2.2
    let y1 := Flt.toInt (Flt.div f32 id.yvalue ratio)
    { r := r, scr := scr, thumb_rect := { scr with y1 := y1, y2 := y1 + thumb },
      nd := tnr.2.1, ns := tnr.2.2.1, ratio := ratio }
  else
    { r := r0, scr := rect.zero, thumb_rect := rect.zero, nd := 0, ns := 0, ratio := Flt.zero }

/-- The widget state and the thumb rectangle of `list` after the update it
makes while the thumb is dragged. -/
def list_scroll (height : Flt) (id : list_widget) (r0 : rect) (mouse : point)
    (items : List String) : list_widget × rect :=
  let f32 := binary32
  let bar := list_geometry height id r0 items
  if list_vbar_visible height r0 items && id.scrolling then
    let new_y1 := mouse.y - id.yref
    let new_y1 := max 0 new_y1
    let new_y1 := min bar.ns new_y1
    let yvalue := Flt.min (Flt.ofInt f32 bar.nd) (Flt.mul f32 (Flt.ofInt f32 new_y1) bar.ratio)
    let new_y1 := Flt.toInt (Flt.div f32 yvalue bar.ratio)
    ({ id with yvalue := yvalue }, move bar.thumb_rect bar.thumb_rect.x1 new_y1)
  else (id, bar.thumb_rect)

/-- The local `yoffset` of `list` for the scroll offset `yvalue`. -/
def list_yoffset (height : Flt) (yvalue : Flt) : Int :=
  let k : Int := Flt.toInt (Flt.neg (Flt.ceil binary32 yvalue))
  Flt.toInt (Flt.mul binary32 (Flt.ofInt binary32 k) height)

/-- The row index `new_value` that `list` computes for the pointer. -/
def list_row_index (height : Flt) (win : window) (id : list_widget) (r : rect)
    (items : List String) : Int :=
  let mouse : point := ⟨win.mouse_x - r.x1, win.mouse_y - r.y1⟩
  let id1 := (list_scroll height id (begin_widget r) mouse items).1
  Flt.toInt (Flt.div binary32
    (Flt.ofInt binary32 (-(list_yoffset height id1.yvalue) + mouse.y)) height)

/-- The pointer is on the scrollbar of the list: the bar is visible and
contains the pointer. -/
def list_on_scrollbar (height : Flt) (win : window) (id : list_widget) (r : rect)
    (items : List String) : Bool :=
  list_vbar_visible height (begin_widget r) items &&
    contains (list_geometry height id (begin_widget r) items).scr
      ⟨win.mouse_x - r.x1, win.mouse_y - r.y1⟩

/-- The capture step as `list` performs it, `inside` being the result of the
hit test: the session after the step and the button action it registers. -/
def list_capture_step (win : window) (idp : widget_ref) (inside : Bool) :
    window × btn_action :=
  if inside then
    if win.mouse_widget = none then
      if win.mouse_down then
        ({ win with mouse_widget := some idp, focus_widget := some idp }, btn_action.pressed)
      else (win, btn_action.none)
    else
      if !win.mouse_down && win.mouse_widget == some idp then
        ({ win with mouse_widget := none }, btn_action.released)
      else (win, btn_action.none)
  else
    if !win.mouse_down && win.mouse_widget == some idp then
      ({ win with mouse_widget := none }, btn_action.released)
    else (win, btn_action.none)

/-- What `list` makes of the button action `btn` its capture step registered:
the widget state, the selection and the result `index_changed`. -/
def list_action (height : Flt) (btn : btn_action) (win : window) (id : list_widget)
    (r : rect) (items : List String) (value : Int) : list_widget × Int × Bool :=
  let mouse : point := ⟨win.mouse_x - r.x1, win.mouse_y - r.y1⟩
  let sc := list_scroll height id (begin_widget r) mouse items
  if btn = btn_action.pressed then
    if list_on_scrollbar height win id r items then
      if contains sc.2 mouse then
        ({ sc.1 with yref := mouse.y - sc.2.y1, scrolling := true }, value, false)
      else (sc.1, value, false)
    else
      if list_row_index height win id r items < (items.length : Int) + 1 - 1 ∧
          list_row_index height win id r items ≠ value then
        (sc.1, list_row_index height win id r items, true)
      else (sc.1, value, false)
  else if btn = btn_action.released then ({ sc.1 with scrolling := false }, value, false)
  else (sc.1, value, false)

/-! ## Vocabulary of the specification for the layout algebra -/

/-- The intersection of a column band and a row band: the x-range of the
cell of an hbox and the y-range of the cell of a vbox, when both indexes are in
range. -/
def band_intersection (hc : Option (hbox × rect)) (vc : Option (vbox × rect)) : Option rect :=
  match hc, vc with
  | some h, some v => some ⟨h.2.x1, v.2.y1, h.2.x2, v.2.y2⟩
  | _, _ => none

/-! ## Vocabulary of the specification for sequences of frames -/

/-- A call the program makes on the session, with its arguments: a widget
function, `begin_panel`, `end_panel`, `window::end`, or the delivery of a
pointer position by the caller. -/
inductive session_call where
  | label (id : widget_ref) (r : rect)
  | button (id : widget_ref) (r : rect)
  | checkbutton (id : widget_ref) (r : rect) (value : Bool)
  | radiobutton (id : widget_ref) (r : rect) (index value : Int)
  | slider (id : widget_ref) (st : slider_widget) (r : rect) (thumbsize : Int) (value : Flt)
      (horz : Bool)
  | knob (m : libm) (id : widget_ref) (st : knob_widget) (r : rect) (value : Flt)
  | input (char_signed : Bool) (id : widget_ref) (r : rect) (value : List Nat)
  | list (height : Flt) (id : widget_ref) (st : list_widget) (r : rect) (items : List String)
      (value : Int)
  | begin_panel (r : rect)
  | end_panel (token : panel_widget)
  | end_frame
  | pointer (x y : Int)

/-- The session after a call. -/
def session_call.run : session_call → window → window
  | .label id r, win => abcd.label win id r
  | .button id r, win => (abcd.button win id r).1
  | .checkbutton id r value, win => (abcd.checkbutton win id r value).1
  | .radiobutton id r index value, win => (abcd.radiobutton win id r index value).1
  | .slider id st r thumbsize value horz, win => (abcd.slider win id st r thumbsize value horz).win
  | .knob m id st r value, win => (abcd.knob m win id st r value).win
  | .input cs id r value, win => (abcd.input cs win id r value).1
  | .list height id st r items value, win => (abcd.list height win id st r items value).win
  | .begin_panel r, win => (abcd.begin_panel win r).1
  | .end_panel token, win => (abcd.end_panel win token).1
  | .end_frame, win => win.end_frame
  | .pointer x y, win => { win with mouse_x := x, mouse_y := y }

/-- The session after a sequence of calls. -/
def run_calls : List session_call → window → window
  | [], win => win
  | c :: rest, win => run_calls rest (c.run win)

/-! ## Vocabulary of the specification for rounding -/

/-- The quotient `n / d` (`d > 0`) rounded to the nearest integer, halves
rounded up: `floor (n / d + 1 / 2)` in exact arithmetic. -/
def round_half_up_div (n d : Int) : Int := (2 * n + d) / (2 * d)

/-! ## Vocabulary of the specification for the knob -/

/-- The pointer vector `(x2, y2)` of `knob`: the pointer relative to the
centre of the rectangle, as `float`. -/
def knob_vector (win : window) (r : rect) : Flt × Flt :=
  (Flt.ofInt binary32 (win.mouse_x - r.x1 - Int.tdiv (begin_widget r).width 2),
   Flt.ofInt binary32 (win.mouse_y - r.y1 - Int.tdiv (begin_widget r).height 2))

/-- The angular update of `knob`, the block it runs on a held frame when the
pointer vector `(x2, y2)` differs from the stored one: the new widget state. -/
def knob_turn (m : libm) (id : knob_widget) (x2 y2 : Flt) : knob_widget :=
  let f32 := binary32
  let v1 := Flt.cvt f32 (m.sqrt (Flt.add f32 (Flt.mul f32 id.x1 id.x1) (Flt.mul f32 id.y1 id.y1)))
  let v2 := Flt.cvt f32 (m.sqrt (Flt.add f32 (Flt.mul f32 x2 x2) (Flt.mul f32 y2 y2)))
  let dir := Flt.cvt f32 (Flt.div binary64
    (Flt.mul f32
      (m.asin (Flt.div f32
        (Flt.sub f32 (Flt.mul f32 id.x1 y2) (Flt.mul f32 x2 id.y1)) (Flt.mul f32 v1 v2)))
      (Flt.ofInt f32 180))
    M_PI)
  let delta := Flt.cvt f32 (Flt.div binary64
    (Flt.mul f32
      (m.acos (Flt.div f32
        (Flt.add f32 (Flt.mul f32 id.x1 x2) (Flt.mul f32 id.y1 y2)) (Flt.mul f32 v1 v2)))
      (Flt.ofInt f32 180))
    M_PI)
  let angle := Flt.add f32 id.angle (if Flt.lt Flt.zero dir then delta else Flt.neg delta)
  let angle := Flt.max Flt.zero angle
  let angle := Flt.min (Flt.ofInt f32 270) angle
  { x1 := x2, y1 := y2, angle := angle }

/-- The capture step as `knob` performs it, `inside` being the result of the
hit test: the session after the step and the local `pressed`. -/
def knob_capture_step (win : window) (idp : widget_ref) (inside : Bool) : window × Bool :=
  if inside then
    if win.mouse_widget = none then
      if win.mouse_down then ({ win with mouse_widget := some idp }, true)
      else (win, false)
    else
      if !win.mouse_down && win.mouse_widget == some idp then
        ({ win with mouse_widget := none }, false)
      else (win, false)
  else (win, false)

/-- The running position `x` of `create` after the weights `ws` when no
product wraps: the `double` sum, taken from left to right, of the `double`
quotients `extent * w / sum`, each product being the exact integer. -/
def split_running_sum (extent : Int) (sum : Flt) (ws : List Nat) : Flt :=
  ws.foldl (fun (x : Flt) (w : Nat) => Flt.add binary64 x
    (Flt.div binary64 (Flt.ofInt binary64 (extent * w)) sum)) Flt.zero

/-- The position `create` pushes for boundary `i` of a box over the extent
`extent` with the weights `ws` when no product wraps: `int(0.5 + x)` for the
running position `x` after the first `i` weights. -/
def split_position (extent : Int) (ws : List Nat) (i : Nat) : Int :=
  Flt.toInt (Flt.add binary64 Flt.half
    (split_running_sum extent (weight_sum ws) (ws.take i)))

/-! ## Vocabulary of the specification for the signs of floating-point data -/

/-- The datum is not negative: a finite number `≥ 0`, `+∞` or a NaN. -/
def Flt.not_negative : Flt → Bool
  | .fin m _ => decide (0 ≤ m)
  | .inf s => !s
  | .nan => true

/-- The datum is not positive: a finite number `≤ 0`, `-∞` or a NaN. -/
def Flt.not_positive : Flt → Bool
  | .fin m _ => decide (m ≤ 0)
  | .inf s => s
  | .nan => true

/-! ## Vocabulary of the specification for the range of the list selection -/

/-- The `float` quotient `(-yoffset + mouse.y) / height` of `list`, whose
conversion to `int` is the row index `new_value`. -/
def list_row_quotient (height : Flt) (win : window) (id : list_widget) (r : rect)
    (items : List String) : Flt :=
  let mouse : point := ⟨win.mouse_x - r.x1, win.mouse_y - r.y1⟩
  let id1 := (list_scroll height id (begin_widget r) mouse items).1
  Flt.div binary32
    (Flt.ofInt binary32 (-(list_yoffset height id1.yvalue) + mouse.y)) height

/-- The number `n` is a value of the type `int`. -/
def in_int_range (n : Int) : Bool := decide (-2147483648 ≤ n ∧ n ≤ 2147483647)

/-- Stated from the amended claim C28: the `int` arithmetic of a call of `list`
on the way to the row index stays in the range of `int`, and the conversion of
the row quotient to `int` is defined.  These are `int(items.size()) + 1`; when
the bar is visible `vbar * view`, `doc - view` and `vbar - thumb`; when the
thumb is dragged `mouse.y - id->yref`; `-yoffset` and `-yoffset + mouse.y`; and
the quotient `(-yoffset + mouse.y) / height`, which has to be below `2^31`. -/
def list_arith_in_range (height : Flt) (win : window) (id : list_widget) (r : rect)
    (items : List String) : Bool :=
  let mouse : point := ⟨win.mouse_x - r.x1, win.mouse_y - r.y1⟩
  let r0 := begin_widget r
  let doc : Int := (items.length : Int) + 1
  let view : Int := list_view height r0
  let yoffset : Int := list_yoffset height (list_scroll height id r0 mouse items).1.yvalue
  in_int_range doc &&
    (!list_vbar_visible height r0 items ||
      (in_int_range (r0.height * view) && in_int_range (doc - view) &&
        in_int_range (list_geometry height id r0 items).ns)) &&
    (!(list_vbar_visible height r0 items && id.scrolling) ||
      in_int_range (mouse.y - id.yref)) &&
    in_int_range (-yoffset) && in_int_range (-yoffset + mouse.y) &&
    Flt.lt (list_row_quotient height win id r items) (Flt.ofInt binary32 2147483648)


/-! ## Vocabulary of the specification for the rounding error of `double` sums -/

/-- The unit roundoff of the type `double`, `2^-53`. -/
def unit_roundoff : ℚ := 1 / 9007199254740992

/-- The datum `x` is a finite number that is not negative and lies within `k`
roundings of the number `p ≥ 0`: `p (1 - u)^k ≤ x ≤ p (1 + u)^k` for the unit
roundoff `u` of `double`. -/
def Flt.near (x : Flt) (p : ℚ) (k : Nat) : Prop :=
  0 ≤ p ∧ ∃ m e : Int, x = Flt.fin m e ∧ 0 ≤ m ∧
    p * (1 - unit_roundoff) ^ k ≤ (m : ℚ) * (2 : ℚ) ^ e ∧
    (m : ℚ) * (2 : ℚ) ^ e ≤ p * (1 + unit_roundoff) ^ k


/-- Stated from the amended claim C23: the exact quotient
`E * (w_0 + ... + w_{i-1}) / W` of boundary `i`. -/
def split_exact (extent : Int) (ws : List Nat) (i : Nat) : ℚ :=
  (extent : ℚ) * (((ws.take i).sum : Nat) : ℚ) / ((ws.sum : Nat) : ℚ)

/-- Stated from the amended claim C23: the bound of the rounding error that the
running `double` sum of boundary `i` has accumulated, relative to `1/2` plus the
exact quotient: at most `3 N + 5` roundings, each counted twice, of unit
roundoff `2^-53`. -/
def split_slack (extent : Int) (ws : List Nat) (i : Nat) : ℚ :=
  (split_exact extent ws i + 1 / 2) * (3 * (ws.length : ℚ) + 5) / 4503599627370496

/-- Stated from the claim C23: the exact quotient of boundary `i` rounded to an
integer, halves up. -/
def split_round (extent : Int) (ws : List Nat) (i : Nat) : Int :=
  round_half_up_div (extent * (((ws.take i).sum : Nat) : Int)) ((ws.sum : Nat) : Int)

/-- Stated from the amended claim C23: the position `b` is the truncation of a
number within `split_slack` of the exact quotient plus `1/2`.  Hence it is the
exact quotient rounded half up, or a neighbour of it, and it is the rounded
quotient itself unless the exact quotient plus `1/2` lies within the slack of
an integer. -/
def split_within (extent : Int) (ws : List Nat) (i : Nat) (b : Int) : Prop :=
  split_exact extent ws i + 1 / 2 - split_slack extent ws i < (b : ℚ) + 1 ∧
    (b : ℚ) ≤ split_exact extent ws i + 1 / 2 + split_slack extent ws i ∧
    (b = split_round extent ws i ∨ b = split_round extent ws i - 1 ∨
      b = split_round extent ws i + 1) ∧
    ((split_round extent ws i : ℚ) + split_slack extent ws i ≤ split_exact extent ws i + 1 / 2 →
      split_exact extent ws i + 1 / 2 + split_slack extent ws i
        < (split_round extent ws i : ℚ) + 1 →
      b = split_round extent ws i)

end abcd

/-! # Theorems -/

namespace abcd

/-! ## Geometry kernel -/

/-- C5 (as stated, refuted): with a negative size, and also with a rectangle
whose extent on the split axis is negative, the bounding box of the strip and
the remainder returned by `split` differs from the original rectangle. -/
theorem split_bounding_box_counterexample :
    bounding_box (split ⟨0, 0, 10, 10⟩ 0 (-5)).1 (split ⟨0, 0, 10, 10⟩ 0 (-5)).2
        ≠ (⟨0, 0, 10, 10⟩ : rect) ∧
      bounding_box (split ⟨10, 0, 0, 10⟩ 0 3).1 (split ⟨10, 0, 0, 10⟩ 0 3).2
        ≠ (⟨10, 0, 0, 10⟩ : rect) := by
  decide

/-- C5 (amended): for every rectangle `R`, every side among left (0), top (1),
right (2), bottom (3) and every size `S`, the strip and the remainder of
`split R side S` have empty intersection on the split axis, and the remainder
has zero extent on that axis when `S` is at least the extent of `R`; when
moreover the extent of `R` on the split axis and `S` are non-negative, the
bounding box of strip and remainder is `R`. -/
theorem split_exactness (R : rect) (side S : Int)
    (hside : side = 0 ∨ side = 1 ∨ side = 2 ∨ side = 3) :
    (0 ≤ axis_extent R side → 0 ≤ S →
        bounding_box (split R side S).1 (split R side S).2 = R) ∧
      disjoint_on_axis (split R side S).1 (split R side S).2 side ∧
      (axis_extent R side ≤ S → axis_extent (split R side S).2 side = 0) := by
  obtain ⟨x1, y1, x2, y2⟩ := R
  rcases hside with h | h | h | h <;> subst h
  all_goals
    simp only [split, axis_extent, bounding_box, disjoint_on_axis, rect.width, rect.height]
    refine ⟨?_, ?_, ?_⟩
  all_goals split_ifs <;> simp_all <;> omega

/-- Witness of `split_exactness`: the left strip of width 30 of the rectangle
`(0,0,100,50)`, and the left strip of width 120, which exceeds its width. -/
theorem split_exactness_witness :
    (bounding_box (split ⟨0, 0, 100, 50⟩ 0 30).1 (split ⟨0, 0, 100, 50⟩ 0 30).2
        = (⟨0, 0, 100, 50⟩ : rect) ∧
      disjoint_on_axis (split ⟨0, 0, 100, 50⟩ 0 30).1 (split ⟨0, 0, 100, 50⟩ 0 30).2 0) ∧
    (bounding_box (split ⟨0, 0, 100, 50⟩ 0 120).1 (split ⟨0, 0, 100, 50⟩ 0 120).2
        = (⟨0, 0, 100, 50⟩ : rect) ∧
      axis_extent (split ⟨0, 0, 100, 50⟩ 0 120).2 0 = 0) :=
  ⟨⟨(split_exactness ⟨0, 0, 100, 50⟩ 0 30 (Or.inl rfl)).1 (by decide) (by decide),
    (split_exactness ⟨0, 0, 100, 50⟩ 0 30 (Or.inl rfl)).2.1⟩,
   ⟨(split_exactness ⟨0, 0, 100, 50⟩ 0 120 (Or.inl rfl)).1 (by decide) (by decide),
    (split_exactness ⟨0, 0, 100, 50⟩ 0 120 (Or.inl rfl)).2.2 (by decide)⟩⟩

/-- C6: for every rectangle `R`, side in {0 = left, 1 = top, 2 = right,
3 = bottom} and size: when the size is at least the extent of `R` on the axis
of the side, the strip returned by `split` is `R` itself and the remainder has
zero extent on that axis, both its edges lying on the far edge of `R`;
otherwise the strip has extent `size` and lies flush against the named edge, the
remainder has extent `extent - size`, starts where the strip ends and reaches
the opposite edge of `R`.  On the other axis strip and remainder keep the
coordinates of `R`.  (The non-negativity of width, height and size is not
needed.) -/
theorem split_reference (R : rect) (side size : Int)
    (hside : side = 0 ∨ side = 1 ∨ side = 2 ∨ side = 3) :
    (axis_extent R side ≤ size →
        (split R side size).1 = R ∧
        axis_extent (split R side size).2 side = 0 ∧
        (side = 0 → (split R side size).2.x1 = R.x2 ∧ (split R side size).2.x2 = R.x2) ∧
        (side = 2 → (split R side size).2.x1 = R.x1 ∧ (split R side size).2.x2 = R.x1) ∧
        (side = 1 → (split R side size).2.y1 = R.y2 ∧ (split R side size).2.y2 = R.y2) ∧
        (side = 3 → (split R side size).2.y1 = R.y1 ∧ (split R side size).2.y2 = R.y1)) ∧
      (size < axis_extent R side →
        axis_extent (split R side size).1 side = size ∧
        axis_extent (split R side size).2 side = axis_extent R side - size ∧
        (side = 0 → (split R side size).1.x1 = R.x1 ∧
          (split R side size).2.x1 = (split R side size).1.x2 ∧
          (split R side size).2.x2 = R.x2) ∧
        (side = 2 → (split R side size).1.x2 = R.x2 ∧
          (split R side size).2.x2 = (split R side size).1.x1 ∧
          (split R side size).2.x1 = R.x1) ∧
        (side = 1 → (split R side size).1.y1 = R.y1 ∧
          (split R side size).2.y1 = (split R side size).1.y2 ∧
          (split R side size).2.y2 = R.y2) ∧
        (side = 3 → (split R side size).1.y2 = R.y2 ∧
          (split R side size).2.y2 = (split R side size).1.y1 ∧
          (split R side size).2.y1 = R.y1)) ∧
      (side = 0 ∨ side = 2 →
        (split R side size).1.y1 = R.y1 ∧ (split R side size).1.y2 = R.y2 ∧
        (split R side size).2.y1 = R.y1 ∧ (split R side size).2.y2 = R.y2) ∧
      (side = 1 ∨ side = 3 →
        (split R side size).1.x1 = R.x1 ∧ (split R side size).1.x2 = R.x2 ∧
        (split R side size).2.x1 = R.x1 ∧ (split R side size).2.x2 = R.x2) := by
  obtain ⟨x1, y1, x2, y2⟩ := R
  rcases hside with h | h | h | h <;> subst h
  · by_cases hc : size ≥ x2 - x1
    · simp [split, axis_extent, rect.width, rect.height, hc]
    · simp [split, axis_extent, rect.width, rect.height, hc]
      omega
  · by_cases hc : size ≥ y2 - y1
    · simp [split, axis_extent, rect.width, rect.height, hc]
    · simp [split, axis_extent, rect.width, rect.height, hc]
      omega
  · by_cases hc : size ≥ x2 - x1
    · simp [split, axis_extent, rect.width, rect.height, hc]
    · simp [split, axis_extent, rect.width, rect.height, hc]
      omega
  · by_cases hc : size ≥ y2 - y1
    · simp [split, axis_extent, rect.width, rect.height, hc]
    · simp [split, axis_extent, rect.width, rect.height, hc]
      omega

/-- Witness of `split_reference`: a strip of 120 cut off the right edge of the
rectangle `(0,0,100,50)` is the whole rectangle, and a strip of 16 has width 16
and leaves a remainder of width 84. -/
theorem split_reference_witness :
    ((split ⟨0, 0, 100, 50⟩ 2 120).1 = ⟨0, 0, 100, 50⟩ ∧
      axis_extent (split ⟨0, 0, 100, 50⟩ 2 120).2 2 = 0) ∧
    (axis_extent (split ⟨0, 0, 100, 50⟩ 2 16).1 2 = 16 ∧
      axis_extent (split ⟨0, 0, 100, 50⟩ 2 16).2 2 = axis_extent ⟨0, 0, 100, 50⟩ 2 - 16) :=
  ⟨⟨((split_reference ⟨0, 0, 100, 50⟩ 2 120 (Or.inr (Or.inr (Or.inl rfl)))).1 (by decide)).1,
    ((split_reference ⟨0, 0, 100, 50⟩ 2 120 (Or.inr (Or.inr (Or.inl rfl)))).1 (by decide)).2.1⟩,
   ⟨((split_reference ⟨0, 0, 100, 50⟩ 2 16 (Or.inr (Or.inr (Or.inl rfl)))).2.1 (by decide)).1,
    ((split_reference ⟨0, 0, 100, 50⟩ 2 16 (Or.inr (Or.inr (Or.inl rfl)))).2.1 (by decide)).2.1⟩⟩

/-! ## Interaction session -/

/-- The hit test every widget performs, on the rectangle moved to the origin
and the pointer rebased to it, is containment of the pointer in `r`. -/
theorem contains_begin_widget (win : window) (r : rect) :
    contains (begin_widget r) ⟨win.mouse_x - r.x1, win.mouse_y - r.y1⟩ = pointer_inside win r := by
  simp only [contains, begin_widget, move, rect.width, rect.height, pointer_inside]
  rw [Bool.eq_iff_iff]
  simp only [Bool.and_eq_true, decide_eq_true_eq]
  constructor <;> intro h <;> refine ⟨⟨⟨?_, ?_⟩, ?_⟩, ?_⟩ <;> omega

/-- C4: `window::end` leaves the capture target equal to the background
sentinel when the button is down and nothing held capture, to the widget that
held capture when the button is down, and to null when the button is up; it
clears `key_down` and changes no other member. -/
theorem window_end_frame (w : window) :
    (w.mouse_down = true → w.mouse_widget = none →
        w.end_frame.mouse_widget = some widget_ref.background) ∧
      (∀ c : widget_ref, w.mouse_down = true → w.mouse_widget = some c →
        w.end_frame.mouse_widget = some c) ∧
      (w.mouse_down = false → w.end_frame.mouse_widget = none) ∧
      w.end_frame.key_down = false ∧
      w.end_frame =
        { w with mouse_widget := w.end_frame.mouse_widget, key_down := false } := by
  obtain ⟨md, mb, mx, my, mw, fw, kd, ku⟩ := w
  cases md <;> cases mw <;> simp [window.end_frame]

/-- Witness of `window_end_frame`: the three cases on concrete sessions. -/
theorem window_end_frame_witness :
    ({ window.init with mouse_down := true } : window).end_frame.mouse_widget
        = some widget_ref.background ∧
      ({ window.init with mouse_down := true, mouse_widget := some (widget_ref.addr 1) }
        : window).end_frame.mouse_widget = some (widget_ref.addr 1) ∧
      ({ window.init with mouse_widget := some (widget_ref.addr 1) }
        : window).end_frame.mouse_widget = none :=
  ⟨(window_end_frame { window.init with mouse_down := true }).1 rfl rfl,
   (window_end_frame
      { window.init with mouse_down := true, mouse_widget := some (widget_ref.addr 1) }).2.1
      (widget_ref.addr 1) rfl rfl,
   (window_end_frame { window.init with mouse_widget := some (widget_ref.addr 1) }).2.2.1 rfl⟩

/-- C2: `button` returns true exactly when on entry the pointer is inside its
rectangle, the pointer button is up and the capture target is this button; the
capture is then null on return.  For the rectangle `(0,0,100,30)` and the
pointer at `(50,15)` with no capture: the frame with the button down returns
false and leaves the capture with the button; after `end()`, the frame with
the button up returns true and leaves the capture null; after another `end()`
a further frame with the button up returns false. -/
theorem button_click (win : window) (id : widget_ref) (r : rect) :
    ((button win id r).2 = true ↔
        pointer_inside win r = true ∧ win.mouse_down = false ∧ win.mouse_widget = some id) ∧
      ((button win id r).2 = true → (button win id r).1.mouse_widget = none) ∧
      (let w1 : window :=
          { win with mouse_x := 50, mouse_y := 15, mouse_down := true, mouse_widget := none }
       let f1 := button w1 id ⟨0, 0, 100, 30⟩
       let w2 : window := { f1.1.end_frame with mouse_down := false }
       let f2 := button w2 id ⟨0, 0, 100, 30⟩
       let f3 := button f2.1.end_frame id ⟨0, 0, 100, 30⟩
       f1.2 = false ∧ f1.1.mouse_widget = some id ∧ button_held w1 id ⟨0, 0, 100, 30⟩ = true ∧
       f2.2 = true ∧ f2.1.mouse_widget = none ∧
       f3.2 = false ∧ f3.1.mouse_widget = none) := by
  refine ⟨?_, ?_, ?_⟩
  · unfold button
    simp only [contains_begin_widget]
    cases hin : pointer_inside win r <;> cases hd : win.mouse_down <;>
      rcases hw : win.mouse_widget with _ | c <;> simp
    by_cases hc : c = id <;> simp [hc]
  · unfold button
    simp only [contains_begin_widget]
    cases hin : pointer_inside win r <;> cases hd : win.mouse_down <;>
      rcases hw : win.mouse_widget with _ | c <;> simp
    by_cases hc : c = id <;> simp [hc]
  · simp [button, button_held, contains, begin_widget, move, rect.width, rect.height,
      window.end_frame]

/-- Witness of `button_click`: the click is reported on the release frame. -/
theorem button_click_witness :
    (button { window.init with mouse_x := 50, mouse_y := 15,
                               mouse_widget := some (widget_ref.addr 1) }
        (widget_ref.addr 1) ⟨0, 0, 100, 30⟩).1.mouse_widget = none :=
  (button_click { window.init with mouse_x := 50, mouse_y := 15,
                                   mouse_widget := some (widget_ref.addr 1) }
      (widget_ref.addr 1) ⟨0, 0, 100, 30⟩).2.1 (by decide)

/-- The session `button` returns is the one the capture step leaves. -/
theorem button_win (win : window) (id : widget_ref) (r : rect) :
    (button win id r).1 = capture_step win id (pointer_inside win r) := by
  unfold button capture_step
  simp only [contains_begin_widget]
  split_ifs <;> rfl

/-- The session `checkbutton` returns is the one the capture step leaves. -/
theorem checkbutton_win (win : window) (id : widget_ref) (r : rect) (value : Bool) :
    (checkbutton win id r value).1 = capture_step win id (pointer_inside win r) := by
  unfold checkbutton capture_step
  simp only [contains_begin_widget]
  split_ifs <;> rfl

/-- The session `radiobutton` returns is the one the capture step leaves. -/
theorem radiobutton_win (win : window) (id : widget_ref) (r : rect) (index value : Int) :
    (radiobutton win id r index value).1 = capture_step win id (pointer_inside win r) := by
  unfold radiobutton capture_step
  simp only [contains_begin_widget]
  split_ifs <;> rfl

/-- The session `slider` returns is the one the capture step leaves. -/
theorem slider_win (win : window) (idp : widget_ref) (id : slider_widget) (r : rect)
    (thumbsize : Int) (value : Flt) (horz : Bool) :
    (slider win idp id r thumbsize value horz).win
      = capture_step win idp (pointer_inside win r) := by
  unfold slider capture_step
  simp only [contains_begin_widget]
  split_ifs <;> rfl

/-- The session `knob` returns is the one the capture step leaves, the hit
test being made on the centred square. -/
theorem knob_win (m : libm) (win : window) (idp : widget_ref) (id : knob_widget) (r : rect)
    (value : Flt) :
    (knob m win idp id r value).win = capture_step win idp (knob_inside win r) := by
  unfold knob capture_step knob_inside
  simp only
  split_ifs <;> rfl

/-- The capture target `input` leaves is the one the capture step leaves. -/
theorem input_mouse_widget (cs : Bool) (win : window) (id : widget_ref) (r : rect)
    (value : List Nat) :
    (input cs win id r value).1.mouse_widget
      = (capture_step win id (pointer_inside win r)).mouse_widget := by
  unfold input capture_step
  simp only [contains_begin_widget]
  split_ifs <;> rfl

/-- The capture target `list` leaves: the capture step when the pointer is
inside, and a release also when it is outside. -/
theorem list_mouse_widget (height : Flt) (win : window) (idp : widget_ref) (id : list_widget)
    (r : rect) (items : List String) (value : Int) :
    (list height win idp id r items value).win.mouse_widget
      = if pointer_inside win r then (capture_step win idp true).mouse_widget
        else if !win.mouse_down && win.mouse_widget == some idp then none
        else win.mouse_widget := by
  unfold list capture_step
  simp only [contains_begin_widget]
  split_ifs <;> rfl

/-- The capture step leaves a capture held by another widget alone. -/
theorem capture_step_other (win : window) (id c : widget_ref) (inside : Bool)
    (hcap : win.mouse_widget = some c) (hne : c ≠ id) :
    (capture_step win id inside).mouse_widget = some c := by
  unfold capture_step
  cases inside <;> simp [hcap, hne]

/-- The capture step releases the capture of its own widget when the button
is up and the hit test succeeds, and does nothing when the hit test fails. -/
theorem capture_step_release (win : window) (id : widget_ref)
    (hcap : win.mouse_widget = some id) (hup : win.mouse_down = false) :
    (capture_step win id true).mouse_widget = none ∧ capture_step win id false = win := by
  unfold capture_step
  simp [hcap, hup]

/-- The capture step does not touch the button flag. -/
theorem capture_step_mouse_down (win : window) (id : widget_ref) (inside : Bool) :
    (capture_step win id inside).mouse_down = win.mouse_down := by
  unfold capture_step
  split_ifs <;> rfl

/-- Function `input` does not touch the button flag. -/
theorem input_mouse_down (cs : Bool) (win : window) (id : widget_ref) (r : rect)
    (value : List Nat) : (input cs win id r value).1.mouse_down = win.mouse_down := by
  unfold input
  simp only
  split_ifs <;> rfl

/-- Function `list` does not touch the button flag. -/
theorem list_mouse_down (height : Flt) (win : window) (idp : widget_ref) (id : list_widget)
    (r : rect) (items : List String) (value : Int) :
    (list height win idp id r items value).win.mouse_down = win.mouse_down := by
  unfold list
  simp only
  split_ifs <;> rfl

/-- With the button up, `window::end` leaves no capture. -/
theorem end_frame_button_up (w : window) (hup : w.mouse_down = false) :
    w.end_frame.mouse_widget = none := by
  obtain ⟨md, mb, mx, my, mw, fw, kd, ku⟩ := w
  cases mw <;> simp_all [window.end_frame]

/-- C1: for each of `button`, `checkbutton`, `radiobutton`, `slider`, `knob`,
`input` and `list` called with identity `id`, every rectangle, pointer position
and button state: when on entry the capture target is a widget `c` different
from `id`, the capture target is still `c` on return. -/
theorem capture_exclusivity (win : window) (id c : widget_ref) (r : rect)
    (hcap : win.mouse_widget = some c) (hne : c ≠ id)
    (bvalue : Bool) (index ivalue : Int) (sw : slider_widget) (thumbsize : Int) (fvalue : Flt)
    (horz : Bool) (m : libm) (kw : knob_widget) (char_signed : Bool) (text : List Nat)
    (height : Flt) (lw : list_widget) (items : List String) :
    (button win id r).1.mouse_widget = some c ∧
      (checkbutton win id r bvalue).1.mouse_widget = some c ∧
      (radiobutton win id r index ivalue).1.mouse_widget = some c ∧
      (slider win id sw r thumbsize fvalue horz).win.mouse_widget = some c ∧
      (knob m win id kw r fvalue).win.mouse_widget = some c ∧
      (input char_signed win id r text).1.mouse_widget = some c ∧
      (list height win id lw r items ivalue).win.mouse_widget = some c := by
  refine ⟨?_, ?_, ?_, ?_, ?_, ?_, ?_⟩
  · rw [button_win]; exact capture_step_other win id c _ hcap hne
  · rw [checkbutton_win]; exact capture_step_other win id c _ hcap hne
  · rw [radiobutton_win]; exact capture_step_other win id c _ hcap hne
  · rw [slider_win]; exact capture_step_other win id c _ hcap hne
  · rw [knob_win]; exact capture_step_other win id c _ hcap hne
  · rw [input_mouse_widget]; exact capture_step_other win id c _ hcap hne
  · rw [list_mouse_widget]
    have h := capture_step_other win id c true hcap hne
    split_ifs with h1 h2
    · exact h
    · simp [hcap, hne] at h2
    · exact hcap

/-- Witness of `capture_exclusivity`: widget 1 holds capture, the button is
down and the pointer is inside the rectangle of widget 2; every widget function
called for widget 2 leaves the capture with widget 1. -/
theorem capture_exclusivity_witness :
    let win : window := { window.init with mouse_down := true, mouse_x := 50, mouse_y := 15,
                                           mouse_widget := some (widget_ref.addr 1) }
    (button win (widget_ref.addr 2) ⟨0, 0, 100, 30⟩).1.mouse_widget = some (widget_ref.addr 1) ∧
      (checkbutton win (widget_ref.addr 2) ⟨0, 0, 100, 30⟩ false).1.mouse_widget
        = some (widget_ref.addr 1) ∧
      (radiobutton win (widget_ref.addr 2) ⟨0, 0, 100, 30⟩ 1 0).1.mouse_widget
        = some (widget_ref.addr 1) ∧
      (slider win (widget_ref.addr 2) ⟨0⟩ ⟨0, 0, 100, 30⟩ 10 Flt.zero true).win.mouse_widget
        = some (widget_ref.addr 1) ∧
      (knob libm.stub win (widget_ref.addr 2) ⟨Flt.zero, Flt.zero, Flt.zero⟩ ⟨0, 0, 100, 30⟩
        Flt.zero).win.mouse_widget = some (widget_ref.addr 1) ∧
      (input true win (widget_ref.addr 2) ⟨0, 0, 100, 30⟩ []).1.mouse_widget
        = some (widget_ref.addr 1) ∧
      (list (Flt.ofInt binary32 20) win (widget_ref.addr 2) ⟨0, Flt.zero, false⟩
        ⟨0, 0, 100, 30⟩ [] 0).win.mouse_widget = some (widget_ref.addr 1) :=
  capture_exclusivity
    { window.init with mouse_down := true, mouse_x := 50, mouse_y := 15,
                       mouse_widget := some (widget_ref.addr 1) }
    (widget_ref.addr 2) (widget_ref.addr 1) ⟨0, 0, 100, 30⟩ rfl (by decide)
    false 1 0 ⟨0⟩ 10 Flt.zero true libm.stub ⟨Flt.zero, Flt.zero, Flt.zero⟩ true []
    (Flt.ofInt binary32 20) ⟨0, Flt.zero, false⟩ []

/-- C3 (as stated, refuted): widget 1 holds capture, the button is up and the
pointer is at `(200,200)`, outside the rectangle `(0,0,100,30)`: `button`,
`checkbutton`, `radiobutton`, `slider`, `knob` and `input` return with the
capture still held by widget 1.  So does `knob` with the pointer at `(5,15)`,
inside the rectangle but outside the centred square of the knob. -/
theorem release_outside_counterexample :
    (button { window.init with mouse_x := 200, mouse_y := 200,
                               mouse_widget := some (widget_ref.addr 1) }
        (widget_ref.addr 1) ⟨0, 0, 100, 30⟩).1.mouse_widget ≠ none ∧
      (checkbutton { window.init with mouse_x := 200, mouse_y := 200,
                                      mouse_widget := some (widget_ref.addr 1) }
        (widget_ref.addr 1) ⟨0, 0, 100, 30⟩ false).1.mouse_widget ≠ none ∧
      (radiobutton { window.init with mouse_x := 200, mouse_y := 200,
                                      mouse_widget := some (widget_ref.addr 1) }
        (widget_ref.addr 1) ⟨0, 0, 100, 30⟩ 1 0).1.mouse_widget ≠ none ∧
      (slider { window.init with mouse_x := 200, mouse_y := 200,
                                 mouse_widget := some (widget_ref.addr 1) }
        (widget_ref.addr 1) ⟨0⟩ ⟨0, 0, 100, 30⟩ 10 Flt.zero true).win.mouse_widget ≠ none ∧
      (knob libm.stub { window.init with mouse_x := 200, mouse_y := 200,
                                         mouse_widget := some (widget_ref.addr 1) }
        (widget_ref.addr 1) ⟨Flt.zero, Flt.zero, Flt.zero⟩ ⟨0, 0, 100, 30⟩
        Flt.zero).win.mouse_widget ≠ none ∧
      (input true { window.init with mouse_x := 200, mouse_y := 200,
                                     mouse_widget := some (widget_ref.addr 1) }
        (widget_ref.addr 1) ⟨0, 0, 100, 30⟩ []).1.mouse_widget ≠ none ∧
      (knob libm.stub { window.init with mouse_x := 5, mouse_y := 15,
                                         mouse_widget := some (widget_ref.addr 1) }
        (widget_ref.addr 1) ⟨Flt.zero, Flt.zero, Flt.zero⟩ ⟨0, 0, 100, 30⟩
        Flt.zero).win.mouse_widget ≠ none := by
  refine ⟨?_, ?_, ?_, ?_, ?_, ?_, ?_⟩
  · rw [button_win]; decide
  · rw [checkbutton_win]; decide
  · rw [radiobutton_win]; decide
  · rw [slider_win]; decide
  · rw [knob_win]; decide
  · rw [input_mouse_widget]; decide
  · rw [knob_win]; decide

/-- C3 (amended): a widget that holds capture on entry while the pointer
button is up.  With the pointer inside the widget's hit area (its rectangle,
for `knob` the centred square of its rectangle) the capture is null on return
from `button`, `checkbutton`, `radiobutton`, `slider`, `knob` and `input`;
`list` returns with the capture null wherever the pointer is.  With the
pointer outside, `button`, `checkbutton` and `radiobutton` report no event and
leave value and session as they were, and `slider`, `knob` and `input` return
with the capture still held by the widget; in every case the capture is null
after the `window::end` that closes the frame. -/
theorem release_protocol (win : window) (id : widget_ref) (r : rect)
    (hcap : win.mouse_widget = some id) (hup : win.mouse_down = false)
    (bvalue : Bool) (index ivalue : Int) (sw : slider_widget) (thumbsize : Int) (fvalue : Flt)
    (horz : Bool) (m : libm) (kw : knob_widget) (char_signed : Bool) (text : List Nat)
    (height : Flt) (lw : list_widget) (items : List String) :
    (pointer_inside win r = true →
        (button win id r).1.mouse_widget = none ∧
        (checkbutton win id r bvalue).1.mouse_widget = none ∧
        (radiobutton win id r index ivalue).1.mouse_widget = none ∧
        (slider win id sw r thumbsize fvalue horz).win.mouse_widget = none ∧
        (input char_signed win id r text).1.mouse_widget = none) ∧
      (knob_inside win r = true → (knob m win id kw r fvalue).win.mouse_widget = none) ∧
      (list height win id lw r items ivalue).win.mouse_widget = none ∧
      (pointer_inside win r = false →
        button win id r = (win, false) ∧
        checkbutton win id r bvalue = (win, bvalue, false) ∧
        radiobutton win id r index ivalue = (win, ivalue, false) ∧
        (slider win id sw r thumbsize fvalue horz).win.mouse_widget = some id ∧
        (input char_signed win id r text).1.mouse_widget = some id) ∧
      (knob_inside win r = false → (knob m win id kw r fvalue).win.mouse_widget = some id) ∧
      ((button win id r).1.end_frame.mouse_widget = none ∧
        (checkbutton win id r bvalue).1.end_frame.mouse_widget = none ∧
        (radiobutton win id r index ivalue).1.end_frame.mouse_widget = none ∧
        (slider win id sw r thumbsize fvalue horz).win.end_frame.mouse_widget = none ∧
        (knob m win id kw r fvalue).win.end_frame.mouse_widget = none ∧
        (input char_signed win id r text).1.end_frame.mouse_widget = none ∧
        (list height win id lw r items ivalue).win.end_frame.mouse_widget = none) := by
  have hrel := capture_step_release win id hcap hup
  refine ⟨?_, ?_, ?_, ?_, ?_, ?_⟩
  · intro hin
    rw [button_win, checkbutton_win, radiobutton_win, slider_win, input_mouse_widget, hin]
    exact ⟨hrel.1, hrel.1, hrel.1, hrel.1, hrel.1⟩
  · intro hin
    rw [knob_win, hin]
    exact hrel.1
  · rw [list_mouse_widget]
    split_ifs with h1 h2
    · exact hrel.1
    · rfl
    · simp [hcap, hup] at h2
  · intro hout
    have hc : contains (begin_widget r) ⟨win.mouse_x - r.x1, win.mouse_y - r.y1⟩ = false := by
      rw [contains_begin_widget]; exact hout
    refine ⟨?_, ?_, ?_, ?_, ?_⟩
    · simp [button, hc]
    · simp [checkbutton, hc]
    · simp [radiobutton, hc]
    · rw [slider_win, hout, hrel.2]; exact hcap
    · rw [input_mouse_widget, hout, hrel.2]; exact hcap
  · intro hout
    rw [knob_win, hout, hrel.2]
    exact hcap
  · refine ⟨?_, ?_, ?_, ?_, ?_, ?_, ?_⟩
    · apply end_frame_button_up; rw [button_win, capture_step_mouse_down]; exact hup
    · apply end_frame_button_up; rw [checkbutton_win, capture_step_mouse_down]; exact hup
    · apply end_frame_button_up; rw [radiobutton_win, capture_step_mouse_down]; exact hup
    · apply end_frame_button_up; rw [slider_win, capture_step_mouse_down]; exact hup
    · apply end_frame_button_up; rw [knob_win, capture_step_mouse_down]; exact hup
    · apply end_frame_button_up; rw [input_mouse_down]; exact hup
    · apply end_frame_button_up; rw [list_mouse_down]; exact hup

/-- Witness of `release_protocol`: widget 1 holds capture and the button is
up.  With the pointer at `(50,15)`, inside the rectangle `(0,0,100,30)` and
inside the square of the knob, every widget function returns with the capture
null; with the pointer at `(200,200)`, outside, `button` reports no event and
`slider` and `knob` return with the capture still held. -/
theorem release_protocol_witness :
    (let win : window := { window.init with mouse_x := 50, mouse_y := 15,
                                            mouse_widget := some (widget_ref.addr 1) }
     ((button win (widget_ref.addr 1) ⟨0, 0, 100, 30⟩).1.mouse_widget = none ∧
        (checkbutton win (widget_ref.addr 1) ⟨0, 0, 100, 30⟩ false).1.mouse_widget = none ∧
        (radiobutton win (widget_ref.addr 1) ⟨0, 0, 100, 30⟩ 1 0).1.mouse_widget = none ∧
        (slider win (widget_ref.addr 1) ⟨0⟩ ⟨0, 0, 100, 30⟩ 10 Flt.zero true).win.mouse_widget
          = none ∧
        (input true win (widget_ref.addr 1) ⟨0, 0, 100, 30⟩ []).1.mouse_widget = none) ∧
      (knob libm.stub win (widget_ref.addr 1) ⟨Flt.zero, Flt.zero, Flt.zero⟩ ⟨0, 0, 100, 30⟩
        Flt.zero).win.mouse_widget = none ∧
      (list (Flt.ofInt binary32 20) win (widget_ref.addr 1) ⟨0, Flt.zero, false⟩
        ⟨0, 0, 100, 30⟩ [] 0).win.mouse_widget = none) ∧
    (let win : window := { window.init with mouse_x := 200, mouse_y := 200,
                                            mouse_widget := some (widget_ref.addr 1) }
     (button win (widget_ref.addr 1) ⟨0, 0, 100, 30⟩ = (win, false) ∧
        checkbutton win (widget_ref.addr 1) ⟨0, 0, 100, 30⟩ false = (win, false, false) ∧
        radiobutton win (widget_ref.addr 1) ⟨0, 0, 100, 30⟩ 1 0 = (win, 0, false) ∧
        (slider win (widget_ref.addr 1) ⟨0⟩ ⟨0, 0, 100, 30⟩ 10 Flt.zero true).win.mouse_widget
          = some (widget_ref.addr 1) ∧
        (input true win (widget_ref.addr 1) ⟨0, 0, 100, 30⟩ []).1.mouse_widget
          = some (widget_ref.addr 1)) ∧
      (knob libm.stub win (widget_ref.addr 1) ⟨Flt.zero, Flt.zero, Flt.zero⟩ ⟨0, 0, 100, 30⟩
        Flt.zero).win.mouse_widget = some (widget_ref.addr 1) ∧
      (button win (widget_ref.addr 1) ⟨0, 0, 100, 30⟩).1.end_frame.mouse_widget = none) :=
  have h1 := release_protocol
    { window.init with mouse_x := 50, mouse_y := 15, mouse_widget := some (widget_ref.addr 1) }
    (widget_ref.addr 1) ⟨0, 0, 100, 30⟩ rfl rfl
    false 1 0 ⟨0⟩ 10 Flt.zero true libm.stub ⟨Flt.zero, Flt.zero, Flt.zero⟩ true []
    (Flt.ofInt binary32 20) ⟨0, Flt.zero, false⟩ []
  have h2 := release_protocol
    { window.init with mouse_x := 200, mouse_y := 200, mouse_widget := some (widget_ref.addr 1) }
    (widget_ref.addr 1) ⟨0, 0, 100, 30⟩ rfl rfl
    false 1 0 ⟨0⟩ 10 Flt.zero true libm.stub ⟨Flt.zero, Flt.zero, Flt.zero⟩ true []
    (Flt.ofInt binary32 20) ⟨0, Flt.zero, false⟩ []
  ⟨⟨h1.1 (by decide), h1.2.1 (by decide), h1.2.2.1⟩,
   ⟨h2.2.2.2.1 (by decide), h2.2.2.2.2.1 (by decide), h2.2.2.2.2.2.1⟩⟩

/-! ## Layout algebra -/

/-- C7 (code defect): the product `bounds.width() * *w` is computed in
`uint32_t` and wraps at `2^32`.  With bounds of width 1920 and the weights
3000000 and 1000000, `hbox::create` pushes the boundaries 0, 366, 846, so the
last cell ends at x = 846 instead of `bounds.x2 = 1920` (the weights 3 and 1
give 0, 1440, 1920).  With bounds of width 65536 and the single weight 65536
the product wraps to 0 and `cell(0)`, the last cell, ends at x = 0;
`vbox::create` does the same with the height. -/
theorem create_product_wraps :
    ((hbox.fresh 0).create ⟨0, 0, 1920, 10⟩ [3000000, 1000000]).xpos = [0, 366, 846] ∧
      (((hbox.fresh 0).create ⟨0, 0, 1920, 10⟩ [3000000, 1000000]).cell 1).map Prod.snd
        = some ⟨366, 0, 846, 10⟩ ∧
      ((hbox.fresh 0).create ⟨0, 0, 1920, 10⟩ [3, 1]).xpos = [0, 1440, 1920] ∧
      ((hbox.fresh 0).create ⟨0, 0, 65536, 10⟩ [65536]).xpos = [0, 0] ∧
      (((hbox.fresh 0).create ⟨0, 0, 65536, 10⟩ [65536]).cell 0).map Prod.snd
        = some ⟨0, 0, 0, 10⟩ ∧
      ((vbox.fresh 0).create ⟨0, 0, 10, 65536⟩ [65536]).ypos = [0, 0] ∧
      (((vbox.fresh 0).create ⟨0, 0, 10, 65536⟩ [65536]).cell 0).map Prod.snd
        = some ⟨0, 0, 10, 0⟩ := by
  decide

/-- C8 (code defect): a fresh `vbox`, `create_fixed` with the bounds
`(10,20,110,220)` and the extents 50 and 150.  `vbox::create_fixed` assigns
`next.y1` and `next.y2` where `vbox::create` assigns `next.x1` and `next.x2`,
so `cell(0)` is `(0,20,0,70)`: its `x1` and `x2` are those of `rect()`, not
`10` and `110`.  The same bounds through `vbox::create` give `x1 = 10` and
`x2 = 110`. -/
theorem vbox_create_fixed_cross_axis :
    (((vbox.fresh 0).create_fixed ⟨10, 20, 110, 220⟩ [50, 150]).cell 0).map Prod.snd
        = some ⟨0, 20, 0, 70⟩ ∧
      (((vbox.fresh 0).create ⟨10, 20, 110, 220⟩ [50, 150]).cell 0).map Prod.snd
        = some ⟨10, 20, 110, 70⟩ := by
  decide

/-! ## Slider -/

/-- Method `begin_widget` keeps width and height. -/
theorem begin_widget_extent (r : rect) :
    (begin_widget r).width = r.width ∧ (begin_widget r).height = r.height := by
  simp [begin_widget, move, rect.width, rect.height]

/-- C9: a slider that holds capture through the call (on entry the capture
target is the slider and the button is down, or the pointer is outside the
rectangle), hence not on its press frame, writes back the `float` quotient of
`clamp(pointer - delta, 0, travel)` by `travel`, where
`travel = extent - min(extent, thumbsize)`, `pointer` is the pointer coordinate
on the slider's axis relative to the rectangle and `delta` the stored offset.
For a horizontal slider of width 100, thumbsize 10 and value 0.0: the press at
x = 5 stores `delta = 5`, writes back 0.0 and returns false; the next frame,
held with the pointer at x = 50, writes back 0.5 and returns true. -/
theorem slider_drag (win : window) (idp : widget_ref) (id : slider_widget) (r : rect)
    (thumbsize : Int) (value : Flt) (horz : Bool) :
    (win.mouse_widget = some idp →
      (win.mouse_down = true ∨ pointer_inside win r = false) →
        (slider win idp id r thumbsize value horz).value
          = Flt.div binary32
              (Flt.ofInt binary32
                (max 0 (min ((if horz then r.width else r.height)
                              - min (if horz then r.width else r.height) thumbsize)
                  ((if horz then win.mouse_x - r.x1 else win.mouse_y - r.y1) - id.delta))))
              (Flt.ofInt binary32
                ((if horz then r.width else r.height)
                  - min (if horz then r.width else r.height) thumbsize))) ∧
      (let w1 : window :=
          { win with mouse_x := 5, mouse_y := 10, mouse_down := true, mouse_widget := none }
       let f1 := slider w1 idp id ⟨0, 0, 100, 20⟩ 10 Flt.zero true
       let w2 : window := { f1.win.end_frame with mouse_x := 50 }
       let f2 := slider w2 idp f1.id ⟨0, 0, 100, 20⟩ 10 f1.value true
       f1.win.mouse_widget = some idp ∧ f1.id.delta = 5 ∧ f1.value = Flt.zero ∧
       f1.changed = false ∧
       f2.value = Flt.fin 8388608 (-24) ∧ Flt.toRat f2.value = some (1 / 2) ∧
       f2.changed = true) := by
  refine ⟨?_, ?_⟩
  · intro hcap hheld
    have hstep : capture_step win idp (pointer_inside win r) = win := by
      unfold capture_step
      rcases hheld with h | h <;> simp [hcap, h]
    unfold slider
    simp only [contains_begin_widget]
    rcases hheld with h | h
    · cases hin : pointer_inside win r <;>
        simp [hcap, h, begin_widget, move, rect.width, rect.height]
    · simp [hcap, h, begin_widget, move, rect.width, rect.height]
  · have k1 : Flt.min Flt.one (Flt.max Flt.zero (Flt.min Flt.one (Flt.max Flt.zero Flt.zero)))
        = Flt.zero := by decide
    have k2 : Flt.toInt (Flt.mul binary32 Flt.zero (Flt.ofInt binary32 90)) = 0 := by decide
    have k3 : Flt.ne Flt.zero Flt.zero = false := by decide
    have k4 : Flt.div binary32 (Flt.ofInt binary32 45) (Flt.ofInt binary32 90)
        = Flt.fin 8388608 (-24) := by decide
    have k5 : Flt.ne (Flt.fin 8388608 (-24)) Flt.zero = true := by decide
    have k6 : Flt.toRat (Flt.fin 8388608 (-24)) = some (1 / 2) := by
      simp [Flt.toRat, pow2]
      norm_num
    simp [slider, contains, begin_widget, move, rect.width, rect.height, window.end_frame,
      k1, k2, k3, k4, k5, k6]

/-- Witness of `slider_drag`: the slider holds capture with `delta = 5`, the
button is down and the pointer is at x = 50 on a track of width 100 with
thumbsize 10; the value written back is 0.5. -/
theorem slider_drag_witness :
    (slider { window.init with mouse_down := true, mouse_x := 50, mouse_y := 10,
                               mouse_widget := some (widget_ref.addr 1) }
        (widget_ref.addr 1) ⟨5⟩ ⟨0, 0, 100, 20⟩ 10 Flt.zero true).value
      = Flt.fin 8388608 (-24) :=
  ((slider_drag { window.init with mouse_down := true, mouse_x := 50, mouse_y := 10,
                                   mouse_widget := some (widget_ref.addr 1) }
      (widget_ref.addr 1) ⟨5⟩ ⟨0, 0, 100, 20⟩ 10 Flt.zero true).1 rfl (Or.inl rfl)).trans
    (by decide)

/-- C10 (code defect): a horizontal slider of width 100 with thumbsize 20 and
value 0.5, so that the thumb covers x = 40..60; the press at x = 5 falls before
the thumb.  The guard of the clamp compares the pointer `thumb_z1`, not the
edge it points to, and never holds: the thumb is re-centred to the leading
edge -5, and the value written back is -5/80 = -0.0625, below 0. -/
theorem slider_press_before_thumb_unclamped :
    (slider { window.init with mouse_down := true, mouse_x := 5, mouse_y := 10 }
        (widget_ref.addr 1) ⟨0⟩ ⟨0, 0, 100, 20⟩ 20 (Flt.fin 8388608 (-24)) true)
      = { win := { window.init with mouse_down := true, mouse_x := 5, mouse_y := 10,
                                    mouse_widget := some (widget_ref.addr 1) },
          id := ⟨10⟩,
          value := Flt.fin (-8388608) (-27),
          changed := true,
          thumb := ⟨-5, 0, 15, 20⟩ } ∧
      Flt.toRat (Flt.fin (-8388608) (-27)) = some (-1 / 16) ∧
      Flt.lt (Flt.fin (-8388608) (-27)) Flt.zero = true := by
  refine ⟨by decide, ?_, by decide⟩
  simp [Flt.toRat, pow2]
  norm_num

/-! ## Geometry kernel: contains, pad, adjust -/

/-- C18: `contains` is the half-open containment test: it is true exactly
when `r.x1 ≤ x < r.x2` and `r.y1 ≤ y < r.y2`; hence it is false for every point
when the width or the height of `r` is zero or negative. -/
theorem contains_half_open (r : rect) (x y : Int) :
    (contains r ⟨x, y⟩ = true ↔ (r.x1 ≤ x ∧ x < r.x2) ∧ (r.y1 ≤ y ∧ y < r.y2)) ∧
      (r.width ≤ 0 ∨ r.height ≤ 0 → contains r ⟨x, y⟩ = false) := by
  have h : contains r ⟨x, y⟩ = true ↔ (r.x1 ≤ x ∧ x < r.x2) ∧ (r.y1 ≤ y ∧ y < r.y2) := by
    simp only [contains, Bool.and_eq_true, decide_eq_true_eq]
    tauto
  refine ⟨h, ?_⟩
  intro hz
  rw [← Bool.not_eq_true, h]
  simp only [rect.width, rect.height] at hz
  omega

/-- Witness of `contains_half_open`: no point is contained in the rectangle
`(10,0,10,5)` of width zero, not even its corner. -/
theorem contains_half_open_witness : contains ⟨10, 0, 10, 5⟩ ⟨10, 0⟩ = false :=
  (contains_half_open ⟨10, 0, 10, 5⟩ 10 0).2 (Or.inl (by decide))

/-- C19: `pad r h v` is `(r.x1 + h.padding1, r.y1 + v.padding1,
r.x2 - h.padding2, r.y2 - v.padding2)` when the padding fits on both axes
(`h.padding1 + h.padding2 < width` and `v.padding1 + v.padding2 < height`) and
the all-zero rectangle otherwise; the `length` fields of the spans do not
influence the result; with non-negative paddings a fitting result has positive
width and height and lies inside `r`. -/
theorem pad_spec (r : rect) (h v : span) :
    (h.padding1 + h.padding2 < r.width ∧ v.padding1 + v.padding2 < r.height →
        pad r h v
          = ⟨r.x1 + h.padding1, r.y1 + v.padding1, r.x2 - h.padding2, r.y2 - v.padding2⟩) ∧
      (¬ (h.padding1 + h.padding2 < r.width ∧ v.padding1 + v.padding2 < r.height) →
        pad r h v = ⟨0, 0, 0, 0⟩) ∧
      (∀ lh lv : Int, pad r { h with length := lh } { v with length := lv } = pad r h v) ∧
      (h.padding1 + h.padding2 < r.width ∧ v.padding1 + v.padding2 < r.height →
        0 ≤ h.padding1 → 0 ≤ h.padding2 → 0 ≤ v.padding1 → 0 ≤ v.padding2 →
        0 < (pad r h v).width ∧ 0 < (pad r h v).height ∧
        r.x1 ≤ (pad r h v).x1 ∧ (pad r h v).x2 ≤ r.x2 ∧
        r.y1 ≤ (pad r h v).y1 ∧ (pad r h v).y2 ≤ r.y2) := by
  refine ⟨?_, ?_, ?_, ?_⟩
  · intro hfit
    simp [pad, hfit]
  · intro hfit
    simp [pad, hfit, rect.zero]
  · intro lh lv
    simp [pad]
  · intro hfit h1 h2 h3 h4
    rw [(show pad r h v = ⟨r.x1 + h.padding1, r.y1 + v.padding1, r.x2 - h.padding2,
      r.y2 - v.padding2⟩ by simp [pad, hfit])]
    simp only [rect.width, rect.height] at hfit ⊢
    omega

/-- Witness of `pad_spec`: the rectangle `(0,0,100,50)` padded by 10 and 20
horizontally and by 5 and 5 vertically; with a horizontal padding of 60 and 40
there is no room. -/
theorem pad_spec_witness :
    pad ⟨0, 0, 100, 50⟩ ⟨10, 0, 20⟩ ⟨5, 0, 5⟩ = ⟨10, 5, 80, 45⟩ ∧
      pad ⟨0, 0, 100, 50⟩ ⟨60, 0, 40⟩ ⟨5, 0, 5⟩ = ⟨0, 0, 0, 0⟩ ∧
      (0 < (pad ⟨0, 0, 100, 50⟩ ⟨10, 0, 20⟩ ⟨5, 0, 5⟩).width ∧
        0 < (pad ⟨0, 0, 100, 50⟩ ⟨10, 0, 20⟩ ⟨5, 0, 5⟩).height ∧
        (0 : Int) ≤ (pad ⟨0, 0, 100, 50⟩ ⟨10, 0, 20⟩ ⟨5, 0, 5⟩).x1 ∧
        (pad ⟨0, 0, 100, 50⟩ ⟨10, 0, 20⟩ ⟨5, 0, 5⟩).x2 ≤ 100 ∧
        (0 : Int) ≤ (pad ⟨0, 0, 100, 50⟩ ⟨10, 0, 20⟩ ⟨5, 0, 5⟩).y1 ∧
        (pad ⟨0, 0, 100, 50⟩ ⟨10, 0, 20⟩ ⟨5, 0, 5⟩).y2 ≤ 50) :=
  ⟨(pad_spec ⟨0, 0, 100, 50⟩ ⟨10, 0, 20⟩ ⟨5, 0, 5⟩).1 (by decide),
   (pad_spec ⟨0, 0, 100, 50⟩ ⟨60, 0, 40⟩ ⟨5, 0, 5⟩).2.1 (by decide),
   (pad_spec ⟨0, 0, 100, 50⟩ ⟨10, 0, 20⟩ ⟨5, 0, 5⟩).2.2.2 (by decide)
     (by decide) (by decide) (by decide) (by decide)⟩

/-- C20: the fixed-size `adjust` returns a rectangle of width `w` and height
`h`; its left edge is `r.x1` when `xa < 0`, its right edge is `r.x2` when
`xa > 0`, and for `xa = 0` its left edge is `r.x1 + width/2 - w/2`, so that for
`0 ≤ w ≤ r.width` it lies inside `r` on that axis with left and right margins
that differ by at most 1; likewise vertically for `ya`.  (The function has no
statement that writes the argument `r`; the embedding returns the result
alone.) -/
theorem adjust_fixed (r : rect) (w h xa ya : Int) :
    ((adjust r w h xa ya).width = w ∧ (adjust r w h xa ya).height = h) ∧
      ((xa < 0 → (adjust r w h xa ya).x1 = r.x1) ∧
        (0 < xa → (adjust r w h xa ya).x2 = r.x2) ∧
        (xa = 0 → (adjust r w h xa ya).x1 = r.x1 + Int.tdiv r.width 2 - Int.tdiv w 2) ∧
        (xa = 0 → 0 ≤ w → w ≤ r.width →
          r.x1 ≤ (adjust r w h xa ya).x1 ∧ (adjust r w h xa ya).x2 ≤ r.x2 ∧
          |((adjust r w h xa ya).x1 - r.x1) - (r.x2 - (adjust r w h xa ya).x2)| ≤ 1)) ∧
      ((ya < 0 → (adjust r w h xa ya).y1 = r.y1) ∧
        (0 < ya → (adjust r w h xa ya).y2 = r.y2) ∧
        (ya = 0 → (adjust r w h xa ya).y1 = r.y1 + Int.tdiv r.height 2 - Int.tdiv h 2) ∧
        (ya = 0 → 0 ≤ h → h ≤ r.height →
          r.y1 ≤ (adjust r w h xa ya).y1 ∧ (adjust r w h xa ya).y2 ≤ r.y2 ∧
          |((adjust r w h xa ya).y1 - r.y1) - (r.y2 - (adjust r w h xa ya).y2)| ≤ 1)) := by
  obtain ⟨x1, y1, x2, y2⟩ := r
  simp only [adjust, rect.width, rect.height]
  refine ⟨⟨by omega, by omega⟩, ⟨?_, ?_, ?_, ?_⟩, ⟨?_, ?_, ?_, ?_⟩⟩
  · intro hx; simp [hx]
  · intro hx; simp [hx, not_lt.mpr (le_of_lt hx)]
  · intro hx; simp [hx]
  · intro hx hw hle
    have e1 : Int.tdiv (x2 - x1) 2 = (x2 - x1) / 2 :=
      Int.tdiv_eq_ediv (by omega) (by decide)
    have e2 : Int.tdiv w 2 = w / 2 := Int.tdiv_eq_ediv hw (by decide)
    simp only [hx, lt_irrefl, if_false, e1, e2]
    rw [abs_le]
    omega
  · intro hy; simp [hy]
  · intro hy; simp [hy, not_lt.mpr (le_of_lt hy)]
  · intro hy; simp [hy]
  · intro hy hh hle
    have e1 : Int.tdiv (y2 - y1) 2 = (y2 - y1) / 2 :=
      Int.tdiv_eq_ediv (by omega) (by decide)
    have e2 : Int.tdiv h 2 = h / 2 := Int.tdiv_eq_ediv hh (by decide)
    simp only [hy, lt_irrefl, if_false, e1, e2]
    rw [abs_le]
    omega

/-- Witness of `adjust_fixed`: a rectangle of 31 by 10 centred in
`(0,0,100,50)` (margins 35 and 34, 20 and 20), and one anchored left and
bottom. -/
theorem adjust_fixed_witness :
    (((0 : Int) ≤ (adjust ⟨0, 0, 100, 50⟩ 31 10 0 0).x1 ∧
        (adjust ⟨0, 0, 100, 50⟩ 31 10 0 0).x2 ≤ 100 ∧
        |((adjust ⟨0, 0, 100, 50⟩ 31 10 0 0).x1 - 0)
          - (100 - (adjust ⟨0, 0, 100, 50⟩ 31 10 0 0).x2)| ≤ 1) ∧
      ((0 : Int) ≤ (adjust ⟨0, 0, 100, 50⟩ 31 10 0 0).y1 ∧
        (adjust ⟨0, 0, 100, 50⟩ 31 10 0 0).y2 ≤ 50 ∧
        |((adjust ⟨0, 0, 100, 50⟩ 31 10 0 0).y1 - 0)
          - (50 - (adjust ⟨0, 0, 100, 50⟩ 31 10 0 0).y2)| ≤ 1)) ∧
    ((adjust ⟨0, 0, 100, 50⟩ 31 10 (-1) 1).x1 = 0 ∧
      (adjust ⟨0, 0, 100, 50⟩ 31 10 (-1) 1).y2 = 50) :=
  ⟨⟨(adjust_fixed ⟨0, 0, 100, 50⟩ 31 10 0 0).2.1.2.2.2 rfl (by decide) (by decide),
    (adjust_fixed ⟨0, 0, 100, 50⟩ 31 10 0 0).2.2.2.2.2 rfl (by decide) (by decide)⟩,
   ⟨(adjust_fixed ⟨0, 0, 100, 50⟩ 31 10 (-1) 1).2.1.1 (by decide),
    (adjust_fixed ⟨0, 0, 100, 50⟩ 31 10 (-1) 1).2.2.2.1 (by decide)⟩⟩

/-! ## Checkbox and radio button -/

/-- The result of `checkbutton` in closed form: the click is completed when
the pointer is inside, the button is up and the widget holds capture. -/
theorem checkbutton_eq (win : window) (id : widget_ref) (r : rect) (value : Bool) :
    (checkbutton win id r value).2
      = if pointer_inside win r = true ∧ win.mouse_down = false ∧ win.mouse_widget = some id
        then (!value, true) else (value, false) := by
  unfold checkbutton
  simp only [contains_begin_widget]
  cases hin : pointer_inside win r <;> cases hd : win.mouse_down <;>
    rcases hw : win.mouse_widget with _ | c <;> simp
  by_cases hc : c = id <;> simp [hc]

/-- C12: `checkbutton` returns true exactly when on entry the pointer is
inside its rectangle, the pointer button is up and the capture target is this
widget; the boolean of the caller is negated when the call returns true and is
left as it was otherwise.  A sequence of calls made with the pointer outside
the rectangle leaves the boolean as it was. -/
theorem checkbutton_toggle (win : window) (id : widget_ref) (r : rect) (value : Bool) :
    ((checkbutton win id r value).2.2 = true ↔
        pointer_inside win r = true ∧ win.mouse_down = false ∧ win.mouse_widget = some id) ∧
      ((checkbutton win id r value).2.2 = true → (checkbutton win id r value).2.1 = !value) ∧
      ((checkbutton win id r value).2.2 = false → (checkbutton win id r value).2.1 = value) ∧
      (∀ (ws : List window) (b : Bool), (∀ w ∈ ws, pointer_inside w r = false) →
        checkbutton_calls id r ws b = b) := by
  refine ⟨?_, ?_, ?_, ?_⟩
  · rw [checkbutton_eq]
    split_ifs with h <;> simp [h]
  · rw [checkbutton_eq]
    split_ifs with h <;> simp
  · rw [checkbutton_eq]
    split_ifs with h <;> simp
  · intro ws
    induction ws with
    | nil => intro b _; rfl
    | cons w rest ih =>
      intro b hout
      have hw : pointer_inside w r = false := hout w (List.mem_cons_self w rest)
      have hstep : (checkbutton w id r b).2.1 = b := by
        rw [checkbutton_eq]
        simp [hw]
      simp only [checkbutton_calls, hstep]
      exact ih b (fun w' hw' => hout w' (List.mem_cons_of_mem w hw'))

/-- Witness of `checkbutton_toggle`: the release inside the rectangle toggles
the boolean, and two calls with the pointer outside leave it as it was. -/
theorem checkbutton_toggle_witness :
    (checkbutton { window.init with mouse_x := 50, mouse_y := 15,
                                    mouse_widget := some (widget_ref.addr 1) }
        (widget_ref.addr 1) ⟨0, 0, 100, 30⟩ false).2.1 = !false ∧
      checkbutton_calls (widget_ref.addr 1) ⟨0, 0, 100, 30⟩
        [{ window.init with mouse_x := 200, mouse_y := 15, mouse_down := true },
         { window.init with mouse_x := 200, mouse_y := 15,
                            mouse_widget := some (widget_ref.addr 1) }] true = true :=
  ⟨(checkbutton_toggle { window.init with mouse_x := 50, mouse_y := 15,
                                          mouse_widget := some (widget_ref.addr 1) }
      (widget_ref.addr 1) ⟨0, 0, 100, 30⟩ false).2.1 (by decide),
   (checkbutton_toggle window.init (widget_ref.addr 1) ⟨0, 0, 100, 30⟩ false).2.2.2
      [{ window.init with mouse_x := 200, mouse_y := 15, mouse_down := true },
       { window.init with mouse_x := 200, mouse_y := 15,
                          mouse_widget := some (widget_ref.addr 1) }] true (by decide)⟩

/-- The result of `radiobutton` in closed form. -/
theorem radiobutton_eq (win : window) (id : widget_ref) (r : rect) (index value : Int) :
    (radiobutton win id r index value).2
      = if pointer_inside win r = true ∧ win.mouse_down = false ∧ win.mouse_widget = some id
        then (index, decide (value ≠ index)) else (value, false) := by
  unfold radiobutton
  simp only [contains_begin_widget]
  cases hin : pointer_inside win r <;> cases hd : win.mouse_down <;>
    rcases hw : win.mouse_widget with _ | c <;> simp
  by_cases hc : c = id <;> simp [hc]

/-- C13: `radiobutton` returns true exactly when a click completes in this
call (pointer inside, button up, capture target equal to this widget on entry)
and the selection of the caller differed from `index` before the call; after a
completed click the selection is `index`; without a completed click the
selection is left as it was and the call returns false. -/
theorem radiobutton_select (win : window) (id : widget_ref) (r : rect) (index value : Int) :
    ((radiobutton win id r index value).2.2 = true ↔
        (pointer_inside win r = true ∧ win.mouse_down = false ∧ win.mouse_widget = some id) ∧
          value ≠ index) ∧
      (pointer_inside win r = true ∧ win.mouse_down = false ∧ win.mouse_widget = some id →
        (radiobutton win id r index value).2.1 = index) ∧
      (¬ (pointer_inside win r = true ∧ win.mouse_down = false ∧ win.mouse_widget = some id) →
        (radiobutton win id r index value).2.1 = value ∧
        (radiobutton win id r index value).2.2 = false) := by
  refine ⟨?_, ?_, ?_⟩
  · rw [radiobutton_eq]
    split_ifs with h <;> simp [h]
  · intro h
    rw [radiobutton_eq]
    simp [h]
  · intro h
    rw [radiobutton_eq]
    simp [h]

/-- Witness of `radiobutton_select`: the release inside the rectangle selects
index 2, and a call with the button down leaves the selection 0. -/
theorem radiobutton_select_witness :
    (radiobutton { window.init with mouse_x := 50, mouse_y := 15,
                                    mouse_widget := some (widget_ref.addr 1) }
        (widget_ref.addr 1) ⟨0, 0, 100, 30⟩ 2 0).2.1 = 2 ∧
      ((radiobutton { window.init with mouse_x := 50, mouse_y := 15, mouse_down := true }
          (widget_ref.addr 1) ⟨0, 0, 100, 30⟩ 2 0).2.1 = 0 ∧
        (radiobutton { window.init with mouse_x := 50, mouse_y := 15, mouse_down := true }
          (widget_ref.addr 1) ⟨0, 0, 100, 30⟩ 2 0).2.2 = false) :=
  ⟨(radiobutton_select { window.init with mouse_x := 50, mouse_y := 15,
                                          mouse_widget := some (widget_ref.addr 1) }
      (widget_ref.addr 1) ⟨0, 0, 100, 30⟩ 2 0).2.1 (by decide),
   (radiobutton_select { window.init with mouse_x := 50, mouse_y := 15, mouse_down := true }
      (widget_ref.addr 1) ⟨0, 0, 100, 30⟩ 2 0).2.2 (by decide)⟩

/-! ## Text input -/

/-- The session `input` returns is the one its capture step leaves. -/
theorem input_win (cs : Bool) (win : window) (id : widget_ref) (r : rect) (value : List Nat) :
    (input cs win id r value).1 = input_capture_step win id (pointer_inside win r) := by
  unfold input input_capture_step
  simp only [contains_begin_widget]
  split_ifs <;> rfl

/-- The capture step of `input` leaves the keystroke of the session alone. -/
theorem input_capture_step_key (win : window) (id : widget_ref) (inside : Bool) :
    (input_capture_step win id inside).key_down = win.key_down ∧
      (input_capture_step win id inside).key_utf8 = win.key_utf8 := by
  unfold input_capture_step
  split_ifs <;> exact ⟨rfl, rfl⟩

/-- Function `input` as its capture step followed by the keystroke handling. -/
theorem input_unfold (cs : Bool) (win : window) (id : widget_ref) (r : rect)
    (value : List Nat) :
    input cs win id r value
      = (fun w : window =>
          if w.focus_widget == some id && w.key_down then
            if first_char cs w.key_utf8 > 31 then (w, value ++ w.key_utf8, false)
            else if first_char cs w.key_utf8 = 8 then (w, value.dropLast, false)
            else if first_char cs w.key_utf8 = 13 then (w, value, true)
            else (w, value, false)
          else (w, value, false)) (input_capture_step win id (pointer_inside win r)) := by
  rw [← contains_begin_widget]
  rfl

/-- The string and the result of `input` in closed form, in terms of the
focus target the call returns with. -/
theorem input_eq (cs : Bool) (win : window) (id : widget_ref) (r : rect) (value : List Nat) :
    (input cs win id r value).2
      = if (input cs win id r value).1.focus_widget = some id ∧ win.key_down = true then
          if first_char cs win.key_utf8 > 31 then (value ++ win.key_utf8, false)
          else if first_char cs win.key_utf8 = 8 then (value.dropLast, false)
          else if first_char cs win.key_utf8 = 13 then (value, true)
          else (value, false)
        else (value, false) := by
  rw [input_win, input_unfold]
  have hk := input_capture_step_key win id (pointer_inside win r)
  simp only [hk.1, hk.2]
  by_cases hf : (input_capture_step win id (pointer_inside win r)).focus_widget = some id <;>
    cases hkd : win.key_down <;> simp [hf]
  split_ifs <;> rfl

/-- C14 (code defect): the widget holds focus and the keystroke `é` (the bytes
195 169) is pending.  Where `char` is signed, `key_utf8[0]` is -61, the test
`key_utf8[0] > 31` fails and the string `a` is returned as it was; where `char`
is unsigned the two bytes are appended. -/
theorem input_lead_byte_not_inserted :
    first_char true [195, 169] = -61 ∧
      input true { window.init with focus_widget := some (widget_ref.addr 1),
                                    key_down := true, key_utf8 := [195, 169] }
          (widget_ref.addr 1) ⟨0, 0, 100, 30⟩ [97]
        = ({ window.init with focus_widget := some (widget_ref.addr 1),
                              key_down := true, key_utf8 := [195, 169] }, [97], false) ∧
      input false { window.init with focus_widget := some (widget_ref.addr 1),
                                     key_down := true, key_utf8 := [195, 169] }
          (widget_ref.addr 1) ⟨0, 0, 100, 30⟩ [97]
        = ({ window.init with focus_widget := some (widget_ref.addr 1),
                              key_down := true, key_utf8 := [195, 169] },
           [97, 195, 169], false) := by
  decide

/-- The part of C14 the code fulfils: a pending keystroke whose first `char`
compares greater than 31 (a byte in 32..127, and with an unsigned `char` any
byte in 32..255) is appended whole by the widget that holds focus, and the
call returns false. -/
theorem input_appends (cs : Bool) (win : window) (id : widget_ref) (r : rect)
    (value : List Nat) (hfocus : (input cs win id r value).1.focus_widget = some id)
    (hkey : win.key_down = true) :
    (first_char cs win.key_utf8 > 31 →
        (input cs win id r value).2 = (value ++ win.key_utf8, false)) ∧
      (∀ (b : Nat) (rest : List Nat), win.key_utf8 = b :: rest → 32 ≤ b → b < 256 →
        (cs = false ∨ b < 128) → first_char cs win.key_utf8 > 31) := by
  refine ⟨?_, ?_⟩
  · intro h
    rw [input_eq]
    simp [hfocus, hkey, h]
  · intro b rest hb h32 h256 hcs
    rw [hb]
    simp only [first_char, char_value]
    have hmod : b % 256 = b := Nat.mod_eq_of_lt h256
    rcases hcs with h | h
    · simp [h, hmod]; omega
    · have : ¬ (128 ≤ b) := by omega
      simp [hmod, this]; omega

/-- The control keys of `input` on the bytes of the string: `input` returns
true exactly when the widget holds focus (the focus target the call returns
with, a press in this call included), a keystroke is pending and its first
byte is 13, and the string is then left as it was; with focus and a pending
backspace (first byte 8) the string loses its last byte, the empty string
staying empty; when the widget does not hold focus or no keystroke is pending
the string is left as it was and the call returns false.  The focus target on
return is the widget itself after a press in this call and the focus target on
entry otherwise. -/
theorem input_control_keys (cs : Bool) (win : window) (id : widget_ref) (r : rect)
    (value : List Nat) :
    ((input cs win id r value).2.2 = true ↔
        (input cs win id r value).1.focus_widget = some id ∧ win.key_down = true ∧
          first_char cs win.key_utf8 = 13) ∧
      ((input cs win id r value).2.2 = true → (input cs win id r value).2.1 = value) ∧
      ((input cs win id r value).1.focus_widget = some id → win.key_down = true →
        first_char cs win.key_utf8 = 8 →
          (input cs win id r value).2.1 = value.dropLast ∧
          (input cs win id r value).2.2 = false ∧
          (value = [] → (input cs win id r value).2.1 = [])) ∧
      ((input cs win id r value).1.focus_widget ≠ some id ∨ win.key_down = false →
        (input cs win id r value).2.1 = value ∧ (input cs win id r value).2.2 = false) ∧
      (input cs win id r value).1.focus_widget
        = (if pointer_inside win r = true ∧ win.mouse_widget = none ∧ win.mouse_down = true
           then some id else win.focus_widget) := by
  refine ⟨?_, ?_, ?_, ?_, ?_⟩
  · rw [input_eq]
    split_ifs with h1 h2 h3 h4
    · simp; omega
    · simp [h3]
    · simp [h1.1, h1.2, h4]
    · simp [h4]
    · simp; tauto
  · rw [input_eq]
    split_ifs <;> simp
  · intro hf hk h8
    rw [input_eq]
    simp only [hf, hk, h8, and_self, if_true]
    refine ⟨by simp, by simp, ?_⟩
    intro he
    simp [he]
  · intro h
    rw [input_eq]
    have : ¬ ((input cs win id r value).1.focus_widget = some id ∧ win.key_down = true) := by
      rcases h with h | h
      · exact fun hh => h hh.1
      · simp [h]
    simp [this]
  · rw [input_win]
    unfold input_capture_step
    cases hin : pointer_inside win r <;> cases hd : win.mouse_down <;>
      rcases hw : win.mouse_widget with _ | c <;> simp
    split_ifs <;> rfl

/-- An instance of `input_control_keys`: the focused widget with a pending
backspace and the string `ab`, and an unfocused widget with a pending key. -/
theorem input_control_keys_witness :
    ((input true { window.init with focus_widget := some (widget_ref.addr 1),
                                    key_down := true, key_utf8 := [8] }
          (widget_ref.addr 1) ⟨0, 0, 100, 30⟩ [97, 98]).2.1 = [97] ∧
        (input true { window.init with focus_widget := some (widget_ref.addr 1),
                                       key_down := true, key_utf8 := [8] }
          (widget_ref.addr 1) ⟨0, 0, 100, 30⟩ [97, 98]).2.2 = false) ∧
      ((input true { window.init with key_down := true, key_utf8 := [13] }
          (widget_ref.addr 1) ⟨0, 0, 100, 30⟩ [97, 98]).2.1 = [97, 98] ∧
        (input true { window.init with key_down := true, key_utf8 := [13] }
          (widget_ref.addr 1) ⟨0, 0, 100, 30⟩ [97, 98]).2.2 = false) ∧
      (input true { window.init with focus_widget := some (widget_ref.addr 1),
                                     key_down := true, key_utf8 := [13] }
          (widget_ref.addr 1) ⟨0, 0, 100, 30⟩ [97, 98]).2.1 = [97, 98] :=
  have h1 := (input_control_keys true
    { window.init with focus_widget := some (widget_ref.addr 1), key_down := true,
                       key_utf8 := [8] }
    (widget_ref.addr 1) ⟨0, 0, 100, 30⟩ [97, 98]).2.2.1 (by decide) rfl (by decide)
  ⟨⟨h1.1, h1.2.1⟩,
   (input_control_keys true { window.init with key_down := true, key_utf8 := [13] }
      (widget_ref.addr 1) ⟨0, 0, 100, 30⟩ [97, 98]).2.2.2.1 (Or.inl (by decide)),
   (input_control_keys true
      { window.init with focus_widget := some (widget_ref.addr 1), key_down := true,
                         key_utf8 := [13] }
      (widget_ref.addr 1) ⟨0, 0, 100, 30⟩ [97, 98]).2.1 (by decide)⟩

/-- C15 (code defect): the widget holds focus, a backspace is pending and the
string is `aé`, the bytes 97 195 169.  `value.substr(0, value.length() - 1)`
drops one byte, not one character: the string returned is the bytes 97 195,
the letter `a` followed by the lead byte of `é` alone, where the claim has the
string lose its last character and become `a`.  The keystroke `é` itself is
appended whole, as two bytes, where `char` is unsigned; the backspace that
follows takes back half of it.  On strings of one-byte characters the
backspace removes the last character (`ab` becomes `a`), and the empty string
stays empty. -/
theorem input_backspace_splits_character :
    (∀ cs : Bool,
        input cs { window.init with focus_widget := some (widget_ref.addr 1),
                                    key_down := true, key_utf8 := [8] }
            (widget_ref.addr 1) ⟨0, 0, 100, 30⟩ [97, 195, 169]
          = ({ window.init with focus_widget := some (widget_ref.addr 1),
                                key_down := true, key_utf8 := [8] }, [97, 195], false)) ∧
      (input false { window.init with focus_widget := some (widget_ref.addr 1),
                                      key_down := true, key_utf8 := [195, 169] }
          (widget_ref.addr 1) ⟨0, 0, 100, 30⟩ [97]).2.1 = [97, 195, 169] ∧
      (∀ cs : Bool,
        (input cs { window.init with focus_widget := some (widget_ref.addr 1),
                                     key_down := true, key_utf8 := [8] }
            (widget_ref.addr 1) ⟨0, 0, 100, 30⟩ [97, 98]).2.1 = [97] ∧
        (input cs { window.init with focus_widget := some (widget_ref.addr 1),
                                     key_down := true, key_utf8 := [8] }
            (widget_ref.addr 1) ⟨0, 0, 100, 30⟩ []).2.1 = []) := by
  decide

/-! ## Panel -/

/-- Properly nested panel pairs leave the session as it was. -/
theorem run_panel_pairs_id (p : panel_pairs) : ∀ win : window, run_panel_pairs p win = win := by
  induction p with
  | done => intro win; rfl
  | pair r inner rest ih_inner ih_rest =>
    intro win
    simp only [run_panel_pairs, ih_inner, ih_rest, begin_panel, end_panel]
    obtain ⟨md, mb, mx, my, mw, fw, kd, ku⟩ := win
    simp

/-- C17: for every session with the pointer at `(mx,my)` and every rectangle
`r`, `begin_panel` returns `r` translated to the origin, `(0,0,width,height)`,
and rebases the pointer to `(mx - r.x1, my - r.y1)`, leaving the rest of the
session alone; the `end_panel` on the same token that follows returns `r` and
restores the session, hence the pointer `(mx,my)`, also when properly nested
`begin_panel` / `end_panel` pairs on other tokens come in between. -/
theorem panel_round_trip (win : window) (r : rect) (between : panel_pairs) :
    (begin_panel win r).2.2 = ⟨0, 0, r.width, r.height⟩ ∧
      (begin_panel win r).1
        = { win with mouse_x := win.mouse_x - r.x1, mouse_y := win.mouse_y - r.y1 } ∧
      (end_panel (begin_panel win r).1 (begin_panel win r).2.1).2 = r ∧
      (end_panel (begin_panel win r).1 (begin_panel win r).2.1).1 = win ∧
      (end_panel (run_panel_pairs between (begin_panel win r).1) (begin_panel win r).2.1).2 = r ∧
      (end_panel (run_panel_pairs between (begin_panel win r).1) (begin_panel win r).2.1).1
        = win := by
  rw [run_panel_pairs_id]
  obtain ⟨md, mb, mx, my, mw, fw, kd, ku⟩ := win
  simp [begin_panel, end_panel, begin_widget, move]

/-! ## Slider: press inside the thumb and release -/

/-- The literal `1.f` in the representation of the format. -/
theorem Flt.one_eq : Flt.one = Flt.fin 8388608 (-23) := by decide

/-- The clamp of a NaN or of a number that is not above zero is zero, the
clamp of a number that is not below one is one, another number is left as it
is: the clamp is one of the three. -/
theorem unit_clamp_cases (v : Flt) :
    unit_clamp v = v ∨ unit_clamp v = Flt.zero ∨ unit_clamp v = Flt.one := by
  unfold unit_clamp Flt.max Flt.min
  by_cases h1 : Flt.lt Flt.zero v = true
  · by_cases h2 : Flt.lt v Flt.one = true
    · simp [h1, h2]
    · simp [h1, h2]
  · have h3 : Flt.lt Flt.zero Flt.one = true := by decide
    simp [h1, h3]

/-- Clamping twice is clamping once. -/
theorem unit_clamp_idem (v : Flt) : unit_clamp (unit_clamp v) = unit_clamp v := by
  have hz : unit_clamp Flt.zero = Flt.zero := by decide
  have ho : unit_clamp Flt.one = Flt.one := by decide
  unfold unit_clamp Flt.max Flt.min at *
  by_cases h1 : Flt.lt Flt.zero v = true
  · by_cases h2 : Flt.lt v Flt.one = true
    · simp [h1, h2]
    · simp only [h1, h2, if_true, if_false]
      exact ho
  · have h3 : Flt.lt Flt.zero Flt.one = true := by decide
    simp only [h1, h3, if_true, if_false]
    exact hz

/-- A number of `[0,1]` compares equal to its clamp. -/
theorem unit_clamp_eq (v : Flt) (hv : Flt.in_unit v) :
    Flt.eq (unit_clamp v) v = true ∧ Flt.eq (unit_clamp v) (unit_clamp v) = true := by
  obtain ⟨h0, h1⟩ := hv
  rw [Flt.one_eq] at h1
  cases v with
  | nan => simp [Flt.le, Flt.zero] at h0
  | inf s => cases s <;> simp [Flt.le, Flt.zero] at h0 h1
  | fin m e =>
    simp only [Flt.le, Flt.zero, decide_eq_true_eq, zero_mul] at h0 h1
    by_cases hlt0 : Flt.lt Flt.zero (Flt.fin m e) = true
    · by_cases hlt1 : Flt.lt (Flt.fin m e) (Flt.fin 8388608 (-23)) = true
      · have hc : unit_clamp (Flt.fin m e) = Flt.fin m e := by
          simp [unit_clamp, Flt.max, Flt.min, hlt0, hlt1, Flt.one_eq]
        rw [hc]
        simp [Flt.eq]
      · have hc : unit_clamp (Flt.fin m e) = Flt.fin 8388608 (-23) := by
          simp [unit_clamp, Flt.max, Flt.min, hlt0, hlt1, Flt.one_eq]
        rw [hc]
        simp only [Flt.lt, decide_eq_true_eq, not_lt] at hlt1
        simp only [Flt.eq, decide_eq_true_eq, min_comm (-23 : Int) e, and_true]
        omega
    · have h3 : Flt.lt Flt.zero Flt.one = true := by decide
      have hc : unit_clamp (Flt.fin m e) = Flt.fin 0 0 := by
        simp [unit_clamp, Flt.max, Flt.min, hlt0, h3]
        rfl
      rw [hc]
      simp only [Flt.lt, Flt.zero, decide_eq_true_eq, zero_mul, not_lt] at hlt0
      simp only [Flt.eq, decide_eq_true_eq, zero_mul, and_true]
      omega
/-- The double clamp of `slider`, in the form the function computes it. -/
theorem slider_clamp_twice (value : Flt) :
    Flt.min Flt.one (Flt.max Flt.zero (Flt.min Flt.one (Flt.max Flt.zero value)))
      = unit_clamp value :=
  unit_clamp_idem value

/-- A press inside the thumb: the slider acquires capture, stores the offset
of the pointer into the thumb and writes back the clamped value. -/
theorem slider_press_in_thumb (win : window) (idp : widget_ref) (id : slider_widget)
    (r : rect) (thumbsize : Int) (value : Flt) (horz : Bool)
    (hnone : win.mouse_widget = none) (hdown : win.mouse_down = true)
    (hin : pointer_inside win r = true)
    (h1 : slider_thumb_z r thumbsize value horz ≤ slider_pointer win r horz)
    (h2 : slider_pointer win r horz
      < slider_thumb_z r thumbsize value horz
        + min (if horz then r.width else r.height) thumbsize) :
    (slider win idp id r thumbsize value horz).win = { win with mouse_widget := some idp } ∧
      (slider win idp id r thumbsize value horz).id.delta
        = slider_pointer win r horz - slider_thumb_z r thumbsize value horz ∧
      (slider win idp id r thumbsize value horz).value = unit_clamp value ∧
      (slider win idp id r thumbsize value horz).changed = Flt.ne (unit_clamp value) value := by
  have hext := begin_widget_extent r
  unfold slider_thumb_z slider_travel slider_pointer at h1 h2
  unfold slider
  simp only [contains_begin_widget, hin, hnone, hdown, slider_clamp_twice, hext.1, hext.2,
    if_true]
  have c1 : ¬ ((if horz = true then win.mouse_x - r.x1 else win.mouse_y - r.y1) -
      (Flt.mul binary32 (unit_clamp value)
        (Flt.ofInt binary32 ((if horz = true then r.width else r.height) -
          (if horz = true then r.width else r.height) ⊓ thumbsize))).toInt < 0) := by omega
  have c2 : ¬ ((if horz = true then win.mouse_x - r.x1 else win.mouse_y - r.y1) -
      (Flt.mul binary32 (unit_clamp value)
        (Flt.ofInt binary32 ((if horz = true then r.width else r.height) -
          (if horz = true then r.width else r.height) ⊓ thumbsize))).toInt ≥
      (if horz = true then r.width else r.height) ⊓ thumbsize) := by omega
  simp only [if_neg c1, if_neg c2, and_self, true_and, and_true]
  rfl

/-- A release inside the rectangle: the slider gives up capture and writes
back the clamped value. -/
theorem slider_release_inside (win : window) (idp : widget_ref) (id : slider_widget)
    (r : rect) (thumbsize : Int) (value : Flt) (horz : Bool)
    (hcap : win.mouse_widget = some idp) (hup : win.mouse_down = false)
    (hin : pointer_inside win r = true) :
    (slider win idp id r thumbsize value horz).win = { win with mouse_widget := none } ∧
      (slider win idp id r thumbsize value horz).value = unit_clamp value ∧
      (slider win idp id r thumbsize value horz).changed = Flt.ne (unit_clamp value) value := by
  unfold slider
  simp [contains_begin_widget, hin, hcap, hup, slider_clamp_twice]
/-- C11: a slider with a value `v` in `[0,1]` and a positive travel.  A press
frame whose pointer lies within the current thumb (leading edge `≤` pointer
`<` leading edge + thumbsize) writes back a value that compares equal to `v`,
returns false and leaves the capture with the slider; the release frame that
follows `end()` at the same pointer position writes back the same value,
returns false and leaves the capture null. -/
theorem slider_round_trip (win : window) (idp : widget_ref) (id : slider_widget)
    (r : rect) (thumbsize : Int) (value : Flt) (horz : Bool)
    (hv : Flt.in_unit value) (htravel : 0 < slider_travel r thumbsize horz)
    (hnone : win.mouse_widget = none) (hdown : win.mouse_down = true)
    (hin : pointer_inside win r = true)
    (h1 : slider_thumb_z r thumbsize value horz ≤ slider_pointer win r horz)
    (h2 : slider_pointer win r horz < slider_thumb_z r thumbsize value horz + thumbsize) :
    Flt.eq (slider win idp id r thumbsize value horz).value value = true ∧
      (slider win idp id r thumbsize value horz).changed = false ∧
      (slider win idp id r thumbsize value horz).win.mouse_widget = some idp ∧
      (let f1 := slider win idp id r thumbsize value horz
       let w2 : window := { f1.win.end_frame with mouse_down := false }
       let f2 := slider w2 idp f1.id r thumbsize f1.value horz
       Flt.eq f2.value value = true ∧ f2.value = f1.value ∧ f2.changed = false ∧
       f2.win.mouse_widget = none) := by
  have hts : min (if horz then r.width else r.height) thumbsize = thumbsize := by
    unfold slider_travel at htravel
    omega
  obtain ⟨p1, _, p3, p4⟩ := slider_press_in_thumb win idp id r thumbsize value horz
    hnone hdown hin h1 (by rw [hts]; exact h2)
  obtain ⟨q1, q2⟩ := unit_clamp_eq value hv
  refine ⟨by rw [p3]; exact q1, by rw [p4]; simp [Flt.ne, q1], by rw [p1], ?_⟩
  intro f1 w2 f2
  have hw2 : w2 = { win with mouse_widget := some idp, mouse_down := false,
                             key_down := false } := by
    show ({ f1.win.end_frame with mouse_down := false } : window) = _
    rw [show f1.win = _ from p1]
    simp [window.end_frame, hdown]
  have hin2 : pointer_inside w2 r = true := by rw [hw2]; exact hin
  obtain ⟨s1, s2, s3⟩ := slider_release_inside w2 idp f1.id r thumbsize f1.value horz
    (by rw [hw2]) (by rw [hw2]) hin2
  have hf1 : f1.value = unit_clamp value := p3
  have e2 : f2.value = unit_clamp value := by
    show (slider w2 idp f1.id r thumbsize f1.value horz).value = _
    rw [s2, hf1, unit_clamp_idem]
  refine ⟨by rw [e2]; exact q1, by rw [e2, hf1], ?_, ?_⟩
  · show (slider w2 idp f1.id r thumbsize f1.value horz).changed = false
    rw [s3, hf1, unit_clamp_idem]
    simp [Flt.ne, q2]
  · show (slider w2 idp f1.id r thumbsize f1.value horz).win.mouse_widget = none
    rw [s1]

/-- Witness of `slider_round_trip`: a horizontal slider of width 100 with
thumbsize 20 and value 0.5, whose thumb covers x = 40..60, pressed at x = 50
and released there. -/
theorem slider_round_trip_witness :
    let win : window := { window.init with mouse_down := true, mouse_x := 50, mouse_y := 10 }
    let f1 := slider win (widget_ref.addr 1) ⟨0⟩ ⟨0, 0, 100, 20⟩ 20 (Flt.fin 8388608 (-24)) true
    let w2 : window := { f1.win.end_frame with mouse_down := false }
    let f2 := slider w2 (widget_ref.addr 1) f1.id ⟨0, 0, 100, 20⟩ 20 f1.value true
    Flt.eq f1.value (Flt.fin 8388608 (-24)) = true ∧ f1.changed = false ∧
      f1.win.mouse_widget = some (widget_ref.addr 1) ∧
      Flt.eq f2.value (Flt.fin 8388608 (-24)) = true ∧ f2.value = f1.value ∧
      f2.changed = false ∧ f2.win.mouse_widget = none :=
  slider_round_trip { window.init with mouse_down := true, mouse_x := 50, mouse_y := 10 }
    (widget_ref.addr 1) ⟨0⟩ ⟨0, 0, 100, 20⟩ 20 (Flt.fin 8388608 (-24)) true
    ⟨by decide, by decide⟩ (by decide) rfl rfl (by decide) (by decide) (by decide)

/-! ## List -/

/-- Function `list` as its capture step followed by the handling of the button
action the step registered. -/
theorem list_unfold (height : Flt) (win : window) (idp : widget_ref) (id : list_widget)
    (r : rect) (items : List String) (value : Int) :
    list height win idp id r items value
      = { win := (list_capture_step win idp (pointer_inside win r)).1,
          id := (list_action height (list_capture_step win idp (pointer_inside win r)).2
                  win id r items value).1,
          value := (list_action height (list_capture_step win idp (pointer_inside win r)).2
                  win id r items value).2.1,
          index_changed :=
            (list_action height (list_capture_step win idp (pointer_inside win r)).2
                  win id r items value).2.2 } := by
  rw [← contains_begin_widget]
  rfl

/-- A press registers the action `pressed` and hands capture and focus to
the list. -/
theorem list_capture_step_press (win : window) (idp : widget_ref)
    (hnone : win.mouse_widget = none) (hdown : win.mouse_down = true) :
    list_capture_step win idp true
      = ({ win with mouse_widget := some idp, focus_widget := some idp },
         btn_action.pressed) := by
  simp [list_capture_step, hnone, hdown]

/-- The selection and the result of `list` on a press (capture acquired in
this call): on the scrollbar nothing is selected; in the body the row under the
pointer is selected when it is below `doc - 1` and differs from the selection. -/
theorem list_press (height : Flt) (win : window) (idp : widget_ref) (id : list_widget)
    (r : rect) (items : List String) (value : Int)
    (hnone : win.mouse_widget = none) (hdown : win.mouse_down = true)
    (hin : pointer_inside win r = true) :
    ((list height win idp id r items value).value,
        (list height win idp id r items value).index_changed)
      = if list_on_scrollbar height win id r items then (value, false)
        else if list_row_index height win id r items < (items.length : Int) ∧
                list_row_index height win id r items ≠ value
          then (list_row_index height win id r items, true)
          else (value, false) := by
  rw [list_unfold, hin, list_capture_step_press win idp hnone hdown]
  simp only [list_action, if_true, add_sub_cancel_right]
  split_ifs <;> rfl

/-- C16: a call of `list` that registers a press (capture acquired in this
call) at a pointer position whose computed row index is the number of items
(the reserved trailing blank row) or larger leaves the selection of the caller
as it was and returns false. -/
theorem list_selection_boundary (height : Flt) (win : window) (idp : widget_ref)
    (id : list_widget) (r : rect) (items : List String) (value : Int)
    (hnone : win.mouse_widget = none) (hdown : win.mouse_down = true)
    (hin : pointer_inside win r = true)
    (hrow : (items.length : Int) ≤ list_row_index height win id r items) :
    (list height win idp id r items value).win.mouse_widget = some idp ∧
      (list height win idp id r items value).value = value ∧
      (list height win idp id r items value).index_changed = false := by
  have hp := list_press height win idp id r items value hnone hdown hin
  have hlt : ¬ (list_row_index height win id r items < (items.length : Int)) := by omega
  simp only [hlt, false_and, if_false, ite_self, Prod.mk.injEq] at hp
  refine ⟨?_, hp.1, hp.2⟩
  rw [list_unfold, hin, list_capture_step_press win idp hnone hdown]

/-- Witness of `list_selection_boundary`: three items with a row height of
20 in the rectangle `(0,0,100,200)`; the press at y = 70 is on row 3, the
blank row after the items, and the selection 1 stays. -/
theorem list_selection_boundary_witness :
    list_row_index (Flt.ofInt binary32 20)
        { window.init with mouse_down := true, mouse_x := 10, mouse_y := 70 }
        ⟨0, Flt.zero, false⟩ ⟨0, 0, 100, 200⟩ ["a", "b", "c"] = 3 ∧
      (list (Flt.ofInt binary32 20)
          { window.init with mouse_down := true, mouse_x := 10, mouse_y := 70 }
          (widget_ref.addr 1) ⟨0, Flt.zero, false⟩ ⟨0, 0, 100, 200⟩ ["a", "b", "c"] 1
        ).win.mouse_widget = some (widget_ref.addr 1) ∧
      (list (Flt.ofInt binary32 20)
          { window.init with mouse_down := true, mouse_x := 10, mouse_y := 70 }
          (widget_ref.addr 1) ⟨0, Flt.zero, false⟩ ⟨0, 0, 100, 200⟩ ["a", "b", "c"] 1
        ).value = 1 ∧
      (list (Flt.ofInt binary32 20)
          { window.init with mouse_down := true, mouse_x := 10, mouse_y := 70 }
          (widget_ref.addr 1) ⟨0, Flt.zero, false⟩ ⟨0, 0, 100, 200⟩ ["a", "b", "c"] 1
        ).index_changed = false :=
  ⟨by decide,
   list_selection_boundary (Flt.ofInt binary32 20)
     { window.init with mouse_down := true, mouse_x := 10, mouse_y := 70 }
     (widget_ref.addr 1) ⟨0, Flt.zero, false⟩ ⟨0, 0, 100, 200⟩ ["a", "b", "c"] 1
     rfl rfl (by decide) (by decide)⟩

/-! ## Grid -/

/-- The cell of a grid whose two partitions have the positions and origins of
an hbox `hb` and a vbox `vb` is the intersection of their bands. -/
theorem grid_cell_of_bands (g : grid) (hb : hbox) (vb : vbox) (r c : Nat)
    (hx : g.hb.xpos = hb.xpos) (hx1 : g.hb.x1 = hb.x1)
    (hy : g.vb.ypos = vb.ypos) (hy1 : g.vb.y1 = vb.y1) :
    g.cell r c = band_intersection (hb.cell c) (vb.cell r) := by
  unfold grid.cell hbox.cell vbox.cell band_intersection
  rw [hx, hx1, hy, hy1]
  cases hb.xpos[c]? <;> cases hb.xpos[(c + 1) % 4294967296]? <;>
    cases vb.ypos[r]? <;> cases vb.ypos[(r + 1) % 4294967296]? <;> rfl

/-- C21: for every bounds and every construction (row and column weights,
uniform rows and columns, fixed extents), `grid::cell(row, col)` is the
intersection of the two bands: it has the x-range of `cell(col)` of an hbox and
the y-range of `cell(row)` of a vbox created from the same bounds and the same
column and row weights, counts or extents, and it is in range exactly when
both band indexes are.  In the bounds `(0,0,100,60)` with the row weights 1, 2
and the column weights 1, 1 the cell of row 1 and column 1 is `(50,20,100,60)`. -/
theorem grid_cell_intersection (g : grid) (hb : hbox) (vb : vbox) (bounds : rect)
    (rweight cweight : List Nat) (rows columns : Int) (rextent cextent : List Int)
    (r c : Nat) :
    (g.create bounds rweight cweight).cell r c
        = band_intersection ((hb.create bounds cweight).cell c)
            ((vb.create bounds rweight).cell r) ∧
      (g.create_n bounds rows columns).cell r c
        = band_intersection ((hb.create_n bounds (to_uint32 columns).toNat).cell c)
            ((vb.create_n bounds (to_uint32 rows).toNat).cell r) ∧
      (g.create_fixed bounds rextent cextent).cell r c
        = band_intersection ((hb.create_fixed bounds cextent).cell c)
            ((vb.create_fixed bounds rextent).cell r) ∧
      (({ hb := hbox.fresh 0, vb := vbox.fresh 0 } : grid).create ⟨0, 0, 100, 60⟩
          [1, 2] [1, 1]).cell 1 1 = some ⟨50, 20, 100, 60⟩ :=
  ⟨grid_cell_of_bands _ _ _ r c rfl rfl rfl rfl,
   grid_cell_of_bands _ _ _ r c rfl rfl rfl rfl,
   grid_cell_of_bands _ _ _ r c rfl rfl rfl rfl,
   by decide⟩

/-! ## Focus -/

/-- The capture step of the widgets without keyboard input leaves the focus
target alone. -/
theorem capture_step_focus (win : window) (id : widget_ref) (inside : Bool) :
    (capture_step win id inside).focus_widget = win.focus_widget := by
  unfold capture_step
  split_ifs <;> rfl

/-- The focus target after the capture step of `input`. -/
theorem input_capture_step_focus (win : window) (id : widget_ref) (inside : Bool) :
    (input_capture_step win id inside).focus_widget
      = if inside = true ∧ win.mouse_widget = none ∧ win.mouse_down = true then some id
        else win.focus_widget := by
  unfold input_capture_step
  cases inside <;> cases hd : win.mouse_down <;> rcases hw : win.mouse_widget with _ | c <;>
    simp
  all_goals split_ifs <;> rfl

/-- The focus target after the capture step of `list`. -/
theorem list_capture_step_focus (win : window) (id : widget_ref) (inside : Bool) :
    (list_capture_step win id inside).1.focus_widget
      = if inside = true ∧ win.mouse_widget = none ∧ win.mouse_down = true then some id
        else win.focus_widget := by
  unfold list_capture_step
  cases inside <;> cases hd : win.mouse_down <;> rcases hw : win.mouse_widget with _ | c <;>
    simp
  all_goals split_ifs <;> rfl

/-- C22: `button`, `checkbutton`, `radiobutton`, `slider`, `knob`, `label`,
`begin_panel`, `end_panel` and `window::end` return with the focus target they
were entered with, also when the widget acquires capture in the call; `input`
and `list` change it only in a call in which they acquire capture (pointer
inside, no capture, button down), and then to the identity of the widget. -/
theorem focus_persistence (win : window) (id : widget_ref) (r : rect)
    (bvalue : Bool) (index ivalue : Int) (sw : slider_widget) (thumbsize : Int) (fvalue : Flt)
    (horz : Bool) (m : libm) (kw : knob_widget) (token : panel_widget) (char_signed : Bool)
    (text : List Nat) (height : Flt) (lw : list_widget) (items : List String) :
    ((button win id r).1.focus_widget = win.focus_widget ∧
        (checkbutton win id r bvalue).1.focus_widget = win.focus_widget ∧
        (radiobutton win id r index ivalue).1.focus_widget = win.focus_widget ∧
        (slider win id sw r thumbsize fvalue horz).win.focus_widget = win.focus_widget ∧
        (knob m win id kw r fvalue).win.focus_widget = win.focus_widget ∧
        (label win id r).focus_widget = win.focus_widget ∧
        (begin_panel win r).1.focus_widget = win.focus_widget ∧
        (end_panel win token).1.focus_widget = win.focus_widget ∧
        win.end_frame.focus_widget = win.focus_widget) ∧
      (input char_signed win id r text).1.focus_widget
        = (if pointer_inside win r = true ∧ win.mouse_widget = none ∧ win.mouse_down = true
           then some id else win.focus_widget) ∧
      (list height win id lw r items ivalue).win.focus_widget
        = (if pointer_inside win r = true ∧ win.mouse_widget = none ∧ win.mouse_down = true
           then some id else win.focus_widget) := by
  refine ⟨⟨?_, ?_, ?_, ?_, ?_, rfl, rfl, rfl, ?_⟩, ?_, ?_⟩
  · rw [button_win, capture_step_focus]
  · rw [checkbutton_win, capture_step_focus]
  · rw [radiobutton_win, capture_step_focus]
  · rw [slider_win, capture_step_focus]
  · rw [knob_win, capture_step_focus]
  · unfold window.end_frame
    simp only
    split_ifs <;> rfl
  · rw [input_win, input_capture_step_focus]
  · rw [list_unfold, list_capture_step_focus]

/-! ## A press on the background -/

/-- No call touches the button flag. -/
theorem session_call_mouse_down (c : session_call) (win : window) :
    (c.run win).mouse_down = win.mouse_down := by
  cases c with
  | label id r => rfl
  | button id r => simp only [session_call.run, button_win, capture_step_mouse_down]
  | checkbutton id r v => simp only [session_call.run, checkbutton_win, capture_step_mouse_down]
  | radiobutton id r i v => simp only [session_call.run, radiobutton_win, capture_step_mouse_down]
  | slider id st r t v h => simp only [session_call.run, slider_win, capture_step_mouse_down]
  | knob m id st r v => simp only [session_call.run, knob_win, capture_step_mouse_down]
  | input cs id r v => simp only [session_call.run, input_mouse_down]
  | list hgt id st r items v => simp only [session_call.run, list_mouse_down]
  | begin_panel r => rfl
  | end_panel t => rfl
  | end_frame =>
    simp only [session_call.run, window.end_frame]
    split_ifs <;> rfl
  | pointer x y => rfl

/-- While the button is down, a call leaves a capture that is held alone. -/
theorem session_call_held (c : session_call) (win : window) (k : widget_ref)
    (hdown : win.mouse_down = true) (hcap : win.mouse_widget = some k) :
    (c.run win).mouse_widget = some k := by
  have hstep : ∀ (id : widget_ref) (inside : Bool),
      (capture_step win id inside).mouse_widget = some k := by
    intro id inside
    unfold capture_step
    cases inside <;> simp [hdown, hcap]
  cases c with
  | label id r => exact hcap
  | button id r => simp only [session_call.run, button_win, hstep]
  | checkbutton id r v => simp only [session_call.run, checkbutton_win, hstep]
  | radiobutton id r i v => simp only [session_call.run, radiobutton_win, hstep]
  | slider id st r t v h => simp only [session_call.run, slider_win, hstep]
  | knob m id st r v => simp only [session_call.run, knob_win, hstep]
  | input cs id r v => simp only [session_call.run, input_mouse_widget, hstep]
  | list hgt id st r items v =>
    simp only [session_call.run, list_mouse_widget, hstep]
    simp [hdown, hcap]
  | begin_panel r => exact hcap
  | end_panel t => exact hcap
  | end_frame => simp [session_call.run, window.end_frame, hdown, hcap]
  | pointer x y => exact hcap

/-- While the button is up and the capture is null or held by the background,
a call leaves it null or held by the background. -/
theorem session_call_idle (c : session_call) (win : window)
    (hup : win.mouse_down = false)
    (hcap : win.mouse_widget = none ∨ win.mouse_widget = some widget_ref.background) :
    (c.run win).mouse_widget = none ∨
      (c.run win).mouse_widget = some widget_ref.background := by
  have hstep : ∀ (id : widget_ref) (inside : Bool),
      (capture_step win id inside).mouse_widget = none ∨
        (capture_step win id inside).mouse_widget = some widget_ref.background := by
    intro id inside
    unfold capture_step
    rcases hcap with h | h <;> cases inside <;> simp [hup, h]
    split_ifs <;> simp [h]
  cases c with
  | label id r => exact hcap
  | button id r => simp only [session_call.run, button_win]; exact hstep _ _
  | checkbutton id r v => simp only [session_call.run, checkbutton_win]; exact hstep _ _
  | radiobutton id r i v => simp only [session_call.run, radiobutton_win]; exact hstep _ _
  | slider id st r t v h => simp only [session_call.run, slider_win]; exact hstep _ _
  | knob m id st r v => simp only [session_call.run, knob_win]; exact hstep _ _
  | input cs id r v => simp only [session_call.run, input_mouse_widget]; exact hstep _ _
  | list hgt id st r items v =>
    simp only [session_call.run, list_mouse_widget]
    split_ifs
    · exact hstep _ _
    · exact Or.inl rfl
    · exact hcap
  | begin_panel r => exact hcap
  | end_panel t => exact hcap
  | end_frame => simp [session_call.run, window.end_frame, hup]
  | pointer x y => exact hcap

/-- A sequence of calls leaves the button flag alone. -/
theorem run_calls_mouse_down (calls : List session_call) :
    ∀ win : window, (run_calls calls win).mouse_down = win.mouse_down := by
  induction calls with
  | nil => intro win; rfl
  | cons c rest ih =>
    intro win
    simp only [run_calls]
    rw [ih, session_call_mouse_down]

/-- While the button is down, a sequence of calls leaves a capture that is
held alone. -/
theorem run_calls_held (calls : List session_call) (k : widget_ref) :
    ∀ win : window, win.mouse_down = true → win.mouse_widget = some k →
      (run_calls calls win).mouse_widget = some k := by
  induction calls with
  | nil => intro win _ hcap; exact hcap
  | cons c rest ih =>
    intro win hdown hcap
    simp only [run_calls]
    exact ih _ (by rw [session_call_mouse_down]; exact hdown)
      (session_call_held c win k hdown hcap)

/-- While the button is up and the capture is null or held by the background,
a sequence of calls leaves it null or held by the background. -/
theorem run_calls_idle (calls : List session_call) :
    ∀ win : window, win.mouse_down = false →
      (win.mouse_widget = none ∨ win.mouse_widget = some widget_ref.background) →
      ((run_calls calls win).mouse_widget = none ∨
        (run_calls calls win).mouse_widget = some widget_ref.background) := by
  induction calls with
  | nil => intro win _ hcap; exact hcap
  | cons c rest ih =>
    intro win hup hcap
    simp only [run_calls]
    exact ih _ (by rw [session_call_mouse_down]; exact hup) (session_call_idle c win hup hcap)

/-- C27: a frame in which nothing acquired capture ends with the button down
(`w0`).  After its `window::end` the capture is held by the background; it is
still held by the background after any calls made while the button stays down
(`held`: widget calls, further `window::end`, pointer moves), so no widget
acquires capture; after the button has gone up, whatever calls come first
(`release`), every call of `button` for a widget of the caller returns false,
also with the pointer inside its rectangle, and the `window::end` of that frame
leaves the capture null. -/
theorem background_press_never_clicks (w0 : window) (held release : List session_call)
    (id : widget_ref) (r : rect)
    (hdown : w0.mouse_down = true) (hnone : w0.mouse_widget = none)
    (hid : id ≠ widget_ref.background) :
    w0.end_frame.mouse_widget = some widget_ref.background ∧
      (run_calls held w0.end_frame).mouse_widget = some widget_ref.background ∧
      (button (run_calls release { run_calls held w0.end_frame with mouse_down := false })
        id r).2 = false ∧
      (run_calls release { run_calls held w0.end_frame with mouse_down := false }
        ).end_frame.mouse_widget = none := by
  have h1 : w0.end_frame.mouse_widget = some widget_ref.background := by
    simp [window.end_frame, hdown, hnone]
  have h1d : w0.end_frame.mouse_down = true := by
    simp only [window.end_frame]
    split_ifs <;> simp_all
  have h2 := run_calls_held held widget_ref.background w0.end_frame h1d h1
  have h3 := run_calls_idle release
    { run_calls held w0.end_frame with mouse_down := false } rfl (Or.inr h2)
  have h3d := run_calls_mouse_down release
    { run_calls held w0.end_frame with mouse_down := false }
  refine ⟨h1, h2, ?_, end_frame_button_up _ h3d⟩
  rw [← Bool.not_eq_true]
  intro hclick
  have hb : ∀ w : window, (button w id r).2 = true → w.mouse_widget = some id := by
    intro w
    unfold button
    simp only [contains_begin_widget]
    cases pointer_inside w r <;> cases w.mouse_down <;>
      rcases hw : w.mouse_widget with _ | c <;> simp
    intro hc
    by_cases hci : c = id
    · exact hci
    · simp [hci] at hc
  have hcap := hb _ hclick
  rcases h3 with h | h
  · rw [h] at hcap; exact absurd hcap (by simp)
  · rw [h] at hcap
    exact hid (Option.some.inj hcap).symm

/-- Witness of `background_press_never_clicks`: the press at `(200,200)`
misses the button `(0,0,100,30)`; the pointer is dragged onto the button with
the button down and released there; the button does not click. -/
theorem background_press_never_clicks_witness :
    (button
        (run_calls []
          { run_calls [session_call.pointer 50 15, session_call.button (widget_ref.addr 1)
                ⟨0, 0, 100, 30⟩, session_call.end_frame]
              ({ window.init with mouse_down := true, mouse_x := 200, mouse_y := 200 }
                : window).end_frame
            with mouse_down := false })
        (widget_ref.addr 1) ⟨0, 0, 100, 30⟩).2 = false :=
  (background_press_never_clicks
    { window.init with mouse_down := true, mouse_x := 200, mouse_y := 200 }
    [session_call.pointer 50 15, session_call.button (widget_ref.addr 1) ⟨0, 0, 100, 30⟩,
      session_call.end_frame]
    [] (widget_ref.addr 1) ⟨0, 0, 100, 30⟩ rfl rfl (by decide)).2.2.1

/-! ## Slider: the thumb position -/

/-- The function `round_half_up_div` is `floor (n / d + 1 / 2)`. -/
theorem round_half_up_div_eq (n d : Int) (hd : 0 < d) :
    round_half_up_div n d = ⌊(n : ℚ) / d + 1 / 2⌋ := by
  unfold round_half_up_div
  have hD : (0 : Int) < 2 * d := by omega
  have hDq : (0 : ℚ) < ((2 * d : Int) : ℚ) := by exact_mod_cast hD
  have h : (n : ℚ) / d + 1 / 2 = ((2 * n + d : Int) : ℚ) / ((2 * d : Int) : ℚ) := by
    have : (d : ℚ) ≠ 0 := by exact_mod_cast hd.ne'
    push_cast
    field_simp
    ring
  have h1 : (2 * n + d) / (2 * d) * (2 * d) ≤ 2 * n + d := Int.ediv_mul_le _ (ne_of_gt hD)
  have h2 : 2 * n + d < ((2 * n + d) / (2 * d) + 1) * (2 * d) :=
    Int.lt_ediv_add_one_mul_self _ hD
  rw [h, eq_comm, Int.floor_eq_iff]
  constructor
  · rw [le_div_iff₀ hDq]
    exact_mod_cast h1
  · rw [div_lt_iff₀ hDq]
    exact_mod_cast h2

/-- Truncating division brackets the quotient of a numerator that is not
negative: `z ≤ n / d < z + 1`. -/
theorem tdiv_trunc (n d : Int) (hn : 0 ≤ n) (hd : 0 < d) :
    0 ≤ Int.tdiv n d ∧ ((Int.tdiv n d : Int) : ℚ) ≤ (n : ℚ) / (d : ℚ) ∧
      (n : ℚ) / (d : ℚ) < ((Int.tdiv n d : Int) : ℚ) + 1 := by
  rw [Int.tdiv_eq_ediv hn (le_of_lt hd)]
  have hdq : (0 : ℚ) < (d : ℚ) := by exact_mod_cast hd
  have h1 : n / d * d ≤ n := Int.ediv_mul_le _ (ne_of_gt hd)
  have h2 : n < (n / d + 1) * d := Int.lt_ediv_add_one_mul_self _ hd
  refine ⟨Int.ediv_nonneg hn (le_of_lt hd), ?_, ?_⟩
  · rw [le_div_iff₀ hdq]
    exact_mod_cast h1
  · rw [div_lt_iff₀ hdq]
    exact_mod_cast h2

/-- The conversion to `int` of a finite number that is not negative and below
`2^31` is its truncation. -/
theorem Flt.toInt_in_range (m e : Int) (hm : 0 ≤ m)
    (hr : (m : ℚ) * (pow2 e : ℚ) / (pow2 (-e) : ℚ) < 2147483648) :
    Flt.toInt (Flt.fin m e) = Int.tdiv (m * pow2 e) (pow2 (-e)) := by
  have hD : (0 : Int) < (pow2 (-e) : Int) := by
    unfold pow2
    exact_mod_cast Nat.pos_pow_of_pos _ (by decide)
  have hN : (0 : Int) ≤ m * (pow2 e : Int) := Int.mul_nonneg hm (Int.ofNat_nonneg _)
  obtain ⟨h0, h1, _⟩ := tdiv_trunc _ _ hN hD
  have h3 : ((Int.tdiv (m * (pow2 e : Int)) (pow2 (-e) : Int) : Int) : ℚ) < 2147483648 := by
    push_cast at h1 ⊢
    exact lt_of_le_of_lt h1 hr
  have h4 : Int.tdiv (m * (pow2 e : Int)) (pow2 (-e) : Int) < 2147483648 := by
    exact_mod_cast h3
  simp only [Flt.toInt]
  rw [if_pos ⟨by omega, by omega⟩]

/-- The conversion to `int` of a finite number that is not negative never
exceeds the number. -/
theorem Flt.toInt_le (m e : Int) (hm : 0 ≤ m) :
    ((Flt.toInt (Flt.fin m e) : Int) : ℚ) ≤ (m : ℚ) * (pow2 e : ℚ) / (pow2 (-e) : ℚ) := by
  have hD : (0 : Int) < (pow2 (-e) : Int) := by
    unfold pow2
    exact_mod_cast Nat.pos_pow_of_pos _ (by decide)
  have hN : (0 : Int) ≤ m * (pow2 e : Int) := Int.mul_nonneg hm (Int.ofNat_nonneg _)
  obtain ⟨h0, h1, _⟩ := tdiv_trunc _ _ hN hD
  push_cast at h1
  simp only [Flt.toInt]
  split_ifs
  · exact h1
  · have h5 : (0 : ℚ) ≤ ((Int.tdiv (m * (pow2 e : Int)) (pow2 (-e) : Int) : Int) : ℚ) := by
      exact_mod_cast h0
    have h6 : (((-2147483648 : Int)) : ℚ) ≤ 0 := by norm_num
    linarith

/-- The conversion to `int` truncates: for a finite number that is not
negative and below `2^31` the result `z` satisfies `z ≤ x < z + 1`. -/
theorem Flt.toInt_trunc (m e : Int) (hm : 0 ≤ m)
    (hr : (m : ℚ) * (pow2 e : ℚ) / (pow2 (-e) : ℚ) < 2147483648) :
    ((Flt.toInt (Flt.fin m e) : Int) : ℚ) ≤ (m : ℚ) * (pow2 e : ℚ) / (pow2 (-e) : ℚ) ∧
      (m : ℚ) * (pow2 e : ℚ) / (pow2 (-e) : ℚ) < (Flt.toInt (Flt.fin m e) : ℚ) + 1 := by
  have hD : (0 : Int) < (pow2 (-e) : Int) := by
    unfold pow2
    exact_mod_cast Nat.pos_pow_of_pos _ (by decide)
  have hN : (0 : Int) ≤ m * (pow2 e : Int) := Int.mul_nonneg hm (Int.ofNat_nonneg _)
  obtain ⟨_, h1, h2⟩ := tdiv_trunc _ _ hN hD
  rw [Flt.toInt_in_range m e hm hr]
  push_cast at h1 h2
  exact ⟨h1, h2⟩

/-- The conversion to `int` of a finite number that is not negative and below
`2^31`, in terms of the number it denotes. -/
theorem Flt.toInt_trunc_toRat (x : Flt) (q : ℚ) (hx : Flt.toRat x = some q) (hq : 0 ≤ q)
    (hr : q < 2147483648) :
    ((Flt.toInt x : Int) : ℚ) ≤ q ∧ q < (Flt.toInt x : ℚ) + 1 := by
  cases x with
  | nan => simp [Flt.toRat] at hx
  | inf s => simp [Flt.toRat] at hx
  | fin m e =>
    simp only [Flt.toRat, Option.some.injEq] at hx
    have hP : (0 : ℚ) < (pow2 e : ℚ) := by
      unfold pow2
      exact_mod_cast Nat.pos_pow_of_pos _ (by decide)
    have hD : (0 : ℚ) < (pow2 (-e) : ℚ) := by
      unfold pow2
      exact_mod_cast Nat.pos_pow_of_pos _ (by decide)
    have hm : 0 ≤ m := by
      by_contra hneg
      have hm' : (m : ℚ) < 0 := by exact_mod_cast (not_le.mp hneg)
      have : (m : ℚ) * (pow2 e : ℚ) / (pow2 (-e) : ℚ) < 0 :=
        div_neg_of_neg_of_pos (mul_neg_of_neg_of_pos hm' hP) hD
      rw [hx] at this
      exact absurd hq (not_le.mpr this)
    rw [← hx] at hr ⊢
    exact Flt.toInt_trunc m e hm hr

/-- An idle frame (button up, no capture): the slider writes back the clamped
value and paints the thumb with its leading edge at `z`. -/
theorem slider_idle (win : window) (idp : widget_ref) (id : slider_widget)
    (r : rect) (thumbsize : Int) (value : Flt) (horz : Bool)
    (hup : win.mouse_down = false) (hnone : win.mouse_widget = none) :
    (slider win idp id r thumbsize value horz).value = unit_clamp value ∧
      (if horz then (slider win idp id r thumbsize value horz).thumb.x1
        else (slider win idp id r thumbsize value horz).thumb.y1)
        = slider_thumb_z r thumbsize value horz := by
  have hext := begin_widget_extent r
  unfold slider slider_thumb_z slider_travel
  cases horz <;>
    simp [contains_begin_widget, hup, hnone, slider_clamp_twice, hext.1, hext.2]

/-- C24 (as stated, refuted): the value 0.875 and the travel 2 (width 12,
thumbsize 10).  The product is 1.75 and rounds to 2, but the leading edge the
slider derives is `z = 1`: an idle frame paints the thumb at x = 1..11, and the
press at x = 5 stores `delta = 4`, not 3. -/
theorem slider_thumb_not_rounded :
    Flt.in_unit (Flt.fin 14680064 (-24)) ∧
      Flt.toRat (Flt.fin 14680064 (-24)) = some (7 / 8) ∧
      slider_travel ⟨0, 0, 12, 20⟩ 10 true = 2 ∧
      round_half_up_div (7 * 2) 8 = 2 ∧
      slider_thumb_z ⟨0, 0, 12, 20⟩ 10 (Flt.fin 14680064 (-24)) true = 1 ∧
      (slider { window.init with mouse_x := 5, mouse_y := 10 } (widget_ref.addr 1) ⟨0⟩
        ⟨0, 0, 12, 20⟩ 10 (Flt.fin 14680064 (-24)) true).thumb = ⟨1, 0, 11, 20⟩ ∧
      (slider { window.init with mouse_down := true, mouse_x := 5, mouse_y := 10 }
        (widget_ref.addr 1) ⟨0⟩ ⟨0, 0, 12, 20⟩ 10 (Flt.fin 14680064 (-24)) true).id.delta
        = 4 := by
  refine ⟨⟨by decide, by decide⟩, ?_, by decide, by decide, by decide, by decide, by decide⟩
  simp [Flt.toRat, pow2]
  norm_num

/-- C24 (amended): the leading edge of the thumb that the slider derives from
the value is `z = int(v * travel)`, the `float` product of the clamped value
and `travel = extent - min(extent, thumbsize)` truncated toward zero, so that
`z ≤ v * travel < z + 1` for the product as computed, which is in the range of
`int` (below `2^31`); an idle frame paints the thumb at `z`, and a press inside
the thumb stores the drag offset `delta = pointer - z`. -/
theorem slider_thumb_truncated (win : window) (idp : widget_ref) (id : slider_widget)
    (r : rect) (thumbsize : Int) (value : Flt) (horz : Bool) :
    slider_thumb_z r thumbsize value horz
        = Flt.toInt (Flt.mul binary32 (unit_clamp value)
            (Flt.ofInt binary32 (slider_travel r thumbsize horz))) ∧
      (∀ q : ℚ, Flt.toRat (Flt.mul binary32 (unit_clamp value)
            (Flt.ofInt binary32 (slider_travel r thumbsize horz))) = some q → 0 ≤ q →
        q < 2147483648 →
        ((slider_thumb_z r thumbsize value horz : Int) : ℚ) ≤ q ∧
          q < (slider_thumb_z r thumbsize value horz : ℚ) + 1) ∧
      (win.mouse_down = false → win.mouse_widget = none →
        (if horz then (slider win idp id r thumbsize value horz).thumb.x1
          else (slider win idp id r thumbsize value horz).thumb.y1)
          = slider_thumb_z r thumbsize value horz) ∧
      (win.mouse_widget = none → win.mouse_down = true → pointer_inside win r = true →
        slider_thumb_z r thumbsize value horz ≤ slider_pointer win r horz →
        slider_pointer win r horz < slider_thumb_z r thumbsize value horz
          + min (if horz then r.width else r.height) thumbsize →
        (slider win idp id r thumbsize value horz).id.delta
          = slider_pointer win r horz - slider_thumb_z r thumbsize value horz) := by
  refine ⟨rfl, ?_, ?_, ?_⟩
  · intro q hq h0 hr
    exact Flt.toInt_trunc_toRat _ q hq h0 hr
  · intro hup hnone
    exact (slider_idle win idp id r thumbsize value horz hup hnone).2
  · intro hnone hdown hin h1 h2
    exact (slider_press_in_thumb win idp id r thumbsize value horz hnone hdown hin h1 h2).2.1

/-- Witness of `slider_thumb_truncated`: the value 0.875 on a travel of 2;
the product 1.75 is truncated to `z = 1`, where the idle thumb is painted, and
the press at x = 5 stores `delta = 5 - 1`. -/
theorem slider_thumb_truncated_witness :
    (((slider_thumb_z ⟨0, 0, 12, 20⟩ 10 (Flt.fin 14680064 (-24)) true : Int) : ℚ) ≤ 7 / 4 ∧
        (7 / 4 : ℚ) < (slider_thumb_z ⟨0, 0, 12, 20⟩ 10 (Flt.fin 14680064 (-24)) true : ℚ) + 1) ∧
      (slider { window.init with mouse_x := 5, mouse_y := 10 } (widget_ref.addr 1) ⟨0⟩
        ⟨0, 0, 12, 20⟩ 10 (Flt.fin 14680064 (-24)) true).thumb.x1
        = slider_thumb_z ⟨0, 0, 12, 20⟩ 10 (Flt.fin 14680064 (-24)) true ∧
      (slider { window.init with mouse_down := true, mouse_x := 5, mouse_y := 10 }
        (widget_ref.addr 1) ⟨0⟩ ⟨0, 0, 12, 20⟩ 10 (Flt.fin 14680064 (-24)) true).id.delta
        = slider_pointer { window.init with mouse_down := true, mouse_x := 5, mouse_y := 10 }
            ⟨0, 0, 12, 20⟩ true
          - slider_thumb_z ⟨0, 0, 12, 20⟩ 10 (Flt.fin 14680064 (-24)) true :=
  ⟨(slider_thumb_truncated window.init (widget_ref.addr 1) ⟨0⟩ ⟨0, 0, 12, 20⟩ 10
      (Flt.fin 14680064 (-24)) true).2.1 (7 / 4)
      (by
        have h : Flt.mul binary32 (unit_clamp (Flt.fin 14680064 (-24)))
            (Flt.ofInt binary32 (slider_travel ⟨0, 0, 12, 20⟩ 10 true))
            = Flt.fin 14680064 (-23) := by decide
        rw [h]
        simp [Flt.toRat, pow2]
        norm_num)
      (by norm_num) (by norm_num),
   (slider_thumb_truncated { window.init with mouse_x := 5, mouse_y := 10 }
      (widget_ref.addr 1) ⟨0⟩ ⟨0, 0, 12, 20⟩ 10 (Flt.fin 14680064 (-24)) true).2.2.1 rfl rfl,
   (slider_thumb_truncated { window.init with mouse_down := true, mouse_x := 5, mouse_y := 10 }
      (widget_ref.addr 1) ⟨0⟩ ⟨0, 0, 12, 20⟩ 10 (Flt.fin 14680064 (-24)) true).2.2.2
      rfl rfl (by decide) (by decide) (by decide)⟩

/-- C25 (code defect): a horizontal slider of width 100 with thumbsize 100, so
that the travel is 0, and the value 0.5.  The press at x = 50 stores
`delta = 50` and writes back 0.5 (returns false); on the held frame that
follows, `v = float(z) / tracklen` divides 0 by 0: the value written back is a
NaN and the call returns true.  The frame after that clamps the NaN to 0. -/
theorem slider_no_travel_divides_by_zero :
    slider_travel ⟨0, 0, 100, 20⟩ 100 true = 0 ∧
      (slider { window.init with mouse_down := true, mouse_x := 50, mouse_y := 10 }
          (widget_ref.addr 1) ⟨0⟩ ⟨0, 0, 100, 20⟩ 100 (Flt.fin 8388608 (-24)) true)
        = { win := { window.init with mouse_down := true, mouse_x := 50, mouse_y := 10,
                                      mouse_widget := some (widget_ref.addr 1) },
            id := ⟨50⟩, value := Flt.fin 8388608 (-24), changed := false,
            thumb := ⟨0, 0, 100, 20⟩ } ∧
      (slider { window.init with mouse_down := true, mouse_x := 50, mouse_y := 10,
                                 mouse_widget := some (widget_ref.addr 1) }
          (widget_ref.addr 1) ⟨50⟩ ⟨0, 0, 100, 20⟩ 100 (Flt.fin 8388608 (-24)) true)
        = { win := { window.init with mouse_down := true, mouse_x := 50, mouse_y := 10,
                                      mouse_widget := some (widget_ref.addr 1) },
            id := ⟨50⟩, value := Flt.nan, changed := true,
            thumb := ⟨0, 0, 100, 20⟩ } ∧
      (slider { window.init with mouse_x := 50, mouse_y := 10 }
          (widget_ref.addr 1) ⟨50⟩ ⟨0, 0, 100, 20⟩ 100 Flt.nan true).value = Flt.zero := by
  decide

/-! ## Knob -/

/-- Function `knob` as its capture step followed by the handling of the
pointer vector. -/
theorem knob_unfold (m : libm) (win : window) (idp : widget_ref) (id : knob_widget)
    (r : rect) (value : Flt) :
    knob m win idp id r value
      = (fun (id0 : knob_widget) (wp : window × Bool) =>
          (fun (iv : knob_widget × Flt) =>
            ({ win := wp.1, id := iv.1, value := Flt.div binary32 iv.2 (Flt.ofInt binary32 270),
               changed := Flt.ne (Flt.div binary32 iv.2 (Flt.ofInt binary32 270)) value }
              : knob_result))
          (if wp.2 then
            ({ id0 with x1 := (knob_vector win r).1, y1 := (knob_vector win r).2 }, id0.angle)
          else if wp.1.mouse_widget = some idp then
            if Flt.ne (knob_vector win r).1 id0.x1 || Flt.ne (knob_vector win r).2 id0.y1 then
              (knob_turn m id0 (knob_vector win r).1 (knob_vector win r).2,
               (knob_turn m id0 (knob_vector win r).1 (knob_vector win r).2).angle)
            else (id0, id0.angle)
          else (id0, id0.angle)))
        { id with angle := Flt.mul binary32 (unit_clamp value) (Flt.ofInt binary32 270) }
        (knob_capture_step win idp (knob_inside win r)) := by
  rfl

/-- A held frame of `knob` (capture held, button down): the widget state is
the angular update of the stored vector by the pointer vector when the two
differ, and the value written back is the angle divided by 270. -/
theorem knob_held (m : libm) (win : window) (idp : widget_ref) (id : knob_widget)
    (r : rect) (value : Flt)
    (hcap : win.mouse_widget = some idp) (hdown : win.mouse_down = true) :
    (knob m win idp id r value).id
        = (if Flt.ne (knob_vector win r).1 id.x1 || Flt.ne (knob_vector win r).2 id.y1 then
            knob_turn m { id with angle := Flt.mul binary32 (unit_clamp value)
                                              (Flt.ofInt binary32 270) }
              (knob_vector win r).1 (knob_vector win r).2
          else { id with angle := Flt.mul binary32 (unit_clamp value)
                                              (Flt.ofInt binary32 270) }) ∧
      (knob m win idp id r value).value
        = Flt.div binary32 (knob m win idp id r value).id.angle (Flt.ofInt binary32 270) ∧
      (knob m win idp id r value).changed = Flt.ne (knob m win idp id r value).value value := by
  have hstep : knob_capture_step win idp (knob_inside win r) = (win, false) := by
    unfold knob_capture_step
    cases knob_inside win r <;> simp [hcap, hdown]
  rw [knob_unfold, hstep]
  simp only [hcap, Bool.false_eq_true, if_false, if_true]
  split_ifs <;> simp

/-- A product with a zero factor is zero or a NaN. -/
theorem Flt.mul_zero_cases (f : float_format) (x : Flt) :
    (Flt.mul f (Flt.fin 0 0) x = Flt.fin 0 0 ∨ Flt.mul f (Flt.fin 0 0) x = Flt.nan) ∧
      (Flt.mul f x (Flt.fin 0 0) = Flt.fin 0 0 ∨ Flt.mul f x (Flt.fin 0 0) = Flt.nan) := by
  cases x with
  | nan => exact ⟨Or.inr rfl, Or.inr rfl⟩
  | inf s => exact ⟨Or.inr (by simp [Flt.mul]), Or.inr (by simp [Flt.mul])⟩
  | fin m e => exact ⟨Or.inl (by simp [Flt.mul, Flt.round]), Or.inl (by simp [Flt.mul, Flt.round])⟩

/-- A sum or a difference of operands that are zero or a NaN is zero or a NaN. -/
theorem Flt.add_sub_zero_cases (f : float_format) (a b : Flt)
    (ha : a = Flt.fin 0 0 ∨ a = Flt.nan) (hb : b = Flt.fin 0 0 ∨ b = Flt.nan) :
    (Flt.add f a b = Flt.fin 0 0 ∨ Flt.add f a b = Flt.nan) ∧
      (Flt.sub f a b = Flt.fin 0 0 ∨ Flt.sub f a b = Flt.nan) := by
  rcases ha with ha | ha <;> rcases hb with hb | hb <;> subst ha <;> subst hb <;>
    simp [Flt.add, Flt.sub, Flt.neg, Flt.round]

/-- A quotient of operands that are zero or a NaN is a NaN. -/
theorem Flt.div_zero_cases (f : float_format) (a b : Flt)
    (ha : a = Flt.fin 0 0 ∨ a = Flt.nan) (hb : b = Flt.fin 0 0 ∨ b = Flt.nan) :
    Flt.div f a b = Flt.nan := by
  rcases ha with ha | ha <;> rcases hb with hb | hb <;> subst ha <;> subst hb <;>
    simp [Flt.div]

/-- The angular update on NaN quotients: the angle becomes 0. -/
theorem knob_turn_nan (m : libm) (id : knob_widget) (x2 y2 : Flt)
    (hasin : m.asin Flt.nan = Flt.nan) (hacos : m.acos Flt.nan = Flt.nan)
    (hcross : Flt.div binary32
        (Flt.sub binary32 (Flt.mul binary32 id.x1 y2) (Flt.mul binary32 x2 id.y1))
        (Flt.mul binary32
          (Flt.cvt binary32 (m.sqrt (Flt.add binary32 (Flt.mul binary32 id.x1 id.x1)
            (Flt.mul binary32 id.y1 id.y1))))
          (Flt.cvt binary32 (m.sqrt (Flt.add binary32 (Flt.mul binary32 x2 x2)
            (Flt.mul binary32 y2 y2))))) = Flt.nan)
    (hdot : Flt.div binary32
        (Flt.add binary32 (Flt.mul binary32 id.x1 x2) (Flt.mul binary32 id.y1 y2))
        (Flt.mul binary32
          (Flt.cvt binary32 (m.sqrt (Flt.add binary32 (Flt.mul binary32 id.x1 id.x1)
            (Flt.mul binary32 id.y1 id.y1))))
          (Flt.cvt binary32 (m.sqrt (Flt.add binary32 (Flt.mul binary32 x2 x2)
            (Flt.mul binary32 y2 y2))))) = Flt.nan) :
    knob_turn m id x2 y2 = { x1 := x2, y1 := y2, angle := Flt.zero } := by
  have hadd : ∀ a : Flt, Flt.add binary32 a Flt.nan = Flt.nan := by
    intro a; cases a <;> rfl
  have k1 : Flt.cvt binary32 (Flt.div binary64
      (Flt.mul binary32 Flt.nan (Flt.ofInt binary32 180)) M_PI) = Flt.nan := by decide
  have k2 : Flt.lt Flt.zero Flt.nan = false := by decide
  have k3 : Flt.neg Flt.nan = Flt.nan := rfl
  have k4 : Flt.max Flt.zero Flt.nan = Flt.zero := by decide
  have k5 : Flt.min (Flt.ofInt binary32 270) Flt.zero = Flt.zero := by decide
  unfold knob_turn
  simp only [hcross, hdot, hasin, hacos, k1, k2, k3, hadd, k4, k5, Bool.false_eq_true,
    if_false]

/-- C26 (code defect): for every mathematical library with `sqrt(0) = 0` and
`asin`, `acos` that map a NaN to a NaN.  The angular update has no guard for a
vector of zero length: with a zero stored vector, or a zero pointer vector, the
quotients are 0/0, and the NaN that results is clamped by
`std::max(0.f, angle)` to the angle 0.  So after the press at the centre
`(50,50)` of the knob `(0,0,100,100)` with the value 0.5 (angle 135, written
back unchanged), the held frame with the pointer at `(60,50)` leaves the angle
0, writes back the value 0 and returns true. -/
theorem knob_zero_vector_resets_angle (m : libm)
    (hsqrt : m.sqrt (Flt.fin 0 0) = Flt.fin 0 0)
    (hasin : m.asin Flt.nan = Flt.nan) (hacos : m.acos Flt.nan = Flt.nan) :
    (∀ a x2 y2 : Flt, knob_turn m { x1 := Flt.fin 0 0, y1 := Flt.fin 0 0, angle := a } x2 y2
        = { x1 := x2, y1 := y2, angle := Flt.zero }) ∧
      (∀ id : knob_widget, knob_turn m id (Flt.fin 0 0) (Flt.fin 0 0)
        = { x1 := Flt.fin 0 0, y1 := Flt.fin 0 0, angle := Flt.zero }) ∧
      (let w1 : window := { window.init with mouse_down := true, mouse_x := 50, mouse_y := 50 }
       let f1 := knob m w1 (widget_ref.addr 1) ⟨Flt.zero, Flt.zero, Flt.zero⟩ ⟨0, 0, 100, 100⟩
         (Flt.fin 8388608 (-24))
       let w2 : window := { f1.win.end_frame with mouse_x := 60 }
       let f2 := knob m w2 (widget_ref.addr 1) f1.id ⟨0, 0, 100, 100⟩ f1.value
       f1.win.mouse_widget = some (widget_ref.addr 1) ∧
       f1.id = ⟨Flt.fin 0 0, Flt.fin 0 0, Flt.ofInt binary32 135⟩ ∧
       f1.value = Flt.fin 8388608 (-24) ∧ f1.changed = false ∧
       f2.id.angle = Flt.zero ∧ f2.value = Flt.zero ∧ f2.changed = true) := by
  have e0 : Flt.add binary32 (Flt.mul binary32 (Flt.fin 0 0) (Flt.fin 0 0))
      (Flt.mul binary32 (Flt.fin 0 0) (Flt.fin 0 0)) = Flt.fin 0 0 := by decide
  have e1 : Flt.cvt binary32 (Flt.fin 0 0) = Flt.fin 0 0 := by decide
  have g1 : ∀ a x2 y2 : Flt,
      knob_turn m { x1 := Flt.fin 0 0, y1 := Flt.fin 0 0, angle := a } x2 y2
        = { x1 := x2, y1 := y2, angle := Flt.zero } := by
    intro a x2 y2
    apply knob_turn_nan m _ x2 y2 hasin hacos
    · simp only [e0, hsqrt, e1]
      exact Flt.div_zero_cases _ _ _
        (Flt.add_sub_zero_cases _ _ _ (Flt.mul_zero_cases _ y2).1 (Flt.mul_zero_cases _ x2).2).2
        (Flt.mul_zero_cases _ _).1
    · simp only [e0, hsqrt, e1]
      exact Flt.div_zero_cases _ _ _
        (Flt.add_sub_zero_cases _ _ _ (Flt.mul_zero_cases _ x2).1 (Flt.mul_zero_cases _ y2).1).1
        (Flt.mul_zero_cases _ _).1
  have g2 : ∀ id : knob_widget, knob_turn m id (Flt.fin 0 0) (Flt.fin 0 0)
        = { x1 := Flt.fin 0 0, y1 := Flt.fin 0 0, angle := Flt.zero } := by
    intro id
    apply knob_turn_nan m id _ _ hasin hacos
    · simp only [e0, hsqrt, e1]
      exact Flt.div_zero_cases _ _ _
        (Flt.add_sub_zero_cases _ _ _ (Flt.mul_zero_cases _ id.x1).2
          (Flt.mul_zero_cases _ id.y1).1).2
        (Flt.mul_zero_cases _ _).2
    · simp only [e0, hsqrt, e1]
      exact Flt.div_zero_cases _ _ _
        (Flt.add_sub_zero_cases _ _ _ (Flt.mul_zero_cases _ id.x1).2
          (Flt.mul_zero_cases _ id.y1).2).1
        (Flt.mul_zero_cases _ _).2
  refine ⟨g1, g2, ?_⟩
  intro w1 f1 w2 f2
  have hf1 : f1 = { win := { w1 with mouse_widget := some (widget_ref.addr 1) },
                    id := ⟨Flt.fin 0 0, Flt.fin 0 0, Flt.ofInt binary32 135⟩,
                    value := Flt.fin 8388608 (-24), changed := false } := by
    rfl
  have hw2 : w2 = { window.init with mouse_down := true, mouse_x := 60, mouse_y := 50,
                                     mouse_widget := some (widget_ref.addr 1) } := by
    show ({ f1.win.end_frame with mouse_x := 60 } : window) = _
    rw [hf1]
    rfl
  obtain ⟨h1, h2, h3⟩ := knob_held m w2 (widget_ref.addr 1) f1.id ⟨0, 0, 100, 100⟩ f1.value
    (by rw [hw2]) (by rw [hw2])
  have hid : f2.id = { x1 := Flt.fin 10485760 (-20), y1 := Flt.fin 0 0, angle := Flt.zero } := by
    show (knob m w2 (widget_ref.addr 1) f1.id ⟨0, 0, 100, 100⟩ f1.value).id = _
    rw [h1, hw2, hf1]
    have hv : knob_vector
        { window.init with mouse_down := true, mouse_x := 60, mouse_y := 50,
                           mouse_widget := some (widget_ref.addr 1) } ⟨0, 0, 100, 100⟩
        = (Flt.fin 10485760 (-20), Flt.fin 0 0) := by decide
    have hne : (Flt.ne (Flt.fin 10485760 (-20)) (Flt.fin 0 0)
        || Flt.ne (Flt.fin 0 0) (Flt.fin 0 0)) = true := by decide
    simp only [hv, hne, if_true]
    exact g1 _ _ _
  have hval : f2.value = Flt.zero := by
    show (knob m w2 (widget_ref.addr 1) f1.id ⟨0, 0, 100, 100⟩ f1.value).value = _
    rw [h2]
    show Flt.div binary32 f2.id.angle (Flt.ofInt binary32 270) = _
    rw [hid]
    decide
  refine ⟨by rw [hf1], by rw [hf1], by rw [hf1], by rw [hf1], by rw [hid], hval, ?_⟩
  show (knob m w2 (widget_ref.addr 1) f1.id ⟨0, 0, 100, 100⟩ f1.value).changed = true
  rw [h3]
  show Flt.ne f2.value f1.value = true
  rw [hval, hf1]
  decide

/-- Witness of `knob_zero_vector_resets_angle`, with a library whose functions
return their argument: the press at the centre and the held frame with the
pointer moved by 10. -/
theorem knob_zero_vector_resets_angle_witness :
    (knob libm.stub
        { window.init with mouse_down := true, mouse_x := 60, mouse_y := 50,
                           mouse_widget := some (widget_ref.addr 1) }
        (widget_ref.addr 1) ⟨Flt.fin 0 0, Flt.fin 0 0, Flt.ofInt binary32 135⟩
        ⟨0, 0, 100, 100⟩ (Flt.fin 8388608 (-24))).id.angle = Flt.zero :=
  (knob_zero_vector_resets_angle libm.stub rfl rfl rfl).2.2.2.2.2.2.1

/-- The positions `create_loop` pushes, index by index: position `i + 1` is
`int(0.5 + x)` for the running position `x` after `i + 1` weights. -/
theorem create_loop_eq (extent : Int) (sum : Flt) (ws : List Nat) :
    ∀ (x : Flt) (pos : List Int),
      create_loop extent sum ws x pos = pos ++ (List.range ws.length).map (fun i =>
        Flt.toInt (Flt.add binary64 Flt.half
          ((ws.take (i + 1)).foldl (fun (x : Flt) (w : Nat) => Flt.add binary64 x
            (Flt.div binary64 (Flt.ofInt binary64 (to_uint32 (extent * to_uint32 w))) sum)) x))) := by
  induction ws with
  | nil => intro x pos; simp [create_loop]
  | cons w ws ih =>
      intro x pos
      rw [create_loop, ih, List.length_cons, List.range_succ_eq_map]
      simp [List.map_map, Function.comp_def]

/-- Without a wrap of the product in `uint32_t` the running position of the
code is `split_running_sum`. -/
theorem running_sum_no_wrap (extent : Int) (sum : Flt) (ws : List Nat)
    (hw : ∀ w ∈ ws, (w : Int) < 4294967296 ∧ 0 ≤ extent * w ∧ extent * w < 4294967296) :
    ∀ x : Flt, ws.foldl (fun (x : Flt) (w : Nat) => Flt.add binary64 x
        (Flt.div binary64 (Flt.ofInt binary64 (to_uint32 (extent * to_uint32 w))) sum)) x
      = ws.foldl (fun (x : Flt) (w : Nat) => Flt.add binary64 x
        (Flt.div binary64 (Flt.ofInt binary64 (extent * w)) sum)) x := by
  induction ws with
  | nil => intro x; rfl
  | cons w ws ih =>
      intro x
      obtain ⟨h1, h2, h3⟩ := hw w (List.mem_cons_self _ _)
      have e1 : to_uint32 (w : Int) = w := by
        unfold to_uint32
        exact Int.emod_eq_of_lt (Int.natCast_nonneg w) h1
      have e2 : to_uint32 (extent * w) = extent * w := by
        unfold to_uint32
        exact Int.emod_eq_of_lt h2 h3
      rw [List.foldl_cons, List.foldl_cons]
      simp only [e1, e2]
      exact ih (fun v hv => hw v (List.mem_cons_of_mem _ hv)) _

/-- The positions of `create_loop` started as `create` starts it, without a
wrap of the products. -/
theorem create_loop_position (extent : Int) (ws : List Nat)
    (hw : ∀ w ∈ ws, (w : Int) < 4294967296 ∧ 0 ≤ extent * w ∧ extent * w < 4294967296)
    (i : Nat) (hi : i ≤ ws.length) :
    (create_loop extent (weight_sum ws) ws Flt.zero [Flt.toInt Flt.zero])[i]?
      = some (split_position extent ws i) := by
  rw [create_loop_eq]
  cases i with
  | zero => simp [split_position, split_running_sum]; decide
  | succ j =>
      have hj : j < ws.length := hi
      simp only [List.singleton_append, List.getElem?_cons_succ]
      rw [List.getElem?_map, List.getElem?_range hj]
      simp only [Option.map_some', split_position, split_running_sum]
      rw [running_sum_no_wrap extent (weight_sum ws) (ws.take (j + 1))
        (fun v hv => hw v (List.mem_of_mem_take hv))]

/-- Boundary 0 is 0. -/
theorem split_position_zero (extent : Int) (ws : List Nat) : split_position extent ws 0 = 0 := by
  simp only [split_position, split_running_sum, List.take_zero, List.foldl_nil]
  decide

/-- C23 (counterexample): at an exact tie the boundary is not the exact quotient
rounded half up.  For the extent 2 and the weights 3, 4, 2, 3 the exact
quotient of boundary 3 is `2 * 9 / 12 = 1.5`, which rounds half up to 2; the
running `double` sum of the quotients `6/12`, `8/12`, `4/12` is just below
`1.5`, and the far edge of `cell(2)` is 1, for an hbox and for a vbox.  For the
extent 10 and twelve equal columns the exact quotient of boundary 9 is `7.5`,
which rounds half up to 8, and the position of boundary 9 is 7.  No product
wraps in these calls. -/
theorem weighted_split_tie_counterexample :
    Option.map (fun p => p.2) (((hbox.fresh 0).create ⟨0, 0, 2, 10⟩ [3, 4, 2, 3]).cell 2)
        = some ⟨1, 0, 1, 10⟩ ∧
      Option.map (fun p => p.2) (((vbox.fresh 0).create ⟨0, 0, 10, 2⟩ [3, 4, 2, 3]).cell 2)
        = some ⟨0, 1, 10, 1⟩ ∧
      round_half_up_div (2 * (3 + 4 + 2)) (3 + 4 + 2 + 3) = 2 ∧
      ((hbox.fresh 0).create_n ⟨0, 0, 10, 10⟩ 12).xpos
        = [0, 1, 2, 3, 3, 4, 5, 6, 7, 7, 8, 9, 10] ∧
      round_half_up_div (10 * 9) 12 = 8 :=
  ⟨by decide, by decide, by decide, by decide, by decide⟩

/-! ## Signs of the floating-point operations -/

/-- Rounding a quotient that is not negative gives a datum that is not
negative. -/
theorem Flt.round_not_negative (f : float_format) (n : Int) (d : Nat) (hn : 0 ≤ n) :
    (Flt.round f n d).not_negative = true := by
  have h : ¬ n < 0 := not_lt.mpr hn
  unfold Flt.round
  lift_lets
  intro a e0 e q num den m0 r m mq
  split_ifs <;> simp [Flt.not_negative, h]

/-- Rounding a quotient that is not positive gives a datum that is not
positive. -/
theorem Flt.round_not_positive (f : float_format) (n : Int) (d : Nat) (hn : n ≤ 0) :
    (Flt.round f n d).not_positive = true := by
  unfold Flt.round
  lift_lets
  intro a e0 e q num den m0 r m mq
  split_ifs with h0 h1 h2 h3
  · simp [Flt.not_positive]
  · simp [Flt.not_positive]
  · simp only [Flt.not_positive, decide_eq_true_eq]
    omega
  · simp [Flt.not_positive]
  · exact absurd (le_antisymm hn (not_lt.mp h3)) h0

/-- Unary minus turns a datum that is not negative into one that is not
positive. -/
theorem Flt.not_negative_neg (x : Flt) (h : x.not_negative = true) :
    (Flt.neg x).not_positive = true := by
  cases x <;> simp_all [Flt.neg, Flt.not_negative, Flt.not_positive]

/-- The function `ceil` keeps a datum that is not negative so. -/
theorem Flt.not_negative_ceil (f : float_format) (x : Flt) (h : x.not_negative = true) :
    (Flt.ceil f x).not_negative = true := by
  cases x with
  | nan => rfl
  | inf s => exact h
  | fin m e =>
    simp only [Flt.not_negative, decide_eq_true_eq] at h
    apply Flt.round_not_negative
    have h1 : (0 : Int) ≤ m * (pow2 e : Int) := Int.mul_nonneg h (Int.natCast_nonneg _)
    have h2 : Int.fdiv (-(m * (pow2 e : Int))) (pow2 (-e) : Int) ≤ 0 := by
      rw [Int.fdiv_eq_ediv _ (Int.natCast_nonneg _)]
      have hD : (0 : Int) < (pow2 (-e) : Int) := by
        unfold pow2
        exact_mod_cast Nat.pos_pow_of_pos _ (by decide)
      apply Int.le_of_lt_add_one
      rw [Int.ediv_lt_iff_lt_mul hD]
      omega
    omega

/-- The conversion to `int` of a datum that is not positive is not positive. -/
theorem Flt.toInt_not_positive (x : Flt) (h : x.not_positive = true) : Flt.toInt x ≤ 0 := by
  cases x with
  | nan => simp [Flt.toInt]
  | inf s => simp [Flt.toInt]
  | fin m e =>
    simp only [Flt.not_positive, decide_eq_true_eq] at h
    simp only [Flt.toInt]
    have h1 : m * (pow2 e : Int) ≤ 0 := Int.mul_nonpos_of_nonpos_of_nonneg h (Int.natCast_nonneg _)
    have h2 : (0 : Int) ≤ (pow2 (-e) : Int) := Int.natCast_nonneg _
    rw [← Int.neg_neg (m * (pow2 e : Int)), Int.neg_tdiv]
    have := Int.tdiv_nonneg (show (0 : Int) ≤ -(m * (pow2 e : Int)) by omega) h2
    omega

/-- The conversion of an integer that is not negative. -/
theorem Flt.ofInt_not_negative (f : float_format) (n : Int) (hn : 0 ≤ n) :
    (Flt.ofInt f n).not_negative = true := Flt.round_not_negative f n 1 hn

/-- The conversion of an integer that is not positive. -/
theorem Flt.ofInt_not_positive (f : float_format) (n : Int) (hn : n ≤ 0) :
    (Flt.ofInt f n).not_positive = true := Flt.round_not_positive f n 1 hn

/-- The product of two data that are not negative is not negative. -/
theorem Flt.mul_not_negative (f : float_format) (a b : Flt)
    (ha : a.not_negative = true) (hb : b.not_negative = true) :
    (Flt.mul f a b).not_negative = true := by
  cases a with
  | nan => cases b <;> rfl
  | inf s =>
    cases b with
    | nan => rfl
    | inf t => simp_all [Flt.mul, Flt.not_negative]
    | fin m e =>
      simp only [Flt.not_negative, decide_eq_true_eq, Bool.not_eq_true'] at ha hb
      have h : ¬ m < 0 := not_lt.mpr hb
      simp only [Flt.mul]
      split_ifs <;> simp [Flt.not_negative, ha, h]
  | fin m1 e1 =>
    cases b with
    | nan => rfl
    | inf t =>
      simp only [Flt.not_negative, decide_eq_true_eq, Bool.not_eq_true'] at ha hb
      have h : ¬ m1 < 0 := not_lt.mpr ha
      simp only [Flt.mul]
      split_ifs <;> simp [Flt.not_negative, hb, h]
    | fin m2 e2 =>
      simp only [Flt.not_negative, decide_eq_true_eq] at ha hb
      exact Flt.round_not_negative _ _ _
        (Int.mul_nonneg (Int.mul_nonneg ha hb) (Int.natCast_nonneg _))

/-- The product of two data that are not positive is not negative. -/
theorem Flt.mul_not_positive_not_positive (f : float_format) (a b : Flt)
    (ha : a.not_positive = true) (hb : b.not_positive = true) :
    (Flt.mul f a b).not_negative = true := by
  cases a with
  | nan => cases b <;> rfl
  | inf s =>
    cases b with
    | nan => rfl
    | inf t => simp_all [Flt.mul, Flt.not_negative, Flt.not_positive]
    | fin m e =>
      simp only [Flt.not_positive, decide_eq_true_eq] at ha hb
      simp only [Flt.mul]
      split_ifs with h0
      · rfl
      · have h : m < 0 := lt_of_le_of_ne hb h0
        simp [Flt.not_negative, ha, h]
  | fin m1 e1 =>
    cases b with
    | nan => rfl
    | inf t =>
      simp only [Flt.not_positive, decide_eq_true_eq] at ha hb
      simp only [Flt.mul]
      split_ifs with h0
      · rfl
      · have h : m1 < 0 := lt_of_le_of_ne ha h0
        simp [Flt.not_negative, hb, h]
    | fin m2 e2 =>
      simp only [Flt.not_positive, decide_eq_true_eq] at ha hb
      exact Flt.round_not_negative _ _ _
        (Int.mul_nonneg (Int.mul_nonneg_of_nonpos_of_nonpos ha hb) (Int.natCast_nonneg _))

/-- The product of a datum that is not positive and one that is not negative
is not positive. -/
theorem Flt.mul_not_positive (f : float_format) (a b : Flt)
    (ha : a.not_positive = true) (hb : b.not_negative = true) :
    (Flt.mul f a b).not_positive = true := by
  cases a with
  | nan => cases b <;> rfl
  | inf s =>
    cases b with
    | nan => rfl
    | inf t => simp_all [Flt.mul, Flt.not_negative, Flt.not_positive]
    | fin m e =>
      simp only [Flt.not_positive, Flt.not_negative, decide_eq_true_eq] at ha hb
      have h : ¬ m < 0 := not_lt.mpr hb
      simp only [Flt.mul]
      split_ifs <;> simp [Flt.not_positive, ha, h]
  | fin m1 e1 =>
    cases b with
    | nan => rfl
    | inf t =>
      simp only [Flt.not_positive, Flt.not_negative, decide_eq_true_eq,
        Bool.not_eq_true'] at ha hb
      simp only [Flt.mul]
      split_ifs with h0
      · rfl
      · have h : m1 < 0 := lt_of_le_of_ne ha h0
        simp [Flt.not_positive, hb, h]
    | fin m2 e2 =>
      simp only [Flt.not_positive, Flt.not_negative, decide_eq_true_eq] at ha hb
      exact Flt.round_not_positive _ _ _
        (Int.mul_nonpos_of_nonpos_of_nonneg (Int.mul_nonpos_of_nonpos_of_nonneg ha hb)
          (Int.natCast_nonneg _))

/-- The quotient of two data that are not negative is not negative. -/
theorem Flt.div_not_negative (f : float_format) (a b : Flt)
    (ha : a.not_negative = true) (hb : b.not_negative = true) :
    (Flt.div f a b).not_negative = true := by
  cases a with
  | nan => cases b <;> rfl
  | inf s =>
    cases b with
    | nan => rfl
    | inf t => rfl
    | fin m e =>
      simp only [Flt.not_negative, decide_eq_true_eq, Bool.not_eq_true'] at ha hb
      have h : ¬ m < 0 := not_lt.mpr hb
      simp [Flt.div, Flt.not_negative, ha, h]
  | fin m1 e1 =>
    cases b with
    | nan => rfl
    | inf t => rfl
    | fin m2 e2 =>
      simp only [Flt.not_negative, decide_eq_true_eq] at ha hb
      have h1 : ¬ m1 < 0 := not_lt.mpr ha
      have h2 : ¬ m2 < 0 := not_lt.mpr hb
      simp only [Flt.div]
      split_ifs with h0 h3
      · rfl
      · simp [Flt.not_negative, h1]
      · simp only [h2, if_false, one_mul]
        exact Flt.round_not_negative _ _ _ (Int.mul_nonneg ha (Int.natCast_nonneg _))

/-- The product `b * (a / b)` of the scroll update is not negative when `a`
is not negative and `b` is not positive. -/
theorem Flt.mul_div_not_negative (f : float_format) (a b : Flt)
    (ha : a.not_negative = true) (hb : b.not_positive = true) :
    (Flt.mul f b (Flt.div f a b)).not_negative = true := by
  cases b with
  | nan => cases a <;> rfl
  | inf t =>
    cases a with
    | nan => rfl
    | inf s => rfl
    | fin m e => simp [Flt.div, Flt.mul, Flt.not_negative]
  | fin m2 e2 =>
    simp only [Flt.not_positive, decide_eq_true_eq] at hb
    by_cases h0 : m2 = 0
    · subst h0
      cases a with
      | nan => rfl
      | inf s => simp [Flt.div, Flt.mul, Flt.not_negative]
      | fin m1 e1 =>
        simp only [Flt.div, if_true]
        split_ifs <;> simp [Flt.mul, Flt.not_negative]
    · have h2 : m2 < 0 := lt_of_le_of_ne hb h0
      apply Flt.mul_not_positive_not_positive
      · simp only [Flt.not_positive, decide_eq_true_eq]
        exact hb
      · cases a with
        | nan => rfl
        | inf s =>
          simp only [Flt.not_negative, Bool.not_eq_true'] at ha
          simp [Flt.div, Flt.not_positive, ha, h2]
        | fin m1 e1 =>
          simp only [Flt.not_negative, decide_eq_true_eq] at ha
          simp only [Flt.div, h0, h2, if_false, if_true]
          apply Flt.round_not_positive
          have := Int.mul_nonneg ha (Int.natCast_nonneg (pow2 (e1 - e2)))
          rw [Int.mul_assoc]
          omega

/-- Template `std::min` returns one of its arguments. -/
theorem Flt.min_cases (a b : Flt) : Flt.min a b = a ∨ Flt.min a b = b := by
  unfold Flt.min
  split_ifs
  · exact Or.inr rfl
  · exact Or.inl rfl

/-- A positive datum: a finite number above 0 or `+∞`. -/
theorem Flt.pos_cases (x : Flt) (h : Flt.lt Flt.zero x = true) :
    (∃ m e, x = Flt.fin m e ∧ 0 < m) ∨ x = Flt.inf false := by
  cases x with
  | nan => simp [Flt.lt, Flt.zero] at h
  | inf s =>
    simp only [Flt.lt, Flt.zero, Bool.not_eq_true'] at h
    exact Or.inr (by rw [h])
  | fin m e =>
    simp only [Flt.lt, Flt.zero, zero_mul, decide_eq_true_eq] at h
    refine Or.inl ⟨m, e, rfl, ?_⟩
    have hp : (0 : Int) ≤ (pow2 (e - Min.min 0 e) : Int) := Int.natCast_nonneg _
    by_contra hm
    have := Int.mul_nonpos_of_nonpos_of_nonneg (not_lt.mp hm) hp
    omega

/-- A positive datum is not negative. -/
theorem Flt.not_negative_of_pos (x : Flt) (h : Flt.lt Flt.zero x = true) :
    x.not_negative = true := by
  rcases Flt.pos_cases x h with ⟨m, e, rfl, hm⟩ | rfl
  · simp only [Flt.not_negative, decide_eq_true_eq]
    exact le_of_lt hm
  · rfl

/-- A datum `x` with `0 <= x` is not negative. -/
theorem Flt.not_negative_of_le (x : Flt) (h : Flt.le Flt.zero x = true) :
    x.not_negative = true := by
  cases x with
  | nan => rfl
  | inf s =>
    simp only [Flt.le, Flt.zero, Bool.not_eq_true'] at h
    simp [Flt.not_negative, h]
  | fin m e =>
    simp only [Flt.le, Flt.zero, zero_mul, decide_eq_true_eq] at h
    simp only [Flt.not_negative, decide_eq_true_eq]
    have hp : (0 : Int) < (pow2 (e - Min.min 0 e) : Int) := by
      unfold pow2
      exact_mod_cast Nat.pos_pow_of_pos _ (by decide)
    by_contra hm
    have := Int.mul_lt_mul_of_pos_right (not_le.mp hm) hp
    omega

/-! ## Error of one rounding -/

/-- The number `pow2 k` is positive. -/
theorem pow2_pos (k : Int) : 0 < pow2 k := by
  unfold pow2
  exact Nat.pos_pow_of_pos _ (by decide)

/-- The quotient `pow2 k / pow2 (-k)` is the power `2 ^ k`. -/
theorem pow2_div (k : Int) : ((pow2 k : Nat) : ℚ) / ((pow2 (-k) : Nat) : ℚ) = (2 : ℚ) ^ k := by
  unfold pow2
  rcases le_total 0 k with h | h
  · obtain ⟨n, rfl⟩ := Int.eq_ofNat_of_zero_le h
    have h1 : (-(n : Int)).toNat = 0 := by omega
    simp [h1]
  · obtain ⟨n, hn⟩ := Int.eq_ofNat_of_zero_le (show 0 ≤ -k by omega)
    have hk : k = -(n : Int) := by omega
    subst hk
    have h1 : (-(n : Int)).toNat = 0 := by omega
    simp [h1]

/-- The worker of `ilog2` with enough fuel brackets its argument between two
consecutive powers of two. -/
theorem ilog2_aux_spec : ∀ (fuel n : Nat), 0 < n → n ≤ fuel →
    2 ^ ilog2_aux fuel n ≤ n ∧ n < 2 ^ (ilog2_aux fuel n + 1) := by
  intro fuel
  induction fuel with
  | zero => intro n h1 h2; omega
  | succ fuel ih =>
    intro n h1 h2
    unfold ilog2_aux
    split_ifs with h
    · have : n = 1 := by omega
      subst this
      simp
    · have h3 := ih (n / 2) (by omega) (by omega)
      obtain ⟨h4, h5⟩ := h3
      constructor
      · rw [pow_succ]
        omega
      · rw [pow_succ]
        omega

/-- The function `ilog2` is the position of the most significant bit. -/
theorem ilog2_spec (n : Nat) (hn : 0 < n) : 2 ^ ilog2 n ≤ n ∧ n < 2 ^ (ilog2 n + 1) :=
  ilog2_aux_spec n n hn (le_refl n)

/-- The significand `Flt.round` selects is within one half of the scaled
quotient. -/
theorem round_sig_spec (num den : Nat) (hden : 0 < den) :
    |(((if 2 * (num % den) < den then num / den
        else if den < 2 * (num % den) then num / den + 1
        else if (num / den) % 2 = 0 then num / den else num / den + 1 : Nat) : ℚ))
      - (num : ℚ) / (den : ℚ)| ≤ 1 / 2 := by
  have h1 : num = den * (num / den) + num % den := (Nat.div_add_mod num den).symm
  have h2 : num % den < den := Nat.mod_lt _ hden
  generalize num / den = m0 at h1 ⊢
  generalize num % den = r at h1 h2 ⊢
  have hdq : (0 : ℚ) < den := by exact_mod_cast hden
  have hnum : (num : ℚ) = den * m0 + r := by exact_mod_cast h1
  have hr : (num : ℚ) / den = m0 + r / den := by
    rw [hnum]
    field_simp
    ring
  rw [hr, abs_le]
  split_ifs with c1 c2 c3
  · have : (2 : ℚ) * r < den := by exact_mod_cast c1
    have hr0 : (0 : ℚ) ≤ (r : ℚ) / den := by positivity
    have : (r : ℚ) / den ≤ 1 / 2 := by
      rw [div_le_iff₀ hdq]
      linarith
    constructor <;> linarith
  · have : (den : ℚ) < 2 * r := by exact_mod_cast c2
    have h3 : (r : ℚ) / den ≤ 1 := by
      rw [div_le_one hdq]
      exact_mod_cast le_of_lt h2
    have : (1 : ℚ) / 2 ≤ (r : ℚ) / den := by
      rw [le_div_iff₀ hdq]
      linarith
    push_cast
    constructor <;> linarith
  · have h4 : 2 * r = den := by omega
    have h5 : (2 : ℚ) * r = den := by exact_mod_cast h4
    have : (r : ℚ) / den = 1 / 2 := by
      rw [div_eq_div_iff (ne_of_gt hdq) (by norm_num)]
      linarith
    constructor <;> linarith
  · have h4 : 2 * r = den := by omega
    have h5 : (2 : ℚ) * r = den := by exact_mod_cast h4
    have : (r : ℚ) / den = 1 / 2 := by
      rw [div_eq_div_iff (ne_of_gt hdq) (by norm_num)]
      linarith
    push_cast
    constructor <;> linarith

/-- The exponent `Flt.round` selects is the binary exponent of the quotient. -/
theorem round_exp_spec (a d : Nat) (ha : 0 < a) (hd : 0 < d) :
    (2 : ℚ) ^ (if d * pow2 ((ilog2 a : Int) - (ilog2 d : Int))
                  ≤ a * pow2 (-((ilog2 a : Int) - (ilog2 d : Int)))
               then (ilog2 a : Int) - (ilog2 d : Int)
               else (ilog2 a : Int) - (ilog2 d : Int) - 1) ≤ (a : ℚ) / d ∧
      (a : ℚ) / d < (2 : ℚ) ^ ((if d * pow2 ((ilog2 a : Int) - (ilog2 d : Int))
                  ≤ a * pow2 (-((ilog2 a : Int) - (ilog2 d : Int)))
               then (ilog2 a : Int) - (ilog2 d : Int)
               else (ilog2 a : Int) - (ilog2 d : Int) - 1) + 1) := by
  obtain ⟨a1, a2⟩ := ilog2_spec a ha
  obtain ⟨d1, d2⟩ := ilog2_spec d hd
  generalize ilog2 a = la at *
  generalize ilog2 d = ld at *
  have hA1 : (2 : ℚ) ^ la ≤ a := by exact_mod_cast a1
  have hA2 : (a : ℚ) < 2 * 2 ^ la := by
    have : (a : ℚ) < 2 ^ (la + 1) := by exact_mod_cast a2
    rw [pow_succ] at this
    linarith
  have hD1 : (2 : ℚ) ^ ld ≤ d := by exact_mod_cast d1
  have hD2 : (d : ℚ) < 2 * 2 ^ ld := by
    have : (d : ℚ) < 2 ^ (ld + 1) := by exact_mod_cast d2
    rw [pow_succ] at this
    linarith
  have hA : (0 : ℚ) < 2 ^ la := by positivity
  have hD : (0 : ℚ) < 2 ^ ld := by positivity
  have haq : (0 : ℚ) < a := by exact_mod_cast ha
  have hdq : (0 : ℚ) < d := by exact_mod_cast hd
  have hz : (2 : ℚ) ^ ((la : Int) - (ld : Int)) = 2 ^ la / 2 ^ ld := by
    rw [zpow_sub₀ two_ne_zero, zpow_natCast, zpow_natCast]
  have hz1 : (2 : ℚ) ^ ((la : Int) - (ld : Int) + 1) = 2 * 2 ^ la / 2 ^ ld := by
    rw [zpow_add_one₀ two_ne_zero, hz]
    ring
  have hz2 : (2 : ℚ) ^ ((la : Int) - (ld : Int) - 1) = 2 ^ la / (2 * 2 ^ ld) := by
    rw [zpow_sub_one₀ two_ne_zero, hz]
    field_simp
    ring
  have hz3 : (2 : ℚ) ^ ((la : Int) - (ld : Int) - 1 + 1) = 2 ^ la / 2 ^ ld := by
    rw [sub_add_cancel, hz]
  have hP := pow2_div ((la : Int) - (ld : Int))
  have hP' : (0 : ℚ) < ((pow2 (-((la : Int) - (ld : Int))) : Nat) : ℚ) := by
    exact_mod_cast pow2_pos _
  have hc : d * pow2 ((la : Int) - (ld : Int)) ≤ a * pow2 (-((la : Int) - (ld : Int)))
      ↔ (2 : ℚ) ^ la / 2 ^ ld ≤ (a : ℚ) / d := by
    rw [← hz, ← hP, le_div_iff₀ hdq, div_mul_eq_mul_div, div_le_iff₀ hP']
    constructor
    · intro h
      have : ((d * pow2 ((la : Int) - (ld : Int)) : Nat) : ℚ)
          ≤ ((a * pow2 (-((la : Int) - (ld : Int))) : Nat) : ℚ) := by exact_mod_cast h
      push_cast at this
      linarith
    · intro h
      have : ((d * pow2 ((la : Int) - (ld : Int)) : Nat) : ℚ)
          ≤ ((a * pow2 (-((la : Int) - (ld : Int))) : Nat) : ℚ) := by
        push_cast
        linarith
      exact_mod_cast this
  have hup : (a : ℚ) / d < 2 * 2 ^ la / 2 ^ ld := by
    rw [div_lt_iff₀ hdq, div_mul_eq_mul_div, lt_div_iff₀ hD]
    nlinarith [mul_le_mul_of_nonneg_left hD1 (le_of_lt haq), mul_lt_mul_of_pos_right hA2 hdq]
  have hlo : (2 : ℚ) ^ la / (2 * 2 ^ ld) ≤ (a : ℚ) / d := by
    rw [div_le_iff₀ (by positivity), div_mul_eq_mul_div, le_div_iff₀ hdq]
    nlinarith [mul_le_mul_of_nonneg_right hA1 (le_of_lt hdq),
      mul_lt_mul_of_pos_left hD2 haq]
  split_ifs with c
  · rw [hz, hz1]
    exact ⟨hc.mp c, hup⟩
  · rw [hz2, hz3]
    refine ⟨hlo, ?_⟩
    exact not_le.mp (fun h => c (hc.mpr h))

/-- One rounding of a positive quotient in the normal range of the format: the
result is a positive finite number and its relative error is at most
`2 ^ (-prec)`. -/
theorem Flt.round_rel (f : float_format) (n : Int) (d : Nat) (hn : 0 < n) (hd : 0 < d)
    (hp : 0 < f.prec)
    (hlo : (2 : ℚ) ^ (f.qmin + (f.prec : Int) - 1) ≤ (n : ℚ) / d)
    (hhi : (n : ℚ) / d < (2 : ℚ) ^ f.emax) :
    ∃ m q, Flt.round f n d = Flt.fin m q ∧ 0 < m ∧
      |(m : ℚ) * (2 : ℚ) ^ q - (n : ℚ) / d| ≤ (n : ℚ) / d * (2 : ℚ) ^ (-(f.prec : Int)) := by
  have h2 : (1 : ℚ) < 2 := by norm_num
  unfold Flt.round
  rw [if_neg (ne_of_gt hn)]
  lift_lets
  intro a e0 e q num den m0 r m mq
  have haN : 0 < a := Int.natAbs_pos.mpr (ne_of_gt hn)
  have haq : (a : ℚ) = (n : ℚ) := by
    have : (a : Int) = n := Int.natAbs_of_nonneg (le_of_lt hn)
    exact_mod_cast this
  have he : (2 : ℚ) ^ e ≤ (a : ℚ) / d ∧ (a : ℚ) / d < (2 : ℚ) ^ (e + 1) :=
    round_exp_spec a d haN hd
  rw [haq] at he
  obtain ⟨he1, he2⟩ := he
  have hq : q = e - (f.prec : Int) + 1 := by
    apply max_eq_left
    have h3 : (2 : ℚ) ^ (f.qmin + (f.prec : Int) - 1) < (2 : ℚ) ^ (e + 1) :=
      lt_of_le_of_lt hlo he2
    have h4 := (zpow_lt_zpow_iff_right₀ h2).mp h3
    omega
  have hemax : e < f.emax := (zpow_lt_zpow_iff_right₀ h2).mp (lt_of_le_of_lt he1 hhi)
  have hden : 0 < den := Nat.mul_pos hd (pow2_pos q)
  have hdq : (0 : ℚ) < d := by exact_mod_cast hd
  have hx : (0 : ℚ) < (n : ℚ) / d := lt_of_lt_of_le (by positivity) he1
  have hQ : (0 : ℚ) < (2 : ℚ) ^ q := by positivity
  have hy : (num : ℚ) / den = (n : ℚ) / d / (2 : ℚ) ^ q := by
    have hpq : (0 : ℚ) < ((pow2 q : Nat) : ℚ) := by exact_mod_cast pow2_pos q
    have hpq2 : (0 : ℚ) < ((pow2 (-q) : Nat) : ℚ) := by exact_mod_cast pow2_pos (-q)
    have e1 : (num : ℚ) = (a : ℚ) * ((pow2 (-q) : Nat) : ℚ) := by
      show ((a * pow2 (-q) : Nat) : ℚ) = _
      push_cast
      rfl
    have e2 : (den : ℚ) = (d : ℚ) * ((pow2 q : Nat) : ℚ) := by
      show ((d * pow2 q : Nat) : ℚ) = _
      push_cast
      rfl
    rw [e1, e2, haq, ← pow2_div q]
    field_simp
  have hm : |(m : ℚ) - (num : ℚ) / den| ≤ 1 / 2 := round_sig_spec num den hden
  rw [hy, abs_le] at hm
  obtain ⟨hm1, hm2⟩ := hm
  -- bounds of the scaled quotient
  have hylo : (2 : ℚ) ^ ((f.prec : Int) - 1) ≤ (n : ℚ) / d / (2 : ℚ) ^ q := by
    rw [le_div_iff₀ hQ, ← zpow_add₀ two_ne_zero, hq]
    have : (f.prec : Int) - 1 + (e - (f.prec : Int) + 1) = e := by ring
    rw [this]
    exact he1
  have hyhi : (n : ℚ) / d / (2 : ℚ) ^ q < (2 : ℚ) ^ (f.prec : Int) := by
    rw [div_lt_iff₀ hQ, ← zpow_add₀ two_ne_zero, hq]
    have : (f.prec : Int) + (e - (f.prec : Int) + 1) = e + 1 := by ring
    rw [this]
    exact he2
  have hone : (1 : ℚ) ≤ (2 : ℚ) ^ ((f.prec : Int) - 1) :=
    one_le_zpow₀ (le_of_lt h2) (by omega)
  have hmpos : 0 < m := by
    have : (0 : ℚ) < (m : ℚ) := by linarith
    exact_mod_cast this
  have hmle : m ≤ 2 ^ f.prec := by
    have h5 : (m : ℚ) < (2 : ℚ) ^ (f.prec : Int) + 1 / 2 := by linarith
    rw [zpow_natCast] at h5
    have h6 : (m : ℚ) < ((2 ^ f.prec + 1 : Nat) : ℚ) := by
      push_cast
      linarith
    have h7 : m < 2 ^ f.prec + 1 := by exact_mod_cast h6
    omega
  -- the error of the significand, scaled back
  have herr : |(m : ℚ) * (2 : ℚ) ^ q - (n : ℚ) / d|
      ≤ (n : ℚ) / d * (2 : ℚ) ^ (-(f.prec : Int)) := by
    have h8 : (m : ℚ) * (2 : ℚ) ^ q - (n : ℚ) / d
        = ((m : ℚ) - (n : ℚ) / d / (2 : ℚ) ^ q) * (2 : ℚ) ^ q := by
      field_simp
      ring
    have h9 : (1 : ℚ) / 2 * (2 : ℚ) ^ q = (2 : ℚ) ^ (e - (f.prec : Int)) := by
      rw [hq, zpow_add_one₀ two_ne_zero]
      ring
    have h10 : (2 : ℚ) ^ (e - (f.prec : Int)) ≤ (n : ℚ) / d * (2 : ℚ) ^ (-(f.prec : Int)) := by
      rw [sub_eq_add_neg, zpow_add₀ two_ne_zero]
      exact mul_le_mul_of_nonneg_right he1 (by positivity)
    have habs : |(m : ℚ) - (n : ℚ) / d / (2 : ℚ) ^ q| ≤ 1 / 2 := abs_le.mpr ⟨hm1, hm2⟩
    rw [h8, abs_mul, abs_of_pos hQ]
    calc |(m : ℚ) - (n : ℚ) / d / (2 : ℚ) ^ q| * (2 : ℚ) ^ q
        ≤ 1 / 2 * (2 : ℚ) ^ q := mul_le_mul_of_nonneg_right habs (le_of_lt hQ)
      _ = (2 : ℚ) ^ (e - (f.prec : Int)) := h9
      _ ≤ (n : ℚ) / d * (2 : ℚ) ^ (-(f.prec : Int)) := h10
  -- the result
  by_cases hc : m = 2 ^ f.prec
  · refine ⟨((2 ^ (f.prec - 1) : Nat) : Int), q + 1, ?_, ?_, ?_⟩
    · have hmq : mq = (2 ^ (f.prec - 1), q + 1) := if_pos hc
      have h11 : ¬ (2 ^ (f.prec - 1) = 0) := by positivity
      have h12 : ¬ (f.emax < q + 1 + (f.prec : Int) - 1) := by omega
      have h13 : ¬ (n < 0) := by omega
      rw [hmq]
      simp only [h11, h12, h13, if_false]
    · positivity
    · have h14 : (((2 ^ (f.prec - 1) : Nat) : Int) : ℚ) * (2 : ℚ) ^ (q + 1)
          = (m : ℚ) * (2 : ℚ) ^ q := by
        rw [hc, zpow_add_one₀ two_ne_zero]
        push_cast
        have : (2 : ℚ) ^ f.prec = 2 ^ (f.prec - 1) * 2 := by
          rw [← pow_succ]
          congr 1
          omega
        rw [this]
        ring
      rw [h14]
      exact herr
  · refine ⟨(m : Int), q, ?_, ?_, ?_⟩
    · have hmq : mq = (m, q) := if_neg hc
      have h11 : ¬ (m = 0) := by omega
      have h12 : ¬ (f.emax < q + (f.prec : Int) - 1) := by omega
      have h13 : ¬ (n < 0) := by omega
      rw [hmq]
      simp only [h11, h12, h13, if_false]
    · exact_mod_cast hmpos
    · exact_mod_cast herr

/-- The quotient of a datum that is not positive by one that is not negative
is not positive. -/
theorem Flt.div_not_positive (f : float_format) (a b : Flt)
    (ha : a.not_positive = true) (hb : b.not_negative = true) :
    (Flt.div f a b).not_positive = true := by
  cases a with
  | nan => cases b <;> rfl
  | inf s =>
    cases b with
    | nan => rfl
    | inf t => rfl
    | fin m e =>
      simp only [Flt.not_positive, Flt.not_negative, decide_eq_true_eq] at ha hb
      have h : ¬ m < 0 := not_lt.mpr hb
      simp [Flt.div, Flt.not_positive, ha, h]
  | fin m1 e1 =>
    cases b with
    | nan => rfl
    | inf t => rfl
    | fin m2 e2 =>
      simp only [Flt.not_positive, Flt.not_negative, decide_eq_true_eq] at ha hb
      have h2 : ¬ m2 < 0 := not_lt.mpr hb
      simp only [Flt.div]
      split_ifs with h0 h3
      · rfl
      · have h1 : m1 < 0 := lt_of_le_of_ne ha h3
        simp [Flt.not_positive, h1]
      · simp only [h2, if_false, one_mul]
        exact Flt.round_not_positive _ _ _
          (Int.mul_nonpos_of_nonpos_of_nonneg ha (Int.natCast_nonneg _))

/-- The conversion of a positive integer below `2 ^ emax` is a positive finite
number with a relative error of at most `2 ^ (-prec)`. -/
theorem Flt.ofInt_rel (f : float_format) (n : Int) (hn : 0 < n) (hp : 0 < f.prec)
    (hq : f.qmin + (f.prec : Int) - 1 ≤ 0) (hhi : (n : ℚ) < (2 : ℚ) ^ f.emax) :
    ∃ m q, Flt.ofInt f n = Flt.fin m q ∧ 0 < m ∧
      |(m : ℚ) * (2 : ℚ) ^ q - (n : ℚ)| ≤ (n : ℚ) * (2 : ℚ) ^ (-(f.prec : Int)) := by
  have h1 : (1 : ℚ) ≤ (n : ℚ) := by exact_mod_cast hn
  have h := Flt.round_rel f n 1 hn (by decide) hp
    (by rw [Nat.cast_one, div_one]
        exact le_trans (zpow_le_one_of_nonpos₀ (by norm_num) hq) h1)
    (by rw [Nat.cast_one, div_one]
        exact hhi)
  rw [Nat.cast_one, div_one] at h
  exact h

/-- The quotient of two positive finite numbers, when it lies in the normal
range of the format, is a positive finite number with a relative error of at
most `2 ^ (-prec)`. -/
theorem Flt.div_rel (f : float_format) (m1 e1 m2 e2 : Int) (h1 : 0 < m1) (h2 : 0 < m2)
    (hp : 0 < f.prec)
    (hlo : (2 : ℚ) ^ (f.qmin + (f.prec : Int) - 1)
      ≤ (m1 : ℚ) * (2 : ℚ) ^ e1 / ((m2 : ℚ) * (2 : ℚ) ^ e2))
    (hhi : (m1 : ℚ) * (2 : ℚ) ^ e1 / ((m2 : ℚ) * (2 : ℚ) ^ e2) < (2 : ℚ) ^ f.emax) :
    ∃ m q, Flt.div f (Flt.fin m1 e1) (Flt.fin m2 e2) = Flt.fin m q ∧ 0 < m ∧
      |(m : ℚ) * (2 : ℚ) ^ q - (m1 : ℚ) * (2 : ℚ) ^ e1 / ((m2 : ℚ) * (2 : ℚ) ^ e2)|
        ≤ (m1 : ℚ) * (2 : ℚ) ^ e1 / ((m2 : ℚ) * (2 : ℚ) ^ e2)
          * (2 : ℚ) ^ (-(f.prec : Int)) := by
  have h3 : ¬ m2 = 0 := ne_of_gt h2
  have h4 : ¬ m2 < 0 := not_lt.mpr (le_of_lt h2)
  have hm2 : ((m2.natAbs : Nat) : ℚ) = (m2 : ℚ) := by
    rw [Nat.cast_natAbs, abs_of_pos h2]
  have hP1 : (0 : ℚ) < ((pow2 (e2 - e1) : Nat) : ℚ) := by exact_mod_cast pow2_pos _
  have hm2q : (0 : ℚ) < (m2 : ℚ) := by exact_mod_cast h2
  have hx : (((1 * m1 * (pow2 (e1 - e2) : Int) : Int)) : ℚ)
        / ((m2.natAbs * pow2 (e2 - e1) : Nat) : ℚ)
      = (m1 : ℚ) * (2 : ℚ) ^ e1 / ((m2 : ℚ) * (2 : ℚ) ^ e2) := by
    have h5 := pow2_div (e1 - e2)
    rw [neg_sub] at h5
    have h6 : (2 : ℚ) ^ (e1 - e2) = (2 : ℚ) ^ e1 / (2 : ℚ) ^ e2 := zpow_sub₀ two_ne_zero _ _
    have hE2 : (0 : ℚ) < (2 : ℚ) ^ e2 := by positivity
    push_cast
    rw [hm2, one_mul]
    calc (m1 : ℚ) * ((pow2 (e1 - e2) : Nat) : ℚ) / ((m2 : ℚ) * ((pow2 (e2 - e1) : Nat) : ℚ))
        = (m1 : ℚ) / m2 * (((pow2 (e1 - e2) : Nat) : ℚ) / ((pow2 (e2 - e1) : Nat) : ℚ)) := by
          field_simp
      _ = (m1 : ℚ) / m2 * ((2 : ℚ) ^ e1 / (2 : ℚ) ^ e2) := by rw [h5, h6]
      _ = (m1 : ℚ) * (2 : ℚ) ^ e1 / ((m2 : ℚ) * (2 : ℚ) ^ e2) := by field_simp
  have h := Flt.round_rel f (1 * m1 * (pow2 (e1 - e2) : Int)) (m2.natAbs * pow2 (e2 - e1))
    (by rw [one_mul]
        exact Int.mul_pos h1 (by exact_mod_cast pow2_pos _))
    (Nat.mul_pos (Int.natAbs_pos.mpr h3) (pow2_pos _)) hp
    (by rw [hx]
        exact hlo)
    (by rw [hx]
        exact hhi)
  rw [hx] at h
  simp only [Flt.div, h3, h4, if_false]
  exact h

/-- The number `pow2 k` for an exponent that is not negative. -/
theorem pow2_of_nonneg (k : Int) (hk : 0 ≤ k) : ((pow2 k : Nat) : ℚ) = (2 : ℚ) ^ k := by
  have h := pow2_div k
  have h1 : pow2 (-k) = 1 := by
    unfold pow2
    have : (-k).toNat = 0 := by omega
    rw [this]
    rfl
  rw [h1, Nat.cast_one, div_one] at h
  exact h

/-- The number a finite datum denotes, `m * 2 ^ e`. -/
theorem Flt.toRat_fin (m e : Int) :
    (m : ℚ) * ((pow2 e : Nat) : ℚ) / ((pow2 (-e) : Nat) : ℚ) = (m : ℚ) * (2 : ℚ) ^ e := by
  rw [mul_div_assoc, pow2_div]

/-- The comparison `a < b` of two finite data compares the numbers they
denote. -/
theorem Flt.lt_fin (m1 e1 m2 e2 : Int) :
    Flt.lt (Flt.fin m1 e1) (Flt.fin m2 e2) = true
      ↔ (m1 : ℚ) * (2 : ℚ) ^ e1 < (m2 : ℚ) * (2 : ℚ) ^ e2 := by
  simp only [Flt.lt, decide_eq_true_eq]
  have hE : (0 : ℚ) < (2 : ℚ) ^ (Min.min e1 e2) := by positivity
  have h1 : ((pow2 (e1 - Min.min e1 e2) : Nat) : ℚ) * (2 : ℚ) ^ (Min.min e1 e2) = (2 : ℚ) ^ e1 := by
    rw [pow2_of_nonneg _ (sub_nonneg.mpr (min_le_left _ _)), ← zpow_add₀ two_ne_zero,
      sub_add_cancel]
  have h2 : ((pow2 (e2 - Min.min e1 e2) : Nat) : ℚ) * (2 : ℚ) ^ (Min.min e1 e2) = (2 : ℚ) ^ e2 := by
    rw [pow2_of_nonneg _ (sub_nonneg.mpr (min_le_right _ _)), ← zpow_add₀ two_ne_zero,
      sub_add_cancel]
  have hc : (m1 * (pow2 (e1 - Min.min e1 e2) : Int) < m2 * (pow2 (e2 - Min.min e1 e2) : Int))
      ↔ (m1 : ℚ) * ((pow2 (e1 - Min.min e1 e2) : Nat) : ℚ)
          < (m2 : ℚ) * ((pow2 (e2 - Min.min e1 e2) : Nat) : ℚ) := by
    constructor
    · intro h
      exact_mod_cast h
    · intro h
      exact_mod_cast h
  rw [hc, ← mul_lt_mul_right hE, mul_assoc, mul_assoc, h1, h2]

/-- The conversion to `int` of a finite number that is not negative and
compares below `2^31` is not negative. -/
theorem Flt.toInt_not_negative (m e : Int) (h : (Flt.fin m e).not_negative = true)
    (hr : Flt.lt (Flt.fin m e) (Flt.fin 8388608 8) = true) :
    0 ≤ Flt.toInt (Flt.fin m e) := by
  simp only [Flt.not_negative, decide_eq_true_eq] at h
  rw [Flt.lt_fin] at hr
  have hv : (m : ℚ) * ((pow2 e : Nat) : ℚ) / ((pow2 (-e) : Nat) : ℚ) < 2147483648 := by
    rw [Flt.toRat_fin]
    have : ((8388608 : Int) : ℚ) * (2 : ℚ) ^ (8 : Int) = 2147483648 := by norm_num
    rw [this] at hr
    exact hr
  rw [Flt.toInt_in_range m e h hv]
  exact Int.tdiv_nonneg (Int.mul_nonneg h (Int.natCast_nonneg _)) (Int.natCast_nonneg _)

/-- The arithmetic behind `list_thumb_le`: three roundings of relative error
`2 ^ (-24)` cannot lift the quotient `vbar * view / doc` to `vbar + 1`. -/
theorem thumb_bound_arith (V w D : Int) (hV : 0 < V) (hw : 0 < w) (hwD : w < D)
    (hprod : V * w ≤ 2147483647) :
    ((V * w : Int) : ℚ) * (1 + 1 / 16777216) * (1 + 1 / 16777216)
      < ((V : ℚ) + 1) * ((D : ℚ) * (1 - 1 / 16777216)) := by
  have hP1 : 0 < V * w := Int.mul_pos hV hw
  have hP2 : V * w ≤ V * (D - 1) := Int.mul_le_mul_of_nonneg_left (by omega) (le_of_lt hV)
  have h4 : (((V * w : Int) : ℚ)) / 4194304 < (V : ℚ) + (D : ℚ) := by
    by_cases hc : 512 ≤ V + D
    · have h5 : ((V * w : Int) : ℚ) ≤ 2147483647 := by exact_mod_cast hprod
      have h6 : ((512 : Int) : ℚ) ≤ ((V + D : Int) : ℚ) := by exact_mod_cast hc
      push_cast at h6
      rw [div_lt_iff₀ (by norm_num)]
      linarith
    · have h7 : V * (D - 1) ≤ 510 * 510 := by
        have hV2 : V ≤ 510 := by omega
        have hD2 : D - 1 ≤ 510 := by omega
        calc V * (D - 1) ≤ 510 * (D - 1) := Int.mul_le_mul_of_nonneg_right hV2 (by omega)
          _ ≤ 510 * 510 := Int.mul_le_mul_of_nonneg_left hD2 (by decide)
      have h8 : ((V * w : Int) : ℚ) ≤ 260100 := by
        have : V * w ≤ 260100 := by omega
        exact_mod_cast this
      have h9 : (1 : ℚ) ≤ (V : ℚ) := by exact_mod_cast hV
      have h10 : (0 : ℚ) ≤ (D : ℚ) := by
        have : 0 ≤ D := by omega
        exact_mod_cast this
      rw [div_lt_iff₀ (by norm_num)]
      linarith
  have hPq : (0 : ℚ) < ((V * w : Int) : ℚ) := by exact_mod_cast hP1
  have hP2q : ((V * w : Int) : ℚ) ≤ (V : ℚ) * ((D : ℚ) - 1) := by
    have : ((V * w : Int) : ℚ) ≤ ((V * (D - 1) : Int) : ℚ) := by exact_mod_cast hP2
    push_cast at this
    push_cast
    linarith
  have h11 : ((V * w : Int) : ℚ) * (1 + 1 / 16777216) * (1 + 1 / 16777216)
      ≤ ((V * w : Int) : ℚ) * (1 + 1 / 4194304) * (1 - 1 / 16777216) := by
    have : ((V * w : Int) : ℚ) * (1 + 1 / 4194304) * (1 - 1 / 16777216)
        - ((V * w : Int) : ℚ) * (1 + 1 / 16777216) * (1 + 1 / 16777216)
        = ((V * w : Int) : ℚ) * (16777211 / 281474976710656) := by ring
    have h12 : (0 : ℚ) ≤ ((V * w : Int) : ℚ) * (16777211 / 281474976710656) := by positivity
    linarith
  have h13 : ((V * w : Int) : ℚ) * (1 + 1 / 4194304) < ((V : ℚ) + 1) * (D : ℚ) := by
    have : ((V * w : Int) : ℚ) * (1 + 1 / 4194304)
        = ((V * w : Int) : ℚ) + ((V * w : Int) : ℚ) / 4194304 := by ring
    rw [this]
    have : ((V : ℚ) + 1) * (D : ℚ) = (V : ℚ) * ((D : ℚ) - 1) + ((V : ℚ) + (D : ℚ)) := by ring
    rw [this]
    linarith
  calc ((V * w : Int) : ℚ) * (1 + 1 / 16777216) * (1 + 1 / 16777216)
      ≤ ((V * w : Int) : ℚ) * (1 + 1 / 4194304) * (1 - 1 / 16777216) := h11
    _ < ((V : ℚ) + 1) * (D : ℚ) * (1 - 1 / 16777216) :=
        mul_lt_mul_of_pos_right h13 (by norm_num)
    _ = ((V : ℚ) + 1) * ((D : ℚ) * (1 - 1 / 16777216)) := by ring

/-- The thumb length `list` computes, `int(vbar * view / float(doc))`, does not
exceed the bar length when `view < doc` and the operands are in the range of
`int`. -/
theorem list_thumb_le (vbar view doc : Int) (hv : 0 < vbar) (hvis : view < doc)
    (hdoc0 : 0 < doc) (hprod : vbar * view ≤ 2147483647) (hdoc : doc ≤ 2147483647) :
    Flt.toInt (Flt.div binary32 (Flt.ofInt binary32 (vbar * view)) (Flt.ofInt binary32 doc))
      ≤ vbar := by
  by_cases hP : vbar * view ≤ 0
  · have h1 := Flt.ofInt_not_positive binary32 (vbar * view) hP
    have h2 := Flt.ofInt_not_negative binary32 doc (le_of_lt hdoc0)
    have := Flt.toInt_not_positive _ (Flt.div_not_positive binary32 _ _ h1 h2)
    omega
  · have hPpos : 0 < vbar * view := not_le.mp hP
    have hview : 0 < view := by
      by_contra h
      have := Int.mul_nonpos_of_nonneg_of_nonpos (le_of_lt hv) (not_lt.mp h)
      omega
    have hu : (2 : ℚ) ^ (-((binary32.prec : Nat) : Int)) = 1 / 16777216 := by
      norm_num [binary32]
    have hPq1 : (1 : ℚ) ≤ ((vbar * view : Int) : ℚ) := by exact_mod_cast hPpos
    have hPq2 : ((vbar * view : Int) : ℚ) ≤ 2147483647 := by exact_mod_cast hprod
    have hDq1 : (1 : ℚ) ≤ (doc : ℚ) := by exact_mod_cast hdoc0
    have hDq2 : (doc : ℚ) ≤ 2147483647 := by exact_mod_cast hdoc
    obtain ⟨mP, qP, hX, hmP, hXe⟩ := Flt.ofInt_rel binary32 (vbar * view) hPpos
      (by decide) (by decide)
      (by have : (2147483647 : ℚ) < (2 : ℚ) ^ binary32.emax := by norm_num [binary32]
          linarith)
    obtain ⟨mD, qD, hY, hmD, hYe⟩ := Flt.ofInt_rel binary32 doc hdoc0
      (by decide) (by decide)
      (by have : (2147483647 : ℚ) < (2 : ℚ) ^ binary32.emax := by norm_num [binary32]
          linarith)
    rw [hu, abs_le] at hXe hYe
    have ha1 : (1 : ℚ) / 2 ≤ (mP : ℚ) * (2 : ℚ) ^ qP := by linarith
    have ha2 : (mP : ℚ) * (2 : ℚ) ^ qP ≤ 4294967296 := by linarith
    have hb1 : (1 : ℚ) / 2 ≤ (mD : ℚ) * (2 : ℚ) ^ qD := by linarith
    have hb2 : (mD : ℚ) * (2 : ℚ) ^ qD ≤ 4294967296 := by linarith
    have hb : (0 : ℚ) < (mD : ℚ) * (2 : ℚ) ^ qD := by linarith
    obtain ⟨mQ, qQ, hQ, hmQ, hQe⟩ := Flt.div_rel binary32 mP qP mD qD hmP hmD (by decide)
      (by rw [le_div_iff₀ hb]
          have : (2 : ℚ) ^ (binary32.qmin + ((binary32.prec : Nat) : Int) - 1)
              ≤ 1 / 8589934592 := by norm_num [binary32]
          nlinarith)
      (by rw [div_lt_iff₀ hb]
          have : (8589934592 : ℚ) < (2 : ℚ) ^ binary32.emax := by norm_num [binary32]
          nlinarith)
    rw [hu, abs_le] at hQe
    rw [hX, hY, hQ]
    have ht := Flt.toInt_le mQ qQ (le_of_lt hmQ)
    rw [mul_div_assoc, pow2_div] at ht
    -- the value of the quotient, cleared of the division
    have hc : (mQ : ℚ) * (2 : ℚ) ^ qQ * ((mD : ℚ) * (2 : ℚ) ^ qD)
        ≤ (mP : ℚ) * (2 : ℚ) ^ qP * (1 + 1 / 16777216) := by
      have h3 : (mQ : ℚ) * (2 : ℚ) ^ qQ
          ≤ (mP : ℚ) * (2 : ℚ) ^ qP / ((mD : ℚ) * (2 : ℚ) ^ qD) * (1 + 1 / 16777216) := by
        linarith
      calc (mQ : ℚ) * (2 : ℚ) ^ qQ * ((mD : ℚ) * (2 : ℚ) ^ qD)
          ≤ (mP : ℚ) * (2 : ℚ) ^ qP / ((mD : ℚ) * (2 : ℚ) ^ qD) * (1 + 1 / 16777216)
              * ((mD : ℚ) * (2 : ℚ) ^ qD) := mul_le_mul_of_nonneg_right h3 (le_of_lt hb)
        _ = (mP : ℚ) * (2 : ℚ) ^ qP * (1 + 1 / 16777216) := by
            field_simp
            ring
    have hK := thumb_bound_arith vbar view doc hv hview hvis hprod
    by_contra hcon
    have hcon1 : vbar + 1 ≤ Flt.toInt (Flt.fin mQ qQ) := by omega
    have hcon2 : (vbar : ℚ) + 1 ≤ ((Flt.toInt (Flt.fin mQ qQ) : Int) : ℚ) := by
      exact_mod_cast hcon1
    have hcq : (vbar : ℚ) + 1 ≤ (mQ : ℚ) * (2 : ℚ) ^ qQ := le_trans hcon2 ht
    have hD1 : (0 : ℚ) ≤ (doc : ℚ) * (1 - 1 / 16777216) := by
      apply mul_nonneg
      · linarith
      · norm_num
    have h5 : ((vbar : ℚ) + 1) * ((doc : ℚ) * (1 - 1 / 16777216))
        ≤ (mQ : ℚ) * (2 : ℚ) ^ qQ * ((mD : ℚ) * (2 : ℚ) ^ qD) := by
      have hv0 : (0 : ℚ) ≤ (vbar : ℚ) + 1 := by
        have : (0 : ℚ) < (vbar : ℚ) := by exact_mod_cast hv
        linarith
      calc ((vbar : ℚ) + 1) * ((doc : ℚ) * (1 - 1 / 16777216))
          ≤ ((vbar : ℚ) + 1) * ((mD : ℚ) * (2 : ℚ) ^ qD) :=
            mul_le_mul_of_nonneg_left (by linarith) hv0
        _ ≤ (mQ : ℚ) * (2 : ℚ) ^ qQ * ((mD : ℚ) * (2 : ℚ) ^ qD) :=
            mul_le_mul_of_nonneg_right hcq (le_of_lt hb)
    have h6 : (mP : ℚ) * (2 : ℚ) ^ qP * (1 + 1 / 16777216)
        ≤ ((vbar * view : Int) : ℚ) * (1 + 1 / 16777216) * (1 + 1 / 16777216) := by
      apply mul_le_mul_of_nonneg_right _ (by norm_num)
      linarith
    linarith

/-! ## Range of the list selection -/

/-- The row index is the conversion of `list_row_quotient`. -/
theorem list_row_index_eq (height : Flt) (win : window) (id : list_widget) (r : rect)
    (items : List String) :
    list_row_index height win id r items
      = Flt.toInt (list_row_quotient height win id r items) := rfl

/-- The capture step of `list` registers a press only with the pointer inside,
a free capture and the button down. -/
theorem list_capture_step_pressed (win : window) (idp : widget_ref) (inside : Bool)
    (h : (list_capture_step win idp inside).2 = btn_action.pressed) :
    inside = true ∧ win.mouse_widget = none ∧ win.mouse_down = true := by
  unfold list_capture_step at h
  split_ifs at h
  simp_all

/-- The selection `list_action` returns: it changes only on a press outside
the scrollbar, to a row index below the number of items that differs from the
selection. -/
theorem list_action_selection (height : Flt) (btn : btn_action) (win : window)
    (id : list_widget) (r : rect) (items : List String) (value : Int) :
    ((list_action height btn win id r items value).2.2 = true →
        btn = btn_action.pressed ∧
        (list_action height btn win id r items value).2.1
          = list_row_index height win id r items ∧
        list_row_index height win id r items < (items.length : Int) ∧
        list_row_index height win id r items ≠ value) ∧
      ((list_action height btn win id r items value).2.2 = false →
        (list_action height btn win id r items value).2.1 = value) := by
  unfold list_action
  simp only [add_sub_cancel_right]
  split_ifs with h1 h2 h3 h4 h5 <;> simp_all

/-- The bar geometry of `list` when the bar is visible. -/
theorem list_geometry_visible (height : Flt) (id : list_widget) (r0 : rect)
    (items : List String) (hvis : list_vbar_visible height r0 items = true) :
    (list_geometry height id r0 items).nd = (items.length : Int) + 1 - list_view height r0 ∧
      ((12 ≤ Flt.toInt (Flt.div binary32
            (Flt.ofInt binary32 (r0.height * list_view height r0))
            (Flt.ofInt binary32 ((items.length : Int) + 1))) ∧
          (list_geometry height id r0 items).ns = r0.height - Flt.toInt (Flt.div binary32
            (Flt.ofInt binary32 (r0.height * list_view height r0))
            (Flt.ofInt binary32 ((items.length : Int) + 1))) ∧
          (list_geometry height id r0 items).ratio = Flt.div binary32
            (Flt.ofInt binary32 ((items.length : Int) + 1)) (Flt.ofInt binary32 r0.height)) ∨
        ((list_geometry height id r0 items).ns = r0.height - 12 ∧
          (list_geometry height id r0 items).ratio = Flt.div binary32
            (Flt.ofInt binary32 ((items.length : Int) + 1 - list_view height r0))
            (Flt.ofInt binary32 (r0.height - 12)))) := by
  unfold list_geometry
  rw [if_pos hvis]
  by_cases h : Flt.toInt (Flt.div binary32
            (Flt.ofInt binary32 (r0.height * list_view height r0))
            (Flt.ofInt binary32 ((items.length : Int) + 1))) ≥ 12
  · simp [h]
  · simp [h]

/-- The scroll offset stays not negative through the update `list` makes while
the thumb is dragged, whatever the stored `yref`. -/
theorem list_scroll_not_negative (height : Flt) (id : list_widget) (r0 : rect)
    (mouse : point) (items : List String)
    (hy : id.yvalue.not_negative = true) (hv : 0 < r0.height)
    (hsize : (items.length : Int) + 1 ≤ 2147483647)
    (hprod : list_vbar_visible height r0 items = true →
      r0.height * list_view height r0 ≤ 2147483647) :
    (list_scroll height id r0 mouse items).1.yvalue.not_negative = true := by
  unfold list_scroll
  by_cases hc : (list_vbar_visible height r0 items && id.scrolling) = true
  · simp only [hc, if_true]
    have hvis : list_vbar_visible height r0 items = true := by
      simp only [Bool.and_eq_true] at hc
      exact hc.1
    have hview : list_view height r0 < (items.length : Int) + 1 := by
      simpa [list_vbar_visible] using hvis
    obtain ⟨hnd, hcase⟩ := list_geometry_visible height id r0 items hvis
    have hndp : 0 ≤ (list_geometry height id r0 items).nd := by
      rw [hnd]
      omega
    rcases Flt.min_cases (Flt.ofInt binary32 (list_geometry height id r0 items).nd)
      (Flt.mul binary32
        (Flt.ofInt binary32
          (min (list_geometry height id r0 items).ns (max 0 (mouse.y - id.yref))))
        (list_geometry height id r0 items).ratio) with h | h
    · rw [h]
      exact Flt.ofInt_not_negative _ _ hndp
    · rw [h]
      rcases hcase with ⟨_, hns, hratio⟩ | ⟨hns, hratio⟩
      · have hth := list_thumb_le r0.height (list_view height r0) ((items.length : Int) + 1)
          hv hview (by omega) (hprod hvis) hsize
        rw [hratio]
        apply Flt.mul_not_negative
        · apply Flt.ofInt_not_negative
          apply le_min
          · rw [hns]
            omega
          · exact le_max_left _ _
        · exact Flt.div_not_negative _ _ _ (Flt.ofInt_not_negative _ _ (by omega))
            (Flt.ofInt_not_negative _ _ (le_of_lt hv))
      · rw [hratio, hns]
        by_cases hn : 0 ≤ r0.height - 12
        · apply Flt.mul_not_negative
          · exact Flt.ofInt_not_negative _ _ (le_min hn (le_max_left _ _))
          · exact Flt.div_not_negative _ _ _ (Flt.ofInt_not_negative _ _ (by omega))
              (Flt.ofInt_not_negative _ _ hn)
        · have hmin : min (r0.height - 12) (max 0 (mouse.y - id.yref)) = r0.height - 12 :=
            min_eq_left (le_trans (le_of_lt (not_le.mp hn)) (le_max_left _ _))
          rw [hmin]
          exact Flt.mul_div_not_negative _ _ _ (Flt.ofInt_not_negative _ _ (by omega))
            (Flt.ofInt_not_positive _ _ (by omega))
  · simp only [hc]
    exact hy

/-- The local `yoffset` of `list` is not positive when the scroll offset is
not negative. -/
theorem list_yoffset_nonpos (height yvalue : Flt) (hh : height.not_negative = true)
    (hy : yvalue.not_negative = true) : list_yoffset height yvalue ≤ 0 := by
  unfold list_yoffset
  apply Flt.toInt_not_positive
  apply Flt.mul_not_positive _ _ _ _ hh
  apply Flt.ofInt_not_positive
  apply Flt.toInt_not_positive
  exact Flt.not_negative_neg _ (Flt.not_negative_ceil _ _ hy)

/-- The row index under a pointer inside the list is not negative. -/
theorem list_row_index_nonneg (height : Flt) (win : window) (id : list_widget) (r : rect)
    (items : List String)
    (hheight : Flt.lt Flt.zero height = true)
    (hyvalue : Flt.le Flt.zero id.yvalue = true)
    (hsize : (items.length : Int) + 1 ≤ 2147483647)
    (hprod : list_vbar_visible height (begin_widget r) items = true →
      (begin_widget r).height * list_view height (begin_widget r) ≤ 2147483647)
    (hrow : Flt.lt (list_row_quotient height win id r items)
      (Flt.ofInt binary32 2147483648) = true)
    (hin : pointer_inside win r = true) :
    0 ≤ list_row_index height win id r items := by
  have hh := Flt.not_negative_of_pos height hheight
  have hy := Flt.not_negative_of_le id.yvalue hyvalue
  have hext := (begin_widget_extent r).2
  simp only [pointer_inside, contains, Bool.and_eq_true, decide_eq_true_eq] at hin
  have hv : 0 < (begin_widget r).height := by
    rw [hext]
    unfold rect.height
    omega
  have hq : (list_row_quotient height win id r items).not_negative = true := by
    unfold list_row_quotient
    apply Flt.div_not_negative _ _ _ _ hh
    apply Flt.ofInt_not_negative
    have h1 := list_yoffset_nonpos height
      (list_scroll height id (begin_widget r) ⟨win.mouse_x - r.x1, win.mouse_y - r.y1⟩
        items).1.yvalue hh
      (list_scroll_not_negative height id (begin_widget r) _ items hy hv hsize hprod)
    have h2 : 0 ≤ win.mouse_y - r.y1 := by omega
    simp only []
    omega
  rw [list_row_index_eq]
  have h31 : Flt.ofInt binary32 2147483648 = Flt.fin 8388608 8 := by decide
  rw [h31] at hrow
  generalize list_row_quotient height win id r items = q at hq hrow
  cases q with
  | nan => simp [Flt.lt] at hrow
  | inf s =>
    simp only [Flt.lt] at hrow
    simp [Flt.not_negative, hrow] at hq
  | fin m e => exact Flt.toInt_not_negative m e hq hrow

/-- What `list_arith_in_range` provides for the proof of the range of the
selection. -/
theorem list_arith_in_range_parts (height : Flt) (win : window) (id : list_widget)
    (r : rect) (items : List String)
    (h : list_arith_in_range height win id r items = true) :
    (items.length : Int) + 1 ≤ 2147483647 ∧
      (list_vbar_visible height (begin_widget r) items = true →
        (begin_widget r).height * list_view height (begin_widget r) ≤ 2147483647) ∧
      Flt.lt (list_row_quotient height win id r items)
        (Flt.ofInt binary32 2147483648) = true := by
  simp only [list_arith_in_range, in_int_range, Bool.and_eq_true, Bool.or_eq_true,
    Bool.not_eq_true', decide_eq_true_eq] at h
  obtain ⟨⟨⟨⟨⟨h1, h2⟩, _⟩, _⟩, _⟩, h6⟩ := h
  refine ⟨h1.2, ?_, h6⟩
  intro hvis
  rcases h2 with h2 | h2
  · rw [hvis] at h2
    exact absurd h2 (by decide)
  · exact h2.1.1.2

/-- C28 (as stated, refuted): a list with no items in the rectangle
`(0,0,100,10)`, the stored scroll offset 0 and the row height `2^-30`.  The
press at `(10,5)` computes the row quotient `5 / height = 5 * 2^30`, which is
above the range of `int`; its conversion delivers `-2^31`, which is below
`doc - 1 = 0` and differs from the selection 0: the call returns true with the
selection `-2147483648`. -/
theorem list_selection_out_of_range :
    Flt.lt Flt.zero (Flt.fin 1 (-30)) = true ∧
      Flt.le Flt.zero (({ yref := 0, yvalue := Flt.zero, scrolling := false } : list_widget
        ).yvalue) = true ∧
      Flt.toRat (list_row_quotient (Flt.fin 1 (-30))
        { window.init with mouse_down := true, mouse_x := 10, mouse_y := 5 }
        ⟨0, Flt.zero, false⟩ ⟨0, 0, 100, 10⟩ []) = some 5368709120 ∧
      (list (Flt.fin 1 (-30))
        { window.init with mouse_down := true, mouse_x := 10, mouse_y := 5 }
        (widget_ref.addr 1) ⟨0, Flt.zero, false⟩ ⟨0, 0, 100, 10⟩ [] 0).index_changed = true ∧
      (list (Flt.fin 1 (-30))
        { window.init with mouse_down := true, mouse_x := 10, mouse_y := 5 }
        (widget_ref.addr 1) ⟨0, Flt.zero, false⟩ ⟨0, 0, 100, 10⟩ [] 0).value
        = -2147483648 := by
  have hq : list_row_quotient (Flt.fin 1 (-30))
      { window.init with mouse_down := true, mouse_x := 10, mouse_y := 5 }
      ⟨0, Flt.zero, false⟩ ⟨0, 0, 100, 10⟩ [] = Flt.fin 10485760 9 := by decide
  refine ⟨by decide, by decide, ?_, by decide, by decide⟩
  rw [hq]
  simp [Flt.toRat, pow2]
  norm_num

/-- C28 (amended): for every call of `list` with a positive row height and a
stored scroll offset that is not negative, in which the `int` arithmetic on
the way to the row index stays in the range of `int` and the row quotient
converts to `int` (`list_arith_in_range`), whatever the items, the stored
`yref` and `scrolling` and the selection of the caller: when the call returns
true the new selection satisfies `0 <= value < items.size()` and differs from
the selection on entry, when it returns false the selection is unchanged, and
a list with no items never reports a change. -/
theorem list_selection_in_range (height : Flt) (win : window) (idp : widget_ref)
    (id : list_widget) (r : rect) (items : List String) (value : Int)
    (hheight : Flt.lt Flt.zero height = true)
    (hyvalue : Flt.le Flt.zero id.yvalue = true)
    (hrange : list_arith_in_range height win id r items = true) :
    ((list height win idp id r items value).index_changed = true →
        0 ≤ (list height win idp id r items value).value ∧
        (list height win idp id r items value).value < (items.length : Int) ∧
        (list height win idp id r items value).value ≠ value) ∧
      ((list height win idp id r items value).index_changed = false →
        (list height win idp id r items value).value = value) ∧
      (items = [] → (list height win idp id r items value).index_changed = false) := by
  obtain ⟨hsize, hprod, hrow⟩ := list_arith_in_range_parts height win id r items hrange
  rw [list_unfold]
  obtain ⟨hA1, hA2⟩ := list_action_selection height
    (list_capture_step win idp (pointer_inside win r)).2 win id r items value
  have hmain : (list_action height (list_capture_step win idp (pointer_inside win r)).2
      win id r items value).2.2 = true →
      0 ≤ list_row_index height win id r items := by
    intro hch
    obtain ⟨hb, _, _, _⟩ := hA1 hch
    obtain ⟨hin, _, _⟩ := list_capture_step_pressed _ _ _ hb
    exact list_row_index_nonneg height win id r items hheight hyvalue hsize hprod hrow hin
  refine ⟨?_, hA2, ?_⟩
  · intro hch
    obtain ⟨_, hv, hlt, hne⟩ := hA1 hch
    have h0 := hmain hch
    show 0 ≤ (list_action height (list_capture_step win idp (pointer_inside win r)).2
        win id r items value).2.1 ∧ _
    rw [hv]
    exact ⟨h0, hlt, hne⟩
  · intro hitems
    by_contra hch
    have hch1 : (list_action height (list_capture_step win idp (pointer_inside win r)).2
        win id r items value).2.2 = true := by
      simpa using hch
    obtain ⟨_, _, hlt, _⟩ := hA1 hch1
    have h0 := hmain hch1
    rw [hitems] at hlt h0
    simp only [List.length_nil, Nat.cast_zero] at hlt
    omega

/-- Witness of `list_selection_in_range`: twenty items with a row height of 20
in the rectangle `(0,0,100,200)` and a stored state with `scrolling` set; the
press at y = 30 first scrolls, then selects row 5 in place of row 0. -/
theorem list_selection_in_range_witness :
    (list (Flt.ofInt binary32 20)
        { window.init with mouse_down := true, mouse_x := 10, mouse_y := 30 }
        (widget_ref.addr 1) ⟨0, Flt.zero, true⟩ ⟨0, 0, 100, 200⟩ (List.replicate 20 "a") 0
      ).value = 5 ∧
      0 ≤ (list (Flt.ofInt binary32 20)
        { window.init with mouse_down := true, mouse_x := 10, mouse_y := 30 }
        (widget_ref.addr 1) ⟨0, Flt.zero, true⟩ ⟨0, 0, 100, 200⟩ (List.replicate 20 "a") 0
      ).value ∧
      (list (Flt.ofInt binary32 20)
        { window.init with mouse_down := true, mouse_x := 10, mouse_y := 30 }
        (widget_ref.addr 1) ⟨0, Flt.zero, true⟩ ⟨0, 0, 100, 200⟩ (List.replicate 20 "a") 0
      ).value < 20 ∧
      (list (Flt.ofInt binary32 20)
        { window.init with mouse_down := true, mouse_x := 10, mouse_y := 30 }
        (widget_ref.addr 1) ⟨0, Flt.zero, true⟩ ⟨0, 0, 100, 200⟩ (List.replicate 20 "a") 0
      ).value ≠ 0 :=
  ⟨by decide,
   (list_selection_in_range (Flt.ofInt binary32 20)
     { window.init with mouse_down := true, mouse_x := 10, mouse_y := 30 }
     (widget_ref.addr 1) ⟨0, Flt.zero, true⟩ ⟨0, 0, 100, 200⟩ (List.replicate 20 "a") 0
     (by decide) (by decide) (by decide)).1 (by decide)⟩

/-! ## Rounding error of the weighted split -/

/-- After `k ≤ 2^52` roundings the factor `(1 + u)^k` is at most `1 + 2 k u`. -/
theorem roundoff_pow_le (k : Nat) (hk : k ≤ 4503599627370496) :
    (1 + unit_roundoff) ^ k ≤ 1 + 2 * (k : ℚ) * unit_roundoff := by
  induction k with
  | zero => simp
  | succ k ih =>
    have h1 := ih (by omega)
    have hkq : (k : ℚ) ≤ 4503599627370496 := by
      have : k ≤ 4503599627370496 := by omega
      exact_mod_cast this
    have hk0 : (0 : ℚ) ≤ (k : ℚ) := Nat.cast_nonneg k
    rw [pow_succ]
    have hu : (0 : ℚ) ≤ 1 + unit_roundoff := by
      unfold unit_roundoff
      norm_num
    calc (1 + unit_roundoff) ^ k * (1 + unit_roundoff)
        ≤ (1 + 2 * (k : ℚ) * unit_roundoff) * (1 + unit_roundoff) :=
          mul_le_mul_of_nonneg_right h1 hu
      _ ≤ 1 + 2 * ((k + 1 : Nat) : ℚ) * unit_roundoff := by
          unfold unit_roundoff
          push_cast
          nlinarith

/-- After `k` roundings the factor `(1 - u)^k` is at least `1 - k u`. -/
theorem roundoff_pow_ge (k : Nat) :
    1 - (k : ℚ) * unit_roundoff ≤ (1 - unit_roundoff) ^ k := by
  have h := one_add_mul_le_pow (show (-2 : ℚ) ≤ -unit_roundoff by
    unfold unit_roundoff
    norm_num) k
  have e1 : (1 : ℚ) + (k : ℚ) * -unit_roundoff = 1 - (k : ℚ) * unit_roundoff := by ring
  have e2 : (1 : ℚ) + -unit_roundoff = 1 - unit_roundoff := by ring
  rw [e1, e2] at h
  exact h

/-- The factors of up to `2^52` roundings stay between `1/2` and `2`. -/
theorem roundoff_pow_bounds (k : Nat) (hk : k ≤ 4503599627370496) :
    (1 : ℚ) / 2 ≤ (1 - unit_roundoff) ^ k ∧ (1 - unit_roundoff) ^ k ≤ 1 ∧
      1 ≤ (1 + unit_roundoff) ^ k ∧ (1 + unit_roundoff) ^ k ≤ 2 := by
  have hkq : (k : ℚ) ≤ 4503599627370496 := by exact_mod_cast hk
  have h1 := roundoff_pow_le k hk
  have h2 := roundoff_pow_ge k
  have hu1 : (0 : ℚ) ≤ 1 - unit_roundoff := by
    unfold unit_roundoff
    norm_num
  have hu2 : (1 : ℚ) - unit_roundoff ≤ 1 := by
    unfold unit_roundoff
    norm_num
  have hu3 : (1 : ℚ) ≤ 1 + unit_roundoff := by
    unfold unit_roundoff
    norm_num
  refine ⟨?_, pow_le_one₀ hu1 hu2, one_le_pow₀ hu3, ?_⟩
  · unfold unit_roundoff at h2 ⊢
    linarith
  · unfold unit_roundoff at h1 ⊢
    linarith

/-- Numbers between `2^-65` and `2^65` are in the normal range of `double`. -/
theorem double_range (s : ℚ) (h1 : 1 / 36893488147419103232 ≤ s)
    (h2 : s ≤ 36893488147419103232) :
    (2 : ℚ) ^ (binary64.qmin + ((binary64.prec : Nat) : Int) - 1) ≤ s ∧
      s < (2 : ℚ) ^ binary64.emax := by
  have e1 : binary64.qmin + ((binary64.prec : Nat) : Int) - 1 = -1022 := by decide
  have e2 : binary64.emax = 1023 := rfl
  rw [e1, e2]
  have h3 : (2 : ℚ) ^ (-1022 : Int) ≤ (2 : ℚ) ^ (-65 : Int) :=
    zpow_le_zpow_right₀ (by norm_num) (by norm_num)
  have h4 : (2 : ℚ) ^ (65 : Int) < (2 : ℚ) ^ (1023 : Int) :=
    zpow_lt_zpow_right₀ (by norm_num) (by norm_num)
  have h5 : (2 : ℚ) ^ (-65 : Int) = 1 / 36893488147419103232 := by norm_num
  have h6 : (2 : ℚ) ^ (65 : Int) = 36893488147419103232 := by norm_num
  rw [h5] at h3
  rw [h6] at h4
  exact ⟨le_trans h3 h1, lt_of_le_of_lt h2 h4⟩

/-- One rounding to `double` of a quotient that is zero or between `2^-65` and
`2^65`: the result is finite, not negative and within one rounding. -/
theorem Flt.round_near (n : Int) (d : Nat) (hn : 0 ≤ n) (hd : 0 < d)
    (hx : n = 0 ∨ (1 / 36893488147419103232 ≤ (n : ℚ) / d ∧
      (n : ℚ) / d ≤ 36893488147419103232)) :
    ∃ m e : Int, Flt.round binary64 n d = Flt.fin m e ∧ 0 ≤ m ∧
      (n : ℚ) / d * (1 - unit_roundoff) ≤ (m : ℚ) * (2 : ℚ) ^ e ∧
      (m : ℚ) * (2 : ℚ) ^ e ≤ (n : ℚ) / d * (1 + unit_roundoff) := by
  by_cases h0 : n = 0
  · subst h0
    refine ⟨0, 0, by simp [Flt.round], le_refl _, ?_, ?_⟩ <;> simp
  · have hpos : 0 < n := lt_of_le_of_ne hn (Ne.symm h0)
    rcases hx with hx | ⟨h1, h2⟩
    · exact absurd hx h0
    · obtain ⟨hlo, hhi⟩ := double_range _ h1 h2
      obtain ⟨m, e, hr, hm, herr⟩ := Flt.round_rel binary64 n d hpos hd (by decide) hlo hhi
      have hu : (2 : ℚ) ^ (-((binary64.prec : Nat) : Int)) = unit_roundoff := by
        unfold unit_roundoff
        norm_num [binary64]
      rw [hu, abs_le] at herr
      refine ⟨m, e, hr, le_of_lt hm, ?_, ?_⟩ <;> linarith

/-- The datum `0.0` is within any number of roundings of 0. -/
theorem Flt.near_zero (k : Nat) : Flt.zero.near 0 k :=
  ⟨le_refl _, 0, 0, rfl, le_refl _, by simp, by simp⟩

/-- More roundings give a wider interval. -/
theorem Flt.near_weaken (x : Flt) (p : ℚ) (k j : Nat) (h : x.near p k) (hkj : k ≤ j) :
    x.near p j := by
  obtain ⟨hp, m, e, hx, hm, h1, h2⟩ := h
  have hu1 : (0 : ℚ) ≤ 1 - unit_roundoff := by
    unfold unit_roundoff
    norm_num
  have hu2 : (1 : ℚ) - unit_roundoff ≤ 1 := by
    unfold unit_roundoff
    norm_num
  have hu3 : (1 : ℚ) ≤ 1 + unit_roundoff := by
    unfold unit_roundoff
    norm_num
  refine ⟨hp, m, e, hx, hm, ?_, ?_⟩
  · exact le_trans (mul_le_mul_of_nonneg_left (pow_le_pow_of_le_one hu1 hu2 hkj) hp) h1
  · exact le_trans h2 (mul_le_mul_of_nonneg_left (pow_le_pow_right₀ hu3 hkj) hp)

/-- The conversion to `double` of an integer between 0 and `2^64` is within
one rounding of it. -/
theorem Flt.near_ofInt (n : Int) (h0 : 0 ≤ n) (h1 : n ≤ 18446744073709551616) :
    (Flt.ofInt binary64 n).near (n : ℚ) 1 := by
  have hq0 : (0 : ℚ) ≤ (n : ℚ) := by exact_mod_cast h0
  have hq1 : (n : ℚ) ≤ 18446744073709551616 := by exact_mod_cast h1
  obtain ⟨m, e, hr, hm, hlo, hhi⟩ := Flt.round_near n 1 h0 (by decide) (by
    by_cases hz : n = 0
    · exact Or.inl hz
    · right
      have hpos : 1 ≤ n := by omega
      have hq2 : (1 : ℚ) ≤ (n : ℚ) := by exact_mod_cast hpos
      rw [Nat.cast_one, div_one]
      constructor <;> linarith)
  rw [Nat.cast_one, div_one] at hlo hhi
  exact ⟨hq0, m, e, hr, hm, by rw [pow_one]; exact hlo, by rw [pow_one]; exact hhi⟩

/-- The exact sum that `Flt.add` rounds. -/
theorem Flt.add_val (m1 e1 m2 e2 : Int) :
    (((m1 * (pow2 (e1 - Min.min e1 e2) : Int) + m2 * (pow2 (e2 - Min.min e1 e2) : Int))
        * (pow2 (Min.min e1 e2) : Int) : Int) : ℚ) / ((pow2 (-(Min.min e1 e2)) : Nat) : ℚ)
      = (m1 : ℚ) * (2 : ℚ) ^ e1 + (m2 : ℚ) * (2 : ℚ) ^ e2 := by
  have h1 := pow2_of_nonneg (e1 - Min.min e1 e2) (sub_nonneg.mpr (min_le_left _ _))
  have h2 := pow2_of_nonneg (e2 - Min.min e1 e2) (sub_nonneg.mpr (min_le_right _ _))
  have h3 := pow2_div (Min.min e1 e2)
  have hE : (2 : ℚ) ^ (Min.min e1 e2) ≠ 0 := by positivity
  have z1 : (2 : ℚ) ^ (e1 - Min.min e1 e2) * (2 : ℚ) ^ (Min.min e1 e2) = (2 : ℚ) ^ e1 := by
    rw [← zpow_add₀ two_ne_zero, sub_add_cancel]
  have z2 : (2 : ℚ) ^ (e2 - Min.min e1 e2) * (2 : ℚ) ^ (Min.min e1 e2) = (2 : ℚ) ^ e2 := by
    rw [← zpow_add₀ two_ne_zero, sub_add_cancel]
  push_cast
  rw [mul_div_assoc, h3, h1, h2, add_mul, mul_assoc, mul_assoc, z1, z2]

/-- Addition in `double` of two data near `p` and `q`: the sum is near `p + q`
with one more rounding. -/
theorem Flt.near_add (a b : Flt) (p q : ℚ) (k : Nat) (ha : a.near p k) (hb : b.near q k)
    (hk : k ≤ 4503599627370496)
    (hr : p + q = 0 ∨ (1 / 18446744073709551616 ≤ p + q ∧ p + q ≤ 18446744073709551616)) :
    (Flt.add binary64 a b).near (p + q) (k + 1) := by
  obtain ⟨hp, m1, e1, rfl, hm1, ha1, ha2⟩ := ha
  obtain ⟨hq, m2, e2, rfl, hm2, hb1, hb2⟩ := hb
  obtain ⟨c1, c2, c3, c4⟩ := roundoff_pow_bounds k hk
  have hu1 : (0 : ℚ) ≤ 1 - unit_roundoff := by
    unfold unit_roundoff
    norm_num
  have hu3 : (0 : ℚ) ≤ 1 + unit_roundoff := by
    unfold unit_roundoff
    norm_num
  have hval := Flt.add_val m1 e1 m2 e2
  have hs1 : (p + q) * (1 - unit_roundoff) ^ k
      ≤ (m1 : ℚ) * (2 : ℚ) ^ e1 + (m2 : ℚ) * (2 : ℚ) ^ e2 := by
    rw [add_mul]
    linarith
  have hs2 : (m1 : ℚ) * (2 : ℚ) ^ e1 + (m2 : ℚ) * (2 : ℚ) ^ e2
      ≤ (p + q) * (1 + unit_roundoff) ^ k := by
    rw [add_mul]
    linarith
  have hpq : 0 ≤ p + q := add_nonneg hp hq
  have hN : (0 : Int) ≤ (m1 * (pow2 (e1 - Min.min e1 e2) : Int)
      + m2 * (pow2 (e2 - Min.min e1 e2) : Int)) * (pow2 (Min.min e1 e2) : Int) :=
    Int.mul_nonneg (Int.add_nonneg (Int.mul_nonneg hm1 (Int.natCast_nonneg _))
      (Int.mul_nonneg hm2 (Int.natCast_nonneg _))) (Int.natCast_nonneg _)
  obtain ⟨m, e, hres, hm, hlo, hhi⟩ := Flt.round_near _ _ hN (pow2_pos (-(Min.min e1 e2))) (by
    rcases hr with hr | ⟨hr1, hr2⟩
    · left
      have hz : (m1 : ℚ) * (2 : ℚ) ^ e1 + (m2 : ℚ) * (2 : ℚ) ^ e2 ≤ 0 := by
        rw [hr, zero_mul] at hs2
        exact hs2
      rw [← hval] at hz
      have hD : (0 : ℚ) < ((pow2 (-(Min.min e1 e2)) : Nat) : ℚ) := by
        exact_mod_cast pow2_pos _
      rw [div_le_iff₀ hD, zero_mul] at hz
      have hz2 : (m1 * (pow2 (e1 - Min.min e1 e2) : Int)
          + m2 * (pow2 (e2 - Min.min e1 e2) : Int)) * (pow2 (Min.min e1 e2) : Int) ≤ 0 := by
        exact_mod_cast hz
      omega
    · right
      rw [hval]
      constructor
      · have : (1 : ℚ) / 18446744073709551616 * (1 / 2) ≤ (p + q) * (1 - unit_roundoff) ^ k :=
          mul_le_mul hr1 c1 (by norm_num) hpq
        have e : (1 : ℚ) / 36893488147419103232 = 1 / 18446744073709551616 * (1 / 2) := by
          norm_num
        rw [e]
        linarith
      · have : (p + q) * (1 + unit_roundoff) ^ k ≤ 18446744073709551616 * 2 :=
          mul_le_mul hr2 c4 (by linarith) (by norm_num)
        have e : (36893488147419103232 : ℚ) = 18446744073709551616 * 2 := by norm_num
        rw [e]
        linarith)
  rw [hval] at hlo hhi
  refine ⟨hpq, m, e, hres, hm, ?_, ?_⟩
  · rw [pow_succ, ← mul_assoc]
    exact le_trans (mul_le_mul_of_nonneg_right hs1 hu1) hlo
  · rw [pow_succ, ← mul_assoc]
    exact le_trans hhi (mul_le_mul_of_nonneg_right hs2 hu3)

/-- The exact quotient that `Flt.div` rounds, for a positive divisor. -/
theorem Flt.div_val (m1 e1 m2 e2 : Int) (h2 : 0 < m2) :
    (((1 * m1 * (pow2 (e1 - e2) : Int) : Int)) : ℚ)
        / ((m2.natAbs * pow2 (e2 - e1) : Nat) : ℚ)
      = (m1 : ℚ) * (2 : ℚ) ^ e1 / ((m2 : ℚ) * (2 : ℚ) ^ e2) := by
  have hm2 : ((m2.natAbs : Nat) : ℚ) = (m2 : ℚ) := by
    rw [Nat.cast_natAbs, abs_of_pos h2]
  have hP1 : (0 : ℚ) < ((pow2 (e2 - e1) : Nat) : ℚ) := by exact_mod_cast pow2_pos _
  have hm2q : (0 : ℚ) < (m2 : ℚ) := by exact_mod_cast h2
  have h5 := pow2_div (e1 - e2)
  rw [neg_sub] at h5
  have h6 : (2 : ℚ) ^ (e1 - e2) = (2 : ℚ) ^ e1 / (2 : ℚ) ^ e2 := zpow_sub₀ two_ne_zero _ _
  have hE2 : (0 : ℚ) < (2 : ℚ) ^ e2 := by positivity
  push_cast
  rw [hm2, one_mul]
  calc (m1 : ℚ) * ((pow2 (e1 - e2) : Nat) : ℚ) / ((m2 : ℚ) * ((pow2 (e2 - e1) : Nat) : ℚ))
      = (m1 : ℚ) / m2 * (((pow2 (e1 - e2) : Nat) : ℚ) / ((pow2 (e2 - e1) : Nat) : ℚ)) := by
        field_simp
    _ = (m1 : ℚ) / m2 * ((2 : ℚ) ^ e1 / (2 : ℚ) ^ e2) := by rw [h5, h6]
    _ = (m1 : ℚ) * (2 : ℚ) ^ e1 / ((m2 : ℚ) * (2 : ℚ) ^ e2) := by field_simp

/-- The factor of one rounding down is outweighed by two roundings up, and one
rounding up by one rounding down. -/
theorem roundoff_inverse (j : Nat) :
    1 ≤ (1 + unit_roundoff) ^ (2 * j) * (1 - unit_roundoff) ^ j ∧
      (1 - unit_roundoff) ^ j * (1 + unit_roundoff) ^ j ≤ 1 := by
  constructor
  · rw [pow_mul, ← mul_pow]
    apply one_le_pow₀
    unfold unit_roundoff
    norm_num
  · rw [← mul_pow]
    apply pow_le_one₀
    · unfold unit_roundoff
      norm_num
    · unfold unit_roundoff
      norm_num

/-- Division in `double` of a datum near `p` by a datum near `q > 0`: the
quotient is near `p / q`. -/
theorem Flt.near_div (a b : Flt) (p q : ℚ) (k j : Nat) (ha : a.near p k) (hb : b.near q j)
    (hq : 0 < q) (hk : k + 2 * j ≤ 4503599627370496)
    (hr : p = 0 ∨ (1 / 18446744073709551616 ≤ p / q ∧ p / q ≤ 18446744073709551616)) :
    (Flt.div binary64 a b).near (p / q) (k + 2 * j + 1) := by
  obtain ⟨hp, m1, e1, rfl, hm1, ha1, ha2⟩ := ha
  obtain ⟨_, m2, e2, rfl, hm2, hb1, hb2⟩ := hb
  obtain ⟨c1, c2, c3, c4⟩ := roundoff_pow_bounds (k + 2 * j) hk
  obtain ⟨d1, d2, d3, d4⟩ := roundoff_pow_bounds j (by omega)
  obtain ⟨i1, i2⟩ := roundoff_inverse j
  have hu1 : (0 : ℚ) ≤ 1 - unit_roundoff := by
    unfold unit_roundoff
    norm_num
  have hu3 : (0 : ℚ) ≤ 1 + unit_roundoff := by
    unfold unit_roundoff
    norm_num
  have hpk1 : (0 : ℚ) ≤ (1 - unit_roundoff) ^ k := pow_nonneg hu1 k
  have hpk3 : (0 : ℚ) ≤ (1 + unit_roundoff) ^ k := pow_nonneg hu3 k
  have hpj1 : (0 : ℚ) ≤ (1 - unit_roundoff) ^ j := pow_nonneg hu1 j
  have hpj3 : (0 : ℚ) ≤ (1 + unit_roundoff) ^ j := pow_nonneg hu3 j
  have hpq : 0 ≤ p / q := div_nonneg hp (le_of_lt hq)
  -- the divisor is positive
  have hvb : (0 : ℚ) < (m2 : ℚ) * (2 : ℚ) ^ e2 :=
    lt_of_lt_of_le (mul_pos hq (by linarith)) hb1
  have hE2 : (0 : ℚ) < (2 : ℚ) ^ e2 := by positivity
  have hm2pos : 0 < m2 := by
    have : (0 : ℚ) < (m2 : ℚ) := by
      by_contra hc
      have := mul_nonpos_of_nonpos_of_nonneg (not_lt.mp hc) (le_of_lt hE2)
      linarith
    exact_mod_cast this
  have hva : (0 : ℚ) ≤ (m1 : ℚ) * (2 : ℚ) ^ e1 :=
    mul_nonneg (by exact_mod_cast hm1) (by positivity)
  -- bounds of the exact quotient
  have hpqq : p / q * q = p := div_mul_cancel₀ p (ne_of_gt hq)
  have hqu : (m1 : ℚ) * (2 : ℚ) ^ e1 / ((m2 : ℚ) * (2 : ℚ) ^ e2)
      ≤ p / q * (1 + unit_roundoff) ^ (k + 2 * j) := by
    rw [div_le_iff₀ hvb]
    have h1 : p / q * (1 + unit_roundoff) ^ (k + 2 * j) * (q * (1 - unit_roundoff) ^ j)
        = p * (1 + unit_roundoff) ^ k
          * ((1 + unit_roundoff) ^ (2 * j) * (1 - unit_roundoff) ^ j) := by
      rw [pow_add]
      calc p / q * ((1 + unit_roundoff) ^ k * (1 + unit_roundoff) ^ (2 * j))
            * (q * (1 - unit_roundoff) ^ j)
          = (p / q * q) * (1 + unit_roundoff) ^ k
            * ((1 + unit_roundoff) ^ (2 * j) * (1 - unit_roundoff) ^ j) := by ring
        _ = p * (1 + unit_roundoff) ^ k
            * ((1 + unit_roundoff) ^ (2 * j) * (1 - unit_roundoff) ^ j) := by rw [hpqq]
    have h2 : p * (1 + unit_roundoff) ^ k
        ≤ p * (1 + unit_roundoff) ^ k
          * ((1 + unit_roundoff) ^ (2 * j) * (1 - unit_roundoff) ^ j) :=
      le_mul_of_one_le_right (mul_nonneg hp hpk3) i1
    have h3 : p / q * (1 + unit_roundoff) ^ (k + 2 * j) * (q * (1 - unit_roundoff) ^ j)
        ≤ p / q * (1 + unit_roundoff) ^ (k + 2 * j) * ((m2 : ℚ) * (2 : ℚ) ^ e2) :=
      mul_le_mul_of_nonneg_left hb1 (mul_nonneg hpq (by linarith))
    linarith
  have hql : p / q * (1 - unit_roundoff) ^ (k + 2 * j)
      ≤ (m1 : ℚ) * (2 : ℚ) ^ e1 / ((m2 : ℚ) * (2 : ℚ) ^ e2) := by
    rw [le_div_iff₀ hvb]
    have h1 : p / q * (1 - unit_roundoff) ^ (k + 2 * j) * (q * (1 + unit_roundoff) ^ j)
        = p * (1 - unit_roundoff) ^ k
          * (((1 - unit_roundoff) ^ j * (1 + unit_roundoff) ^ j) * (1 - unit_roundoff) ^ j) := by
      rw [pow_add, two_mul, pow_add]
      calc p / q * ((1 - unit_roundoff) ^ k * ((1 - unit_roundoff) ^ j * (1 - unit_roundoff) ^ j))
            * (q * (1 + unit_roundoff) ^ j)
          = (p / q * q) * (1 - unit_roundoff) ^ k
            * (((1 - unit_roundoff) ^ j * (1 + unit_roundoff) ^ j)
              * (1 - unit_roundoff) ^ j) := by ring
        _ = p * (1 - unit_roundoff) ^ k
            * (((1 - unit_roundoff) ^ j * (1 + unit_roundoff) ^ j)
              * (1 - unit_roundoff) ^ j) := by rw [hpqq]
    have h2 : ((1 - unit_roundoff) ^ j * (1 + unit_roundoff) ^ j) * (1 - unit_roundoff) ^ j
        ≤ 1 := by
      calc ((1 - unit_roundoff) ^ j * (1 + unit_roundoff) ^ j) * (1 - unit_roundoff) ^ j
          ≤ 1 * (1 - unit_roundoff) ^ j := mul_le_mul_of_nonneg_right i2 hpj1
        _ ≤ 1 := by
            rw [one_mul]
            exact d2
    have h3 : p * (1 - unit_roundoff) ^ k
          * (((1 - unit_roundoff) ^ j * (1 + unit_roundoff) ^ j) * (1 - unit_roundoff) ^ j)
        ≤ p * (1 - unit_roundoff) ^ k :=
      mul_le_of_le_one_right (mul_nonneg hp hpk1) h2
    have h4 : p / q * (1 - unit_roundoff) ^ (k + 2 * j) * ((m2 : ℚ) * (2 : ℚ) ^ e2)
        ≤ p / q * (1 - unit_roundoff) ^ (k + 2 * j) * (q * (1 + unit_roundoff) ^ j) :=
      mul_le_mul_of_nonneg_left hb2 (mul_nonneg hpq (by linarith))
    linarith
  have hval := Flt.div_val m1 e1 m2 e2 hm2pos
  have hN : (0 : Int) ≤ 1 * m1 * (pow2 (e1 - e2) : Int) := by
    rw [one_mul]
    exact Int.mul_nonneg hm1 (Int.natCast_nonneg _)
  have hD : 0 < m2.natAbs * pow2 (e2 - e1) :=
    Nat.mul_pos (Int.natAbs_pos.mpr (ne_of_gt hm2pos)) (pow2_pos _)
  obtain ⟨m, e, hres, hm, hlo, hhi⟩ := Flt.round_near _ _ hN hD (by
    rcases hr with hr | ⟨hr1, hr2⟩
    · left
      have hz : (m1 : ℚ) * (2 : ℚ) ^ e1 ≤ 0 := by
        rw [hr, zero_mul] at ha2
        exact ha2
      have hE1 : (0 : ℚ) < (2 : ℚ) ^ e1 := by positivity
      have hm1q : (m1 : ℚ) ≤ 0 := by
        by_contra hc
        have := mul_pos (not_le.mp hc) hE1
        linarith
      have hm1z : m1 ≤ 0 := by exact_mod_cast hm1q
      have hm10 : m1 = 0 := le_antisymm hm1z hm1
      rw [hm10]
      simp
    · right
      rw [hval]
      constructor
      · have : (1 : ℚ) / 18446744073709551616 * (1 / 2)
            ≤ p / q * (1 - unit_roundoff) ^ (k + 2 * j) :=
          mul_le_mul hr1 c1 (by norm_num) hpq
        have e : (1 : ℚ) / 36893488147419103232 = 1 / 18446744073709551616 * (1 / 2) := by
          norm_num
        rw [e]
        linarith
      · have : p / q * (1 + unit_roundoff) ^ (k + 2 * j) ≤ 18446744073709551616 * 2 :=
          mul_le_mul hr2 c4 (by linarith) (by norm_num)
        have e : (36893488147419103232 : ℚ) = 18446744073709551616 * 2 := by norm_num
        rw [e]
        linarith)
  rw [hval] at hlo hhi
  have hdiv : Flt.div binary64 (Flt.fin m1 e1) (Flt.fin m2 e2) = Flt.fin m e := by
    have h3 : ¬ m2 = 0 := ne_of_gt hm2pos
    have h4 : ¬ m2 < 0 := not_lt.mpr (le_of_lt hm2pos)
    simp only [Flt.div, h3, h4, if_false]
    exact hres
  refine ⟨hpq, m, e, hdiv, hm, ?_, ?_⟩
  · rw [pow_succ, ← mul_assoc]
    exact le_trans (mul_le_mul_of_nonneg_right hql hu1) hlo
  · rw [pow_succ, ← mul_assoc]
    exact le_trans hhi (mul_le_mul_of_nonneg_right hqu hu3)

/-- The `double` sum of the weights, started from an accumulator near the
natural number `P`, is near `P` plus the sum of the weights. -/
theorem weight_fold_near (ws : List Nat) :
    ∀ (acc : Flt) (P k : Nat), acc.near (P : ℚ) k → 1 ≤ k →
      (∀ w ∈ ws, w < 4294967296) → P + ws.sum ≤ 18446744073709551616 →
      k + ws.length ≤ 4503599627370496 →
      (ws.foldl (fun (sum : Flt) (w : Nat) =>
          Flt.add binary64 sum (Flt.ofInt binary64 (to_uint32 w))) acc).near
        ((P + ws.sum : Nat) : ℚ) (k + ws.length) := by
  induction ws with
  | nil =>
    intro acc P k h _ _ _ _
    simpa using h
  | cons w ws ih =>
    intro acc P k h hk hw hsum hlen
    simp only [List.sum_cons, List.length_cons] at hsum hlen
    have hwlt : w < 4294967296 := hw w (List.mem_cons_self _ _)
    have e1 : to_uint32 (w : Int) = w := by
      unfold to_uint32
      exact Int.emod_eq_of_lt (Int.natCast_nonneg w) (by exact_mod_cast hwlt)
    have h1 : (Flt.ofInt binary64 (w : Int)).near ((w : Int) : ℚ) 1 :=
      Flt.near_ofInt w (Int.natCast_nonneg w) (by omega)
    have h2 := Flt.near_weaken _ _ 1 k h1 hk
    have h3 := Flt.near_add acc (Flt.ofInt binary64 (w : Int)) (P : ℚ) ((w : Int) : ℚ) k h h2
      (by omega) (by
        by_cases hz : P + w = 0
        · left
          have : ((P + w : Nat) : ℚ) = 0 := by exact_mod_cast hz
          push_cast at this ⊢
          exact this
        · right
          have h5 : 1 ≤ P + w := by omega
          have h6 : P + w ≤ 18446744073709551616 := by omega
          have h7 : (1 : ℚ) ≤ ((P + w : Nat) : ℚ) := by exact_mod_cast h5
          have h8 : ((P + w : Nat) : ℚ) ≤ 18446744073709551616 := by exact_mod_cast h6
          push_cast at h7 h8 ⊢
          constructor
          · linarith
          · exact h8)
    have h4 : (Flt.add binary64 acc (Flt.ofInt binary64 (w : Int))).near
        ((P + w : Nat) : ℚ) (k + 1) := by
      push_cast
      exact h3
    have h5 := ih _ (P + w) (k + 1) h4 (by omega)
      (fun v hv => hw v (List.mem_cons_of_mem _ hv)) (by omega) (by omega)
    rw [List.foldl_cons, e1, List.sum_cons, List.length_cons]
    have e2 : P + (w + ws.sum) = P + w + ws.sum := by omega
    have e3 : k + (ws.length + 1) = k + 1 + ws.length := by omega
    rw [e2, e3]
    exact h5

/-- The sum of `create`, as a fold over the weights themselves. -/
theorem weight_sum_eq (ws : List Nat) :
    weight_sum ws = ws.foldl (fun (sum : Flt) (w : Nat) =>
      Flt.add binary64 sum (Flt.ofInt binary64 (to_uint32 w))) Flt.zero := by
  unfold weight_sum
  generalize Flt.zero = acc
  induction ws generalizing acc with
  | nil => rfl
  | cons w ws ih => exact ih _

/-- The `double` sum `W` the code takes of the weights is within `N + 1`
roundings of their sum. -/
theorem weight_sum_near (ws : List Nat) (hw : ∀ w ∈ ws, w < 4294967296)
    (hlen : ws.length < 4294967296) :
    (weight_sum ws).near ((ws.sum : Nat) : ℚ) (ws.length + 1) ∧
      ws.sum ≤ 18446744073709551616 := by
  have hs : ws.sum ≤ ws.length • 4294967295 :=
    List.sum_le_card_nsmul ws 4294967295 (fun x hx => by
      have := hw x hx
      omega)
  have hs2 : ws.sum ≤ 18446744073709551616 := by
    rw [smul_eq_mul] at hs
    have : ws.length * 4294967295 ≤ 4294967296 * 4294967295 :=
      Nat.mul_le_mul_right _ (le_of_lt hlen)
    omega
  have h := weight_fold_near ws Flt.zero 0 1 (by simpa using Flt.near_zero 1) (le_refl 1) hw
    (by omega) (by omega)
  refine ⟨?_, hs2⟩
  rw [weight_sum_eq]
  have e1 : 0 + ws.sum = ws.sum := by omega
  have e2 : 1 + ws.length = ws.length + 1 := by omega
  rw [e1, e2] at h
  exact h

/-- A quotient `E * c / W` of integers with `0 ≤ E ≤ 2^31`, `c ≤ W` and
`0 < W ≤ 2^64` is zero or between `2^-64` and `2^64`. -/
theorem split_quotient_range (E : Int) (c W : Nat) (hE0 : 0 ≤ E) (hE : E ≤ 2147483647)
    (hc : c ≤ W) (hW : 0 < W) (hW2 : W ≤ 18446744073709551616) :
    0 ≤ (E : ℚ) * (c : ℚ) / (W : ℚ) ∧ (E : ℚ) * (c : ℚ) / (W : ℚ) ≤ 2147483647 ∧
      ((E : ℚ) * (c : ℚ) / (W : ℚ) = 0 ∨
        (1 / 18446744073709551616 ≤ (E : ℚ) * (c : ℚ) / (W : ℚ) ∧
          (E : ℚ) * (c : ℚ) / (W : ℚ) ≤ 18446744073709551616)) := by
  have hWq : (0 : ℚ) < (W : ℚ) := by exact_mod_cast hW
  have hW2q : (W : ℚ) ≤ 18446744073709551616 := by exact_mod_cast hW2
  have hEq0 : (0 : ℚ) ≤ (E : ℚ) := by exact_mod_cast hE0
  have hEq : (E : ℚ) ≤ 2147483647 := by exact_mod_cast hE
  have hcq0 : (0 : ℚ) ≤ (c : ℚ) := Nat.cast_nonneg c
  have hcq : (c : ℚ) ≤ (W : ℚ) := by exact_mod_cast hc
  have h0 : 0 ≤ (E : ℚ) * (c : ℚ) / (W : ℚ) := div_nonneg (mul_nonneg hEq0 hcq0) (le_of_lt hWq)
  have h1 : (E : ℚ) * (c : ℚ) / (W : ℚ) ≤ 2147483647 := by
    rw [div_le_iff₀ hWq]
    calc (E : ℚ) * (c : ℚ) ≤ (E : ℚ) * (W : ℚ) := mul_le_mul_of_nonneg_left hcq hEq0
      _ ≤ 2147483647 * (W : ℚ) := mul_le_mul_of_nonneg_right hEq (le_of_lt hWq)
  refine ⟨h0, h1, ?_⟩
  by_cases hz : E * (c : Int) = 0
  · left
    have : ((E * (c : Int) : Int) : ℚ) = 0 := by exact_mod_cast hz
    push_cast at this
    rw [this, zero_div]
  · right
    have hnn : 0 ≤ E * (c : Int) := Int.mul_nonneg hE0 (Int.natCast_nonneg c)
    have h1' : 1 ≤ E * (c : Int) := by omega
    have h2 : (1 : ℚ) ≤ ((E * (c : Int) : Int) : ℚ) := by exact_mod_cast h1'
    push_cast at h2
    constructor
    · rw [le_div_iff₀ hWq]
      linarith
    · linarith

/-- One term `E * w / W` of the running sum, as the code computes it: within
`2 N + 4` roundings of the exact quotient. -/
theorem split_term_near (E : Int) (w : Nat) (S : Flt) (W N : Nat)
    (hS : S.near (W : ℚ) (N + 1)) (hW : 0 < W) (hW2 : W ≤ 18446744073709551616)
    (hwW : w ≤ W) (hE0 : 0 ≤ E) (hE : E ≤ 2147483647)
    (hEw : E * (w : Int) < 4294967296) (hN : N < 4294967296) :
    (Flt.div binary64 (Flt.ofInt binary64 (E * (w : Int))) S).near
      ((E : ℚ) * (w : ℚ) / (W : ℚ)) (2 * N + 4) := by
  have hnn : 0 ≤ E * (w : Int) := Int.mul_nonneg hE0 (Int.natCast_nonneg w)
  have h1 := Flt.near_ofInt (E * (w : Int)) hnn (by omega)
  obtain ⟨_, _, hr⟩ := split_quotient_range E w W hE0 hE hwW hW hW2
  have hWq : (0 : ℚ) < (W : ℚ) := by exact_mod_cast hW
  have h2 := Flt.near_div _ S (((E * (w : Int) : Int)) : ℚ) (W : ℚ) 1 (N + 1) h1 hS hWq
    (by omega) (by
      push_cast
      rcases hr with hr | hr
      · left
        rw [div_eq_zero_iff] at hr
        rcases hr with hr | hr
        · exact hr
        · exact absurd hr (ne_of_gt hWq)
      · exact Or.inr hr)
  have e : 1 + 2 * (N + 1) + 1 = 2 * N + 4 := by omega
  rw [e] at h2
  push_cast at h2
  exact h2

/-- The running `double` sum of the terms over a list of weights, started from
an accumulator near `E * c / W`: near `E * (c + sum) / W`, with one more
rounding for every weight. -/
theorem running_sum_near (E : Int) (S : Flt) (W N : Nat)
    (hS : S.near (W : ℚ) (N + 1)) (hW : 0 < W) (hW2 : W ≤ 18446744073709551616)
    (hE0 : 0 ≤ E) (hE : E ≤ 2147483647) (hN : N < 4294967296) (l : List Nat) :
    ∀ (acc : Flt) (c k : Nat), acc.near ((E : ℚ) * (c : ℚ) / (W : ℚ)) k → 2 * N + 4 ≤ k →
      (∀ w ∈ l, E * (w : Int) < 4294967296) → c + l.sum ≤ W →
      k + l.length ≤ 4503599627370496 →
      (l.foldl (fun (x : Flt) (w : Nat) => Flt.add binary64 x
          (Flt.div binary64 (Flt.ofInt binary64 (E * w)) S)) acc).near
        ((E : ℚ) * ((c + l.sum : Nat) : ℚ) / (W : ℚ)) (k + l.length) := by
  induction l with
  | nil =>
    intro acc c k h _ _ _ _
    simpa using h
  | cons w l ih =>
    intro acc c k h hk hw hsum hlen
    simp only [List.sum_cons, List.length_cons] at hsum hlen
    have ht := split_term_near E w S W N hS hW hW2 (by omega) hE0 hE
      (hw w (List.mem_cons_self _ _)) hN
    have ht2 := Flt.near_weaken _ _ _ k ht hk
    obtain ⟨_, _, hr⟩ := split_quotient_range E (c + w) W hE0 hE (by omega) hW hW2
    have e0 : (E : ℚ) * (c : ℚ) / (W : ℚ) + (E : ℚ) * (w : ℚ) / (W : ℚ)
        = (E : ℚ) * ((c + w : Nat) : ℚ) / (W : ℚ) := by
      push_cast
      ring
    have h3 := Flt.near_add acc _ _ _ k h ht2 (by omega) (by
      rw [e0]
      exact hr)
    rw [e0] at h3
    have h5 := ih _ (c + w) (k + 1) h3 (by omega)
      (fun v hv => hw v (List.mem_cons_of_mem _ hv)) (by omega) (by omega)
    rw [List.foldl_cons, List.sum_cons, List.length_cons]
    have e2 : c + (w + l.sum) = c + w + l.sum := by omega
    have e3 : k + (l.length + 1) = k + 1 + l.length := by omega
    rw [e2, e3]
    exact h5

/-- The literal `0.5` is near `1/2` for any number of roundings. -/
theorem Flt.near_half (k : Nat) : Flt.half.near (1 / 2) k := by
  have hu1 : (0 : ℚ) ≤ 1 - unit_roundoff := by
    unfold unit_roundoff
    norm_num
  have hu2 : (1 : ℚ) - unit_roundoff ≤ 1 := by
    unfold unit_roundoff
    norm_num
  have hu3 : (1 : ℚ) ≤ 1 + unit_roundoff := by
    unfold unit_roundoff
    norm_num
  have hv : ((4503599627370496 : Int) : ℚ) * (2 : ℚ) ^ (-53 : Int) = 1 / 2 := by norm_num
  refine ⟨by norm_num, 4503599627370496, -53, rfl, by decide, ?_, ?_⟩
  · rw [hv]
    exact mul_le_of_le_one_right (by norm_num) (pow_le_one₀ hu1 hu2)
  · rw [hv]
    exact le_mul_of_one_le_right (by norm_num) (one_le_pow₀ hu3)

/-- The position the code computes for boundary `i` is the truncation of a
number within `split_slack` of the exact quotient plus `1/2`. -/
theorem split_position_within (E : Int) (ws : List Nat) (i : Nat)
    (hlen : ws.length < 4294967296) (hw : ∀ w ∈ ws, w < 4294967296) (hW : 0 < ws.sum)
    (hE0 : 0 ≤ E) (hE : E ≤ 2147483647) (hEw : ∀ w ∈ ws, E * (w : Int) < 4294967296)
    (hslack : (2 * E + 1) * (3 * (ws.length : Int) + 5) < 4503599627370496) :
    split_within E ws i (split_position E ws i) := by
  obtain ⟨hS, hW2⟩ := weight_sum_near ws hw hlen
  have hN3 : 3 * (ws.length : Int) + 5 < 4503599627370496 := by
    have h1 : 1 ≤ 2 * E + 1 := by omega
    have h2 : (0 : Int) ≤ 3 * (ws.length : Int) + 5 := by omega
    have := Int.mul_le_mul_of_nonneg_right h1 h2
    omega
  have htl : (ws.take i).length ≤ ws.length := by
    rw [List.length_take]
    exact min_le_right _ _
  have hts : (ws.take i).sum ≤ ws.sum := by
    have := List.sum_take_add_sum_drop ws i
    omega
  have hx := running_sum_near E (weight_sum ws) ws.sum ws.length hS hW hW2 hE0 hE hlen
    (ws.take i) Flt.zero 0 (2 * ws.length + 4) (by simpa using Flt.near_zero _) (le_refl _)
    (fun w hm => hEw w (List.mem_of_mem_take hm)) (by omega) (by omega)
  rw [Nat.zero_add] at hx
  obtain ⟨hq0, hq1, _⟩ := split_quotient_range E (ws.take i).sum ws.sum hE0 hE hts hW hW2
  have hy := Flt.near_add Flt.half _ _ _ (2 * ws.length + 4 + (ws.take i).length)
    (Flt.near_half _) hx (by omega) (by
      right
      constructor <;> linarith)
  obtain ⟨_, m, e, hyeq, hm, hlo, hhi⟩ := hy
  -- the factors of the roundings
  have hKle : 2 * ws.length + 4 + (ws.take i).length + 1 ≤ 3 * ws.length + 5 := by omega
  have hK52 : 2 * ws.length + 4 + (ws.take i).length + 1 ≤ 4503599627370496 := by omega
  have hp1 := roundoff_pow_le _ hK52
  have hp2 := roundoff_pow_ge (2 * ws.length + 4 + (ws.take i).length + 1)
  have hKq : ((2 * ws.length + 4 + (ws.take i).length + 1 : Nat) : ℚ)
      ≤ 3 * (ws.length : ℚ) + 5 := by
    have : ((2 * ws.length + 4 + (ws.take i).length + 1 : Nat) : ℚ)
        ≤ ((3 * ws.length + 5 : Nat) : ℚ) := by exact_mod_cast hKle
    push_cast at this ⊢
    exact this
  have hK0 : (0 : ℚ) ≤ ((2 * ws.length + 4 + (ws.take i).length + 1 : Nat) : ℚ) :=
    Nat.cast_nonneg _
  have hA : (0 : ℚ) ≤ 1 / 2 + (E : ℚ) * (((ws.take i).sum : Nat) : ℚ) / ((ws.sum : Nat) : ℚ) := by
    linarith
  have hsl : split_slack E ws i
      = (1 / 2 + (E : ℚ) * (((ws.take i).sum : Nat) : ℚ) / ((ws.sum : Nat) : ℚ))
        * (2 * (3 * (ws.length : ℚ) + 5) * unit_roundoff) := by
    unfold split_slack split_exact unit_roundoff
    ring
  have hex : split_exact E ws i
      = (E : ℚ) * (((ws.take i).sum : Nat) : ℚ) / ((ws.sum : Nat) : ℚ) := rfl
  have hu0 : (0 : ℚ) ≤ unit_roundoff := by
    unfold unit_roundoff
    norm_num
  have hv2 : (m : ℚ) * (2 : ℚ) ^ e ≤ split_exact E ws i + 1 / 2 + split_slack E ws i := by
    have h1 : (1 + unit_roundoff) ^ (2 * ws.length + 4 + (ws.take i).length + 1)
        ≤ 1 + 2 * (3 * (ws.length : ℚ) + 5) * unit_roundoff := by
      have := mul_le_mul_of_nonneg_right hKq hu0
      linarith
    have h2 := mul_le_mul_of_nonneg_left h1 hA
    rw [hsl, hex]
    linarith
  have hv1 : split_exact E ws i + 1 / 2 - split_slack E ws i ≤ (m : ℚ) * (2 : ℚ) ^ e := by
    have h1 : 1 - 2 * (3 * (ws.length : ℚ) + 5) * unit_roundoff
        ≤ (1 - unit_roundoff) ^ (2 * ws.length + 4 + (ws.take i).length + 1) := by
      have := mul_le_mul_of_nonneg_right hKq hu0
      have h3 := mul_nonneg hK0 hu0
      linarith
    have h2 := mul_le_mul_of_nonneg_left h1 hA
    rw [hsl, hex]
    linarith
  -- the slack is below one half
  have hslack_lt : split_slack E ws i < 1 / 2 := by
    have hEq : (E : ℚ) ≤ 2147483647 := by exact_mod_cast hE
    have hEq0 : (0 : ℚ) ≤ (E : ℚ) := by exact_mod_cast hE0
    have h1 : ((((2 * E + 1) * (3 * (ws.length : Int) + 5) : Int)) : ℚ) < 4503599627370496 := by
      exact_mod_cast hslack
    push_cast at h1
    have hqE : (E : ℚ) * (((ws.take i).sum : Nat) : ℚ) / ((ws.sum : Nat) : ℚ) ≤ (E : ℚ) := by
      have hWq : (0 : ℚ) < ((ws.sum : Nat) : ℚ) := by exact_mod_cast hW
      rw [div_le_iff₀ hWq]
      exact mul_le_mul_of_nonneg_left (by exact_mod_cast hts) hEq0
    have hN0 : (0 : ℚ) ≤ 3 * (ws.length : ℚ) + 5 := by positivity
    have h2 : (1 / 2 + (E : ℚ) * (((ws.take i).sum : Nat) : ℚ) / ((ws.sum : Nat) : ℚ))
        * (3 * (ws.length : ℚ) + 5) ≤ (1 / 2 + (E : ℚ)) * (3 * (ws.length : ℚ) + 5) :=
      mul_le_mul_of_nonneg_right (by linarith) hN0
    rw [hsl]
    unfold unit_roundoff
    linarith
  -- the conversion is in range
  have hr : (m : ℚ) * ((pow2 e : Nat) : ℚ) / ((pow2 (-e) : Nat) : ℚ) < 2147483648 := by
    rw [Flt.toRat_fin]
    rw [hex] at hv2
    linarith
  obtain ⟨ht1, ht2⟩ := Flt.toInt_trunc m e hm hr
  rw [Flt.toRat_fin] at ht1 ht2
  have hpos : split_position E ws i = Flt.toInt (Flt.fin m e) := by
    unfold split_position split_running_sum
    rw [hyeq]
  rw [hpos]
  -- the exact quotient rounded half up
  have hWi : (0 : Int) < ((ws.sum : Nat) : Int) := by exact_mod_cast hW
  have hr0 := round_half_up_div_eq (E * (((ws.take i).sum : Nat) : Int)) ((ws.sum : Nat) : Int) hWi
  have hfl : split_round E ws i = ⌊split_exact E ws i + 1 / 2⌋ := by
    unfold split_round split_exact
    rw [hr0, Int.cast_mul, Int.cast_natCast, Int.cast_natCast]
  have hf1 : ((split_round E ws i : Int) : ℚ) ≤ split_exact E ws i + 1 / 2 := by
    rw [hfl]
    exact Int.floor_le _
  have hf2 : split_exact E ws i + 1 / 2 < ((split_round E ws i : Int) : ℚ) + 1 := by
    rw [hfl]
    exact Int.lt_floor_add_one _
  have hb1 : split_round E ws i - 1 ≤ Flt.toInt (Flt.fin m e) := by
    have : ((split_round E ws i - 2 : Int) : ℚ) < ((Flt.toInt (Flt.fin m e) : Int) : ℚ) := by
      push_cast
      linarith
    have := Int.cast_lt.mp this
    omega
  have hb2 : Flt.toInt (Flt.fin m e) ≤ split_round E ws i + 1 := by
    have : ((Flt.toInt (Flt.fin m e) : Int) : ℚ) < ((split_round E ws i + 2 : Int) : ℚ) := by
      push_cast
      linarith
    have := Int.cast_lt.mp this
    omega
  refine ⟨by linarith, by linarith, by omega, ?_⟩
  intro c1 c2
  have hb3 : split_round E ws i - 1 < Flt.toInt (Flt.fin m e) := by
    have : ((split_round E ws i - 1 : Int) : ℚ) < ((Flt.toInt (Flt.fin m e) : Int) : ℚ) := by
      push_cast
      linarith
    exact Int.cast_lt.mp this
  have hb4 : Flt.toInt (Flt.fin m e) < split_round E ws i + 1 := by
    have : ((Flt.toInt (Flt.fin m e) : Int) : ℚ) < ((split_round E ws i + 1 : Int) : ℚ) := by
      push_cast
      linarith
    exact Int.cast_lt.mp this
  omega

/-- C23 (amended): for an hbox (a vbox) created from bounds with an extent `E`,
`0 ≤ E ≤ INT_MAX`, and `N < 2^32` weights with a positive total `W`, when no
product `E * w` wraps in `uint32_t` and `(2 E + 1) (3 N + 5) < 2^52`: boundary 0
is 0 and the cell `i` runs from boundary `i` to boundary `i + 1`, relative to
the origin of the bounds, where every boundary `b_i` is the truncation of a
number within `δ_i = (q_i + 1/2) (3 N + 5) / 2^52` of `q_i + 1/2` for the exact
quotient `q_i = E (w_0 + ... + w_{i-1}) / W`.  So `b_i` is `q_i` rounded half
up or a neighbour of it, and it is `q_i` rounded half up itself unless
`q_i + 1/2` lies within `δ_i` of an integer, as it does at an exact tie. -/
theorem weighted_split_positions (bounds : rect) (ws : List Nat) (x1 y1 : Int) (i : Nat)
    (hi : i < ws.length) (hlen : ws.length < 4294967296)
    (hw : ∀ w ∈ ws, w < 4294967296) (hW : 0 < ws.sum) :
    (0 ≤ bounds.width → bounds.width ≤ 2147483647 →
        (∀ w ∈ ws, bounds.width * (w : Int) < 4294967296) →
        (2 * bounds.width + 1) * (3 * (ws.length : Int) + 5) < 4503599627370496 →
        ((hbox.fresh x1).create bounds ws).xpos[0]? = some 0 ∧
        ∃ a b : Int,
          Option.map (fun p => p.2) (((hbox.fresh x1).create bounds ws).cell i)
            = some ⟨bounds.x1 + a, bounds.y1, bounds.x1 + b, bounds.y2⟩ ∧
          split_within bounds.width ws i a ∧ split_within bounds.width ws (i + 1) b) ∧
      (0 ≤ bounds.height → bounds.height ≤ 2147483647 →
        (∀ w ∈ ws, bounds.height * (w : Int) < 4294967296) →
        (2 * bounds.height + 1) * (3 * (ws.length : Int) + 5) < 4503599627370496 →
        ((vbox.fresh y1).create bounds ws).ypos[0]? = some 0 ∧
        ∃ a b : Int,
          Option.map (fun p => p.2) (((vbox.fresh y1).create bounds ws).cell i)
            = some ⟨bounds.x1, bounds.y1 + a, bounds.x2, bounds.y1 + b⟩ ∧
          split_within bounds.height ws i a ∧ split_within bounds.height ws (i + 1) b) := by
  have hmod : (i + 1) % 4294967296 = i + 1 := Nat.mod_eq_of_lt (by omega)
  have hall : ∀ extent : Int, 0 ≤ extent → (∀ w ∈ ws, extent * (w : Int) < 4294967296) →
      ∀ w ∈ ws, (w : Int) < 4294967296 ∧ 0 ≤ extent * w ∧ extent * w < 4294967296 :=
    fun extent he h w hm =>
      ⟨by exact_mod_cast hw w hm, Int.mul_nonneg he (Int.natCast_nonneg w), h w hm⟩
  constructor
  · intro he hE h hs
    have p0 := create_loop_position bounds.width ws (hall _ he h) i (by omega)
    have p1 := create_loop_position bounds.width ws (hall _ he h) (i + 1) (by omega)
    have pz := create_loop_position bounds.width ws (hall _ he h) 0 (by omega)
    rw [split_position_zero] at pz
    refine ⟨pz, split_position bounds.width ws i, split_position bounds.width ws (i + 1), ?_,
      split_position_within _ ws i hlen hw hW he hE h hs,
      split_position_within _ ws (i + 1) hlen hw hW he hE h hs⟩
    simp only [hbox.cell, hbox.create, hbox.fresh, hmod, p0, p1, Option.map_some']
  · intro he hE h hs
    have p0 := create_loop_position bounds.height ws (hall _ he h) i (by omega)
    have p1 := create_loop_position bounds.height ws (hall _ he h) (i + 1) (by omega)
    have pz := create_loop_position bounds.height ws (hall _ he h) 0 (by omega)
    rw [split_position_zero] at pz
    refine ⟨pz, split_position bounds.height ws i, split_position bounds.height ws (i + 1), ?_,
      split_position_within _ ws i hlen hw hW he hE h hs,
      split_position_within _ ws (i + 1) hlen hw hW he hE h hs⟩
    simp only [vbox.cell, vbox.create, vbox.fresh, hmod, p0, p1, Option.map_some']

/-- Witness of `weighted_split_positions`: the extent 100 with the weights 1
and 3, cell 0.  The exact quotient of boundary 1 is 25 and `25.5` is far from
an integer, so the boundary is the rounded quotient 25. -/
theorem weighted_split_positions_witness :
    ∃ a b : Int,
      Option.map (fun p => p.2) (((hbox.fresh 0).create ⟨0, 0, 100, 10⟩ [1, 3]).cell 0)
        = some ⟨0 + a, 0, 0 + b, 10⟩ ∧ a = 0 ∧ b = 25 := by
  obtain ⟨_, a, b, hc, ha, hb⟩ :=
    (weighted_split_positions ⟨0, 0, 100, 10⟩ [1, 3] 0 0 0 (by decide) (by decide)
      (by decide) (by decide)).1 (by decide) (by decide) (by decide) (by decide)
  have e0 : split_exact (rect.width ⟨0, 0, 100, 10⟩) [1, 3] 0 = 0 := by
    norm_num [split_exact, rect.width]
  have e1 : split_exact (rect.width ⟨0, 0, 100, 10⟩) [1, 3] 1 = 25 := by
    norm_num [split_exact, rect.width]
  have r0 : split_round (rect.width ⟨0, 0, 100, 10⟩) [1, 3] 0 = 0 := by decide
  have r1 : split_round (rect.width ⟨0, 0, 100, 10⟩) [1, 3] 1 = 25 := by decide
  refine ⟨a, b, hc, ?_, ?_⟩
  · have h := ha.2.2.2
    rw [r0] at h
    exact h (by norm_num [split_slack, e0]) (by norm_num [split_slack, e0])
  · have h := hb.2.2.2
    rw [r1] at h
    exact h (by norm_num [split_slack, e1]) (by norm_num [split_slack, e1])

end abcd
